import Mathlib

/-! Prefab instancing (Code/Sandbox/EditorQt/Objects/PrefabObject.cpp).

A shallow embedding of the identity remapping (`CPrefabChildGuidProvider`), the
deferred change queue (`CPrefabObject::SyncPrefab`, `SetAutoUpdatePrefab`) and the
membership reconciliation (`CPrefabObject::SerializeMembers`, input branch), with
the properties established about them.

Conventions.
* `uint64` values are natural numbers below `2 ^ 64`; the only arithmetic the
  embedded code performs on them is bitwise xor, which cannot leave that range
  (`GetFrom_wellFormed`), so no reduction modulo `2 ^ 64` appears.
* Object pointers are indices into the scene's object table; a null or dangling
  pointer dereference makes the embedded function return `none`.
* Calls into collaborators whose code is outside this file (the template item,
  the prefab manager, the object manager, the undo stack) are recorded in traces.
-/

namespace PrefabObject

/-! ## Identifiers -/

/-- A 128-bit identifier `CryGUID`: two `uint64` halves. -/
structure CryGUID where
  hipart : Nat := 0
  lopart : Nat := 0
deriving DecidableEq, Repr, Inhabited

/-- Both halves fit in 64 bits. -/
def CryGUID.wellFormed (g : CryGUID) : Prop :=
  g.hipart < 2 ^ 64 ∧ g.lopart < 2 ^ 64

instance (g : CryGUID) : Decidable g.wellFormed := by
  unfold CryGUID.wellFormed; infer_instance

/-- The null identifier `CryGUID::Null()`. -/
def CryGUID.Null : CryGUID := { hipart := 0, lopart := 0 }

/-- The function `CPrefabChildGuidProvider::IsValidChildGUid(id, pPrefabObject)`;
`prefabGuid` is `pPrefabObject->GetId()`. -/
def IsValidChildGUid (id : CryGUID) (prefabGuid : CryGUID) : Bool :=
  (prefabGuid.hipart ^^^ prefabGuid.lopart) == id.hipart

/-- The function `CPrefabChildGuidProvider::GetFrom(loadedGuid)`; `prefabGuid` is
`m_pPrefabObject->GetId()`. -/
def GetFrom (prefabGuid : CryGUID) (loadedGuid : CryGUID) : CryGUID :=
  { hipart := prefabGuid.hipart ^^^ prefabGuid.lopart, lopart := loadedGuid.hipart }

/-- The runtime ids an expansion of a template assigns under one instance: `GetFrom`
applied to every template-local id, in load order. -/
def expandIds (prefabGuid : CryGUID) (templateIds : List CryGUID) : List CryGUID :=
  templateIds.map (GetFrom prefabGuid)

/-! ## The deferred change queue -/

/-- Modelled from the spec: the enumeration `EObjectChangedOpType` is declared outside
PrefabObject.cpp; these are the operation kinds of a change record (the spec's Add,
Delete and ModifyTransform, with the `eOCOT_Modify` and
`eOCOT_ModifyTransformInLibOnly` enumerators PrefabObject.cpp names). -/
inductive EObjectChangedOpType where
  | eOCOT_Modify
  | eOCOT_ModifyTransform
  | eOCOT_ModifyTransformInLibOnly
  | eOCOT_Add
  | eOCOT_Delete
deriving DecidableEq, Repr, Inhabited

/-- A change record `SObjectChangedContext`, with the members PrefabObject.cpp
reads and writes. -/
structure SObjectChangedContext where
  m_operation : EObjectChangedOpType := EObjectChangedOpType.eOCOT_Modify
  m_modifiedObjectGlobalId : CryGUID := CryGUID.Null
  m_modifiedObjectGuidInPrefab : CryGUID := CryGUID.Null
deriving DecidableEq, Repr, Inhabited

/-- A pointer to a template item (`CPrefabItem*`). -/
abbrev ItemPtr := Nat

/-- A vector `Vec3`; the coordinates the embedded code writes are the integer
constants of the source, so integers stand for the floats. -/
structure Vec3 where
  x : Int := 0
  y : Int := 0
  z : Int := 0
deriving DecidableEq, Repr, Inhabited

/-- An axis-aligned box `AABB`. -/
structure AABB where
  min : Vec3 := {}
  max : Vec3 := {}
deriving DecidableEq, Repr, Inhabited

/-- Modelled from the spec: `AABB::Reset` is declared outside PrefabObject.cpp; it
gives the empty (degenerate) box, whose min lies above its max in every
coordinate, so that the first point added to it defines the box. -/
def AABB.Reset : AABB :=
  { min := { x := 1000000000000000, y := 1000000000000000, z := 1000000000000000 }
    max := { x := -1000000000000000, y := -1000000000000000, z := -1000000000000000 } }

/-- The fixed box `CalcBoundBox` writes for an instance without children: min
`Vec3(-1, -1, -1)` and max `Vec3(1, 1, 1)`. -/
def AABB.unit : AABB :=
  { min := { x := -1, y := -1, z := -1 }, max := { x := 1, y := 1, z := 1 } }

/-- The data members of a prefab instance `CPrefabObject` that the embedded member
functions touch; `m_guid` is what `GetId()` returns. -/
structure CPrefabObject where
  m_guid : CryGUID := CryGUID.Null
  m_prefabGUID : CryGUID := CryGUID.Null
  m_prefabName : String := ""
  m_pPrefabItem : Option ItemPtr := none
  m_bbox : AABB := {}
  m_bBBoxValid : Bool := false
  m_autoUpdatePrefabs : Bool := true
  m_bModifyInProgress : Bool := false
  m_bChangePivotPoint : Bool := false
  m_bSettingPrefabObj : Bool := false
  m_pendingChanges : List SObjectChangedContext := []
deriving DecidableEq, Repr, Inhabited

/-- The constructor `CPrefabObject::CPrefabObject()`: the template GUID is zeroed, the
bounds are invalid, auto update is on, and the string, pointer and vector members
are default-constructed (empty, null, empty). `id` is the id the object manager
gives the new object. -/
def CPrefabObject.ctor (id : CryGUID) : CPrefabObject :=
  { m_guid := id
    m_prefabGUID := CryGUID.Null
    m_prefabName := ""
    m_pPrefabItem := none
    m_bbox := { min := { x := 0, y := 0, z := 0 }, max := { x := 0, y := 0, z := 0 } }
    m_bBBoxValid := false
    m_autoUpdatePrefabs := true
    m_bModifyInProgress := false
    m_bChangePivotPoint := false
    m_bSettingPrefabObj := false
    m_pendingChanges := [] }

/-- Modelled from the spec: `CGroup::InvalidateBBox` is declared outside
PrefabObject.cpp; it invalidates the cached bounds, that is, it clears the flag
`m_bBBoxValid` that `CalcBoundBox` sets. -/
def InvalidateBBox (self : CPrefabObject) : CPrefabObject :=
  { self with m_bBBoxValid := false }

/-- Modelled from the spec: `CPrefabItem::UpdateFromPrefabObject` is defined outside
PrefabObject.cpp; the template updates its own serialized graph, so one call
`pItem->UpdateFromPrefabObject(this, context)` is, for the calling object, an event
of the trace and changes none of its members. -/
structure UpdateFromPrefabObjectCall where
  item : ItemPtr
  context : SObjectChangedContext
deriving DecidableEq, Repr

/-- What a member function leaves behind: the instance after the call and the calls
of `UpdateFromPrefabObject` it made, in order. -/
structure SyncResult where
  self : CPrefabObject
  forwarded : List UpdateFromPrefabObjectCall := []
deriving DecidableEq, Repr

/-- The test of the loop in `SyncPrefab`: same global object id and same operation. -/
def sameKey (change context : SObjectChangedContext) : Bool :=
  change.m_modifiedObjectGlobalId == context.m_modifiedObjectGlobalId
    && change.m_operation == context.m_operation

/-- The key of a pending record: (global object id, operation). -/
def changeKey (change : SObjectChangedContext) : CryGUID × EObjectChangedOpType :=
  (change.m_modifiedObjectGlobalId, change.m_operation)

/-- The range-for loop of `SyncPrefab` over `m_pendingChanges`: the first record with
the key of `context` is overwritten and the function returns (`some` of the new
queue); `none` when the loop runs to its end without a match. -/
def overwritePending (context : SObjectChangedContext) :
    List SObjectChangedContext → Option (List SObjectChangedContext)
  | [] => none
  | change :: rest =>
    if sameKey change context then some (context :: rest)
    else (overwritePending context rest).map (fun q => change :: q)

/-- The member function `CPrefabObject::SyncPrefab(context)`. -/
def SyncPrefab (self : CPrefabObject) (context : SObjectChangedContext) : SyncResult :=
  if !self.m_autoUpdatePrefabs then
    match overwritePending context self.m_pendingChanges with
    | some q => { self := { self with m_pendingChanges := q }, forwarded := [] }
    | none =>
      { self := { self with m_pendingChanges := self.m_pendingChanges ++ [context] },
        forwarded := [] }
  else
    let calls : List UpdateFromPrefabObjectCall :=
      match self.m_pPrefabItem with
      | some item => [{ item := item, context := context }]
      | none => []
    { self := InvalidateBBox self, forwarded := calls }

/-- The loop of `SetAutoUpdatePrefab` over the pending records: `SyncPrefab` on each,
in queue order, accumulating the forwarded calls. -/
def flushPending : List SObjectChangedContext → SyncResult → SyncResult
  | [], acc => acc
  | change :: rest, acc =>
    let r := SyncPrefab acc.self change
    flushPending rest { self := r.self, forwarded := acc.forwarded ++ r.forwarded }

/-- The member function `CPrefabObject::SetAutoUpdatePrefab(autoUpdate)`. -/
def SetAutoUpdatePrefab (self : CPrefabObject) (autoUpdate : Bool) : SyncResult :=
  let self1 := { self with m_autoUpdatePrefabs := autoUpdate }
  if self1.m_autoUpdatePrefabs then
    let r := flushPending self1.m_pendingChanges { self := self1, forwarded := [] }
    { self := { r.self with m_pendingChanges := [] }, forwarded := r.forwarded }
  else
    { self := self1, forwarded := [] }

/-- A call of one of the two member functions that touch the pending queue. -/
inductive QueueCall where
  | syncPrefab (context : SObjectChangedContext)
  | setAutoUpdatePrefab (autoUpdate : Bool)
deriving DecidableEq, Repr

/-- The instance after one call. -/
def QueueCall.apply (self : CPrefabObject) : QueueCall → CPrefabObject
  | QueueCall.syncPrefab context => (SyncPrefab self context).self
  | QueueCall.setAutoUpdatePrefab autoUpdate => (SetAutoUpdatePrefab self autoUpdate).self

/-- The instance after a sequence of calls, first call first. -/
def runCalls (self : CPrefabObject) (calls : List QueueCall) : CPrefabObject :=
  calls.foldl QueueCall.apply self

/-! ## The scene and the membership reconciliation -/

/-- A pointer to a scene object (`CBaseObject*`): an index into the object table. -/
abbrev ObjPtr := Nat

/-- A pointer to a layer (`IObjectLayer*`). -/
abbrev LayerPtr := Nat

/-- The members of a scene object `CBaseObject` that the embedded functions read and
write: `GetId()`, `GetName()`, `GetParent()`, the child array behind
`GetChildCount()` and `GetChild(i)`, `GetLinkedTo()`, the array behind
`GetLinkedObjectCount()` and `GetLinkedObject(i)`, the bit `OBJFLAG_PREFAB` of the
flags, `GetLayer()`, `GetIdInPrefab()`, and, for an object of the class
`CPrefabObject` (`IsKindOf(RUNTIME_CLASS(CPrefabObject))`), its prefab members. -/
structure CBaseObject where
  m_guid : CryGUID := CryGUID.Null
  m_name : String := ""
  m_parent : Option ObjPtr := none
  m_childs : List ObjPtr := []
  m_linkedTo : Option ObjPtr := none
  m_linkedObjects : List ObjPtr := []
  m_prefabFlag : Bool := false
  m_layer : Option LayerPtr := none
  m_idInPrefab : CryGUID := CryGUID.Null
  m_prefab : Option CPrefabObject := none
deriving DecidableEq, Repr, Inhabited

/-- The object manager: the table of live objects; a deleted object leaves an empty
slot, so pointers to the other objects stay valid. -/
structure ObjectManager where
  m_objects : List (Option CBaseObject) := []
deriving DecidableEq, Repr, Inhabited

/-- Dereference of an object pointer; `none` for a dangling pointer. -/
def ObjectManager.get (om : ObjectManager) (p : ObjPtr) : Option CBaseObject :=
  (om.m_objects.get? p).join

/-- Whether a slot holds a live object with the given id. -/
def slotHasGuid (guid : CryGUID) : Option CBaseObject → Bool
  | some obj => obj.m_guid == guid
  | none => false

/-- The lookup `GetObjectManager()->FindObject(guid)`: the object with that id, or
null (`none`). -/
def ObjectManager.FindObject (om : ObjectManager) (guid : CryGUID) : Option ObjPtr :=
  let i := om.m_objects.findIdx (slotHasGuid guid)
  if i < om.m_objects.length then some i else none

/-- Update of the object a pointer refers to; nothing happens at an empty slot. -/
def ObjectManager.modify (om : ObjectManager) (p : ObjPtr) (f : CBaseObject → CBaseObject) :
    ObjectManager :=
  { m_objects := om.m_objects.modify (Option.map f) p }

/-- An entry `Serialization::PrefabLink` of the serialized member list: the id and
the name of a member and the id of the owning prefab. -/
structure PrefabLink where
  guid : CryGUID := CryGUID.Null
  name : String := ""
  owner : CryGUID := CryGUID.Null
deriving DecidableEq, Repr, Inhabited

/-- The calls `SerializeMembers` makes on its collaborators, as trace events: opening
an undo record (`CUndo undo(description)`), `AttachObjectToPrefab(prefab, object)`
on the prefab manager and `DeleteObject(object)` on the object manager, whose
argument is null when the lookup before it found nothing. -/
inductive EditorCall where
  | UndoBegin (description : String)
  | AttachObjectToPrefab (prefab : ObjPtr) (object : ObjPtr)
  | DeleteObject (object : Option ObjPtr)
deriving DecidableEq, Repr

/-- Whether a trace event is an `AttachObjectToPrefab`. -/
def EditorCall.isAttach : EditorCall → Bool
  | EditorCall.AttachObjectToPrefab _ _ => true
  | _ => false

/-- Whether a trace event is a `DeleteObject`. -/
def EditorCall.isDelete : EditorCall → Bool
  | EditorCall.DeleteObject _ => true
  | _ => false

/-- The scene and the trace while `SerializeMembers` runs. -/
structure ReconcileState where
  om : ObjectManager
  calls : List EditorCall := []
deriving DecidableEq, Repr

/-- Modelled from the spec: `CPrefabManager::AttachObjectToPrefab` is defined outside
PrefabObject.cpp; the attach operation makes the object a direct child of the
prefab: it leaves the child array of its former parent, its parent pointer becomes
the prefab and it is appended to the child array of the prefab. -/
def AttachObjectToPrefab (om : ObjectManager) (prefab object : ObjPtr) : ObjectManager :=
  let om1 :=
    match (om.get object).bind (fun obj => obj.m_parent) with
    | some old => om.modify old (fun o => { o with m_childs := o.m_childs.erase object })
    | none => om
  let om2 := om1.modify object (fun o => { o with m_parent := some prefab })
  om2.modify prefab (fun o => { o with m_childs := o.m_childs ++ [object] })

/-- Modelled from the spec: `CObjectManager::DeleteObject` is defined outside
PrefabObject.cpp; the removal takes the object out of the child array of its parent
and out of the scene; a null argument changes nothing. -/
def DeleteObject (om : ObjectManager) : Option ObjPtr → ObjectManager
  | none => om
  | some object =>
    let om1 :=
      match (om.get object).bind (fun obj => obj.m_parent) with
      | some old => om.modify old (fun o => { o with m_childs := o.m_childs.erase object })
      | none => om
    { m_objects := om1.m_objects.set object none }

/-- The first loop of `SerializeMembers`: `GetChild(i)` dereferenced for every child;
`none` when a child pointer dangles. -/
def getChildObjects (om : ObjectManager) : List ObjPtr → Option (List CBaseObject)
  | [] => some []
  | p :: rest =>
    match om.get p with
    | none => none
    | some obj => (getChildObjects om rest).map (fun objs => obj :: objs)

/-- The comparison loop of the input branch, run when both arrays have the same
size: `true` as soon as a child id differs from the id at the same position of the
submitted list. -/
def idsDiffer : List CBaseObject → List PrefabLink → Bool
  | child :: children, link :: links =>
    if child.m_guid != link.guid then true else idsDiffer children links
  | _, _ => false

/-- The value of `changed` in the input branch. -/
def membersChanged (children : List CBaseObject) (links : List PrefabLink) : Bool :=
  if links.length == children.length then idsDiffer children links else true

/-- The insertion `childGuids.insert(id)` into the `std::unordered_set`: a set holds
an id once. The set is kept as a list without repetitions; the order in which the
container is iterated is unspecified, the list fixes it as the insertion order. -/
def guidSetInsert (childGuids : List CryGUID) (id : CryGUID) : List CryGUID :=
  if childGuids.contains id then childGuids else childGuids ++ [id]

/-- The loop that fills `childGuids` with the ids of the children; the children were
all dereferenced before, so the null test of the loop never skips one. -/
def collectChildGuids (children : List CBaseObject) : List CryGUID :=
  children.foldl (fun set child => guidSetInsert set child.m_guid) []

/-- The body of the loop over the submitted links: an id that is not in `childGuids`
is looked up and, unless its parent is already this prefab, attached; an id that is
in `childGuids` is erased from it. `none` when the lookup returns null, which the
code dereferences. -/
def attachStep (self : ObjPtr) (st : ReconcileState) (childGuids : List CryGUID)
    (link : PrefabLink) : Option (ReconcileState × List CryGUID) :=
  if !childGuids.contains link.guid then
    match st.om.FindObject link.guid with
    | none => none
    | some pObject =>
      match st.om.get pObject with
      | none => none
      | some obj =>
        if obj.m_parent != some self then
          some ({ om := AttachObjectToPrefab st.om self pObject,
                  calls := st.calls ++ [EditorCall.AttachObjectToPrefab self pObject] },
                childGuids)
        else some (st, childGuids)
  else some (st, childGuids.erase link.guid)

/-- The loop over the submitted links. -/
def attachLoop (self : ObjPtr) :
    List PrefabLink → ReconcileState → List CryGUID → Option (ReconcileState × List CryGUID)
  | [], st, childGuids => some (st, childGuids)
  | link :: links, st, childGuids =>
    match attachStep self st childGuids link with
    | none => none
    | some (st1, childGuids1) => attachLoop self links st1 childGuids1

/-- The loop over the ids left in `childGuids`: each is looked up and the result is
passed to `DeleteObject`. -/
def deleteLoop : List CryGUID → ReconcileState → ReconcileState
  | [], st => st
  | idToBeRemoved :: rest, st =>
    let pObject := st.om.FindObject idToBeRemoved
    deleteLoop rest { om := DeleteObject st.om pObject,
                      calls := st.calls ++ [EditorCall.DeleteObject pObject] }

/-- The input branch of `CPrefabObject::SerializeMembers(ar)` (`ar.isInput()`), for
the prefab `self`; `links` is the member list after `ar(links, ...)` has read the
submitted list into it (before that the function dereferences every child to fill
the list; the edit-mode block ahead of it only declares two buttons). The result is
the scene and the trace of collaborator calls; `none` when the code dereferences a
null or dangling pointer. -/
def SerializeMembers (self : ObjPtr) (om : ObjectManager) (links : List PrefabLink) :
    Option ReconcileState :=
  match om.get self with
  | none => none
  | some prefab =>
    match getChildObjects om prefab.m_childs with
    | none => none
    | some children =>
      if membersChanged children links then
        let childGuids := collectChildGuids children
        let st0 : ReconcileState :=
          { om := om, calls := [EditorCall.UndoBegin "Modify Prefab"] }
        match attachLoop self links st0 childGuids with
        | none => none
        | some (st1, remaining) => some (deleteLoop remaining st1)
      else some { om := om, calls := [] }

/-- The ids of the current children of a prefab, in child order (the list the
reconciliation calls C); empty when the prefab or a child pointer dangles. -/
def childIds (om : ObjectManager) (self : ObjPtr) : List CryGUID :=
  match om.get self with
  | none => []
  | some prefab =>
    match getChildObjects om prefab.m_childs with
    | none => []
    | some children => children.map (fun child => child.m_guid)

/-- The number of `AttachObjectToPrefab` operations in a trace. -/
def attachCount (calls : List EditorCall) : Nat :=
  (calls.filter EditorCall.isAttach).length

/-- The number of `DeleteObject` operations in a trace. -/
def deleteCount (calls : List EditorCall) : Nat :=
  (calls.filter EditorCall.isDelete).length

/-- The prefab and the object of an `AttachObjectToPrefab` operation of a trace. -/
def EditorCall.attached : EditorCall → Option (ObjPtr × ObjPtr)
  | EditorCall.AttachObjectToPrefab prefab object => some (prefab, object)
  | _ => none

/-- The argument of a `DeleteObject` operation of a trace. -/
def EditorCall.deleted : EditorCall → Option (Option ObjPtr)
  | EditorCall.DeleteObject object => some object
  | _ => none

/-- The effect of one collaborator call of a trace on the scene. -/
def applyEditorCall (om : ObjectManager) : EditorCall → ObjectManager
  | EditorCall.UndoBegin _ => om
  | EditorCall.AttachObjectToPrefab prefab object => AttachObjectToPrefab om prefab object
  | EditorCall.DeleteObject object => DeleteObject om object

/-- The scene after the collaborator calls of a trace, made in order. -/
def replayCalls (om : ObjectManager) (calls : List EditorCall) : ObjectManager :=
  calls.foldl applyEditorCall om

/-- The scene invariant the object hierarchy maintains for a prefab: its own pointer
and its child pointers are live, and every object whose parent pointer is the
prefab is in the child array of the prefab. -/
def sceneConsistent (om : ObjectManager) (self : ObjPtr) : Prop :=
  ∃ prefab children, om.get self = some prefab
    ∧ getChildObjects om prefab.m_childs = some children
    ∧ ∀ p obj, om.get p = some obj → obj.m_parent = some self → p ∈ prefab.m_childs

/-! ## Bounds -/

/-- One accumulation step of `Prefab_RecursivelyGetBoundBox`: the object whose local
bounds are added, and the transform `worldTM` they are taken through, kept as the
chain of objects whose local transforms are multiplied (the identity is the empty
chain). -/
structure BoundsVisit where
  object : ObjPtr
  worldTM : List ObjPtr := []
deriving DecidableEq, Repr

/-- A loop `for (i = 0; i < n; i++) visit(array[i])` whose calls append to one output
vector: what the calls append, in order; `none` when one of the calls has no
result. -/
def collectVisits {α : Type} (visit : ObjPtr → Option (List α)) :
    List ObjPtr → Option (List α)
  | [] => some []
  | p :: rest =>
    match visit p, collectVisits visit rest with
    | some a, some b => some (a ++ b)
    | _, _ => none

/-- The static function `Prefab_RecursivelyGetBoundBox(object, box, parentTM)`, as the
sequence of its accumulation steps: nothing for an object without the prefab flag;
otherwise the object itself, then the recursion into its children, then the
recursion into its linked objects. The first argument bounds the recursion depth;
`none` when it is exhausted or a pointer dangles. -/
def Prefab_RecursivelyGetBoundBox (om : ObjectManager) :
    Nat → ObjPtr → List ObjPtr → Option (List BoundsVisit)
  | 0, _, _ => none
  | fuel + 1, object, parentTM =>
    match om.get object with
    | none => none
    | some obj =>
      if !obj.m_prefabFlag then some []
      else
        let worldTM := parentTM ++ [object]
        match collectVisits (fun c => Prefab_RecursivelyGetBoundBox om fuel c worldTM)
                obj.m_childs,
              collectVisits (fun c => Prefab_RecursivelyGetBoundBox om fuel c worldTM)
                obj.m_linkedObjects with
        | some a, some b => some ({ object := object, worldTM := worldTM } :: (a ++ b))
        | _, _ => none

/-- The body of the loop of `CalcBoundBox` over the direct children: the recursion is
entered for a child with the prefab flag, with the identity transform. -/
def calcBoundBoxChild (om : ObjectManager) (fuel : Nat) (child : ObjPtr) :
    Option (List BoundsVisit) :=
  match om.get child with
  | none => none
  | some obj =>
    if obj.m_prefabFlag then Prefab_RecursivelyGetBoundBox om fuel child [] else some []

/-- What `CalcBoundBox` leaves behind: the instance with its new bounds, and the
accumulation steps that were made. -/
structure BoundsResult where
  self : CPrefabObject
  visited : List BoundsVisit := []
deriving DecidableEq, Repr

/-- The member function `CPrefabObject::CalcBoundBox()` of the prefab at `selfPtr`
with the members `self`. The box starts as the reset box; `addBounds` is the
floating-point part of one accumulation step (the local bounds of the object
transformed by `worldTM`, its min and max added to the box) and is a parameter.
The unit box is written when the child count is zero. -/
def CalcBoundBox (addBounds : AABB → BoundsVisit → AABB) (fuel : Nat) (om : ObjectManager)
    (selfPtr : ObjPtr) (self : CPrefabObject) : Option BoundsResult :=
  match om.get selfPtr with
  | none => none
  | some this =>
    let numChilds := this.m_childs.length
    match collectVisits (calcBoundBoxChild om fuel) this.m_childs with
    | none => none
    | some visited =>
      let box := visited.foldl addBounds AABB.Reset
      let box := if numChilds == 0 then AABB.unit else box
      some { self := { self with m_bbox := box, m_bBBoxValid := true }, visited := visited }

/-- A path from one object to another along child edges and linked-object edges on
which every object, the first and the last included, has the prefab flag. -/
inductive TaggedPath (om : ObjectManager) : ObjPtr → ObjPtr → Prop where
  | here (p : ObjPtr) (obj : CBaseObject) :
      om.get p = some obj → obj.m_prefabFlag = true → TaggedPath om p p
  | child (p c q : ObjPtr) (obj : CBaseObject) :
      om.get p = some obj → obj.m_prefabFlag = true → c ∈ obj.m_childs →
      TaggedPath om c q → TaggedPath om p q
  | linked (p c q : ObjPtr) (obj : CBaseObject) :
      om.get p = some obj → obj.m_prefabFlag = true → c ∈ obj.m_linkedObjects →
      TaggedPath om c q → TaggedPath om p q

/-- The scene is closed and its hierarchy is well-founded: every child pointer and
every linked-object pointer of a live object is live and has a smaller rank than
the object, so that the recursion over children and linked objects ends. -/
def hierarchyWellFounded (om : ObjectManager) (rank : ObjPtr → Nat) : Prop :=
  ∀ p obj, om.get p = some obj → ∀ c, c ∈ obj.m_childs ∨ c ∈ obj.m_linkedObjects →
    (om.get c).isSome = true ∧ rank c < rank p

/-! ## Expansion: attaching the loaded objects, ids in the prefab -/

/-- Modelled from the spec: `CBaseObject::SetLayer` is defined outside
PrefabObject.cpp; it assigns the layer of the object. -/
def SetLayer (pLayer : Option LayerPtr) (object : CBaseObject) : CBaseObject :=
  { object with m_layer := pLayer }

/-- The member function `CPrefabObject::SetObjectPrefabFlagAndLayer(object)` of the
prefab at `self`: the object gets the flag `OBJFLAG_PREFAB` and the layer
`GetLayer()` of the prefab; `none` when the prefab pointer dangles. -/
def SetObjectPrefabFlagAndLayer (om : ObjectManager) (self object : ObjPtr) :
    Option ObjectManager :=
  match om.get self with
  | none => none
  | some this =>
    some (om.modify object (fun o => SetLayer this.m_layer { o with m_prefabFlag := true }))

/-- Modelled from the spec: `AttachChildren` of the object hierarchy is defined outside
PrefabObject.cpp; every object of the list becomes a direct child of the prefab,
in list order: it leaves the child array of its former parent, its parent pointer
becomes the prefab and it is appended to the child array of the prefab. -/
def AttachChildren (om : ObjectManager) (self : ObjPtr) (objects : List ObjPtr) :
    ObjectManager :=
  objects.foldl (fun acc object => AttachObjectToPrefab acc self object) om

/-- The loop of `AttachLoadedChildrenToPrefab` over the loaded objects, with the
vector `objects` collected so far: the layer is set, an object without parent and
without link target is pushed, then the prefab flag and the layer of the prefab
are set. `none` when a pointer dangles. -/
def attachLoadedLoop (self : ObjPtr) (pLayer : Option LayerPtr) :
    List ObjPtr → ObjectManager → List ObjPtr → Option (ObjectManager × List ObjPtr)
  | [], om, objects => some (om, objects)
  | p :: rest, om, objects =>
    let om1 := om.modify p (SetLayer pLayer)
    match om1.get p with
    | none => none
    | some obj =>
      let objects1 :=
        if obj.m_parent.isNone && obj.m_linkedTo.isNone then objects ++ [p] else objects
      match SetObjectPrefabFlagAndLayer om1 self p with
      | none => none
      | some om2 => attachLoadedLoop self pLayer rest om2 objects1

/-- What `AttachLoadedChildrenToPrefab` leaves behind: the scene, and the vector of
objects it passed to `AttachChildren`. -/
structure AttachLoadedResult where
  om : ObjectManager
  attached : List ObjPtr := []
deriving DecidableEq, Repr

/-- The member function `CPrefabObject::AttachLoadedChildrenToPrefab(ar, pLayer)` of
the prefab at `self`; `loaded` are the objects `ar.GetLoadedObject(i)` of the
archive, in load order. -/
def AttachLoadedChildrenToPrefab (om : ObjectManager) (self : ObjPtr)
    (loaded : List ObjPtr) (pLayer : Option LayerPtr) : Option AttachLoadedResult :=
  match attachLoadedLoop self pLayer loaded om [] with
  | none => none
  | some (om1, objects) =>
    some { om := AttachChildren om1 self objects, attached := objects }

/-- An object has neither a parent nor a link target. -/
def isUnattached (om : ObjectManager) (p : ObjPtr) : Bool :=
  match om.get p with
  | some obj => obj.m_parent.isNone && obj.m_linkedTo.isNone
  | none => false

/-- The member function `CPrefabObject::InitObjectPrefabId(object)`: an object whose
id in the prefab is null gets its current global id as id in the prefab. -/
def InitObjectPrefabId (object : CBaseObject) : CBaseObject :=
  if object.m_idInPrefab == CryGUID.Null then { object with m_idInPrefab := object.m_guid }
  else object

/-- The body of the loop of `GenerateGUIDsForObjectAndChildren` for one object: flag
and layer, `InitObjectPrefabId`, then `ChangeObjectId` to the new id. The new id
comes from `CPrefabChildGuidProvider::GetFor`, which is declared outside
PrefabObject.cpp and is a parameter, like the layer of the prefab. -/
def generateGuidFor (GetFor : CBaseObject → CryGUID) (thisLayer : Option LayerPtr)
    (object : CBaseObject) : CBaseObject :=
  let flagged := SetLayer thisLayer { object with m_prefabFlag := true }
  let initialised := InitObjectPrefabId flagged
  { initialised with m_guid := GetFor initialised }

/-! ## Binding a template -/

/-- A handle to an XML node (`XmlNodeRef`). -/
abbrev XmlNodeRef := Nat

/-- Modelled from the spec: the class `CPrefabItem` is declared outside
PrefabObject.cpp; a template has a stable identifier (`GetGUID()`), a full name
(`GetFullName()`) and a serialized object graph (`GetObjectsNode()`), which is
null when the template has no object-graph payload. -/
structure CPrefabItem where
  m_guid : CryGUID := CryGUID.Null
  m_fullName : String := ""
  m_objectsNode : Option XmlNodeRef := none
deriving DecidableEq, Repr, Inhabited

/-- The library of templates behind the prefab manager; an item pointer is an index
into it. -/
structure PrefabLibrary where
  m_items : List CPrefabItem := []
deriving DecidableEq, Repr, Inhabited

/-- Dereference of an item pointer; `none` for a dangling pointer. -/
def PrefabLibrary.get (lib : PrefabLibrary) (p : ItemPtr) : Option CPrefabItem :=
  lib.m_items.get? p

/-- Modelled from the spec: `CPrefabManager::LoadItem(guid)` is defined outside
PrefabObject.cpp; it resolves a template identifier to the template with that
identifier, or to null (`none`) when the library has none. -/
def PrefabLibrary.LoadItem (lib : PrefabLibrary) (guid : CryGUID) : Option ItemPtr :=
  let i := lib.m_items.findIdx (fun item => item.m_guid == guid)
  if i < lib.m_items.length then some i else none

/-- The calls `SetPrefab` makes on its collaborators, as trace events. -/
inductive SetPrefabEvent where
  | SetCurrentlySettingPrefab (setting : Bool)
  | DeleteObjects (objects : List ObjPtr)
  | StoreUndo (description : String)
  | CryWarning (text : String)
  | SetSkipPrefabUpdate (skip : Bool)
  | LoadObjects (objectsXml : XmlNodeRef)
  | ForceID (id : Nat)
  | ResolveObjects
  | AttachChildren (objects : List ObjPtr)
  | InvalidateTM
  | SyncParentObject
  | SetMinSpec
deriving DecidableEq, Repr

/-- The editor state `SetPrefab` works on: the scene, the id the object manager is
forced to use (`ForceID`; 0 means disabled), and the trace of collaborator calls. -/
structure EditorWorld where
  om : ObjectManager := {}
  forcedId : Nat := 0
  events : List SetPrefabEvent := []
deriving DecidableEq, Repr

/-- What `SetPrefab` leaves behind: the editor state and the members of the
instance. -/
structure SetPrefabResult where
  world : EditorWorld
  self : CPrefabObject
deriving DecidableEq, Repr

/-- One more event in the trace. -/
def EditorWorld.emit (w : EditorWorld) (e : SetPrefabEvent) : EditorWorld :=
  { w with events := w.events ++ [e] }

/-- Modelled from the spec: `GetAllPrefabFlagedChildren` is defined outside
PrefabObject.cpp; it collects the children of the instance that are tagged
prefab-member; `none` when a child pointer dangles. -/
def GetAllPrefabFlagedChildren (om : ObjectManager) : List ObjPtr → Option (List ObjPtr)
  | [] => some []
  | c :: rest =>
    match om.get c, GetAllPrefabFlagedChildren om rest with
    | some obj, some tagged => some (if obj.m_prefabFlag then c :: tagged else tagged)
    | _, _ => none

/-- Modelled from the spec: `DetachAll` of the object hierarchy is defined outside
PrefabObject.cpp; it detaches every child: the parent pointer of each child is
cleared and the child array of the object is emptied. -/
def DetachAll (om : ObjectManager) (self : ObjPtr) : ObjectManager :=
  match om.get self with
  | none => om
  | some this =>
    (this.m_childs.foldl (fun acc c => acc.modify c (fun o => { o with m_parent := none })) om).modify
      self (fun o => { o with m_childs := [] })

/-- Modelled from the spec: `CObjectManager::DeleteObjects` is defined outside
PrefabObject.cpp; it deletes the objects of the list, in list order. -/
def DeleteObjects (om : ObjectManager) (objects : List ObjPtr) : ObjectManager :=
  objects.foldl (fun acc object => DeleteObject acc (some object)) om

/-- The member function `CPrefabObject::DeleteAllPrefabObjects()` of the prefab at
`selfPtr`. -/
def DeleteAllPrefabObjects (w : EditorWorld) (selfPtr : ObjPtr) : Option EditorWorld :=
  match w.om.get selfPtr with
  | none => none
  | some this =>
    match GetAllPrefabFlagedChildren w.om this.m_childs with
    | none => none
    | some children =>
      some ({ w with om := DeleteObjects (DetachAll w.om selfPtr) children }.emit
        (SetPrefabEvent.DeleteObjects children))

/-- The member function `CPrefabObject::DeleteChildrenWithoutUpdating()`: with undo
suspended it calls `SuspendUpdate(false)`, which without the force argument only
reads members, then `DeleteAllPrefabObjects()`, then `ResumeUpdate()`, whose body
does nothing. -/
def DeleteChildrenWithoutUpdating (w : EditorWorld) (selfPtr : ObjPtr) : Option EditorWorld :=
  DeleteAllPrefabObjects w selfPtr

/-- The member function `CPrefabObject::SetPrefab(CPrefabItem* pPrefab)`: the signal
connections aside, it stores the pointer. -/
def SetPrefab_ptr (self : CPrefabObject) (pPrefab : Option ItemPtr) : CPrefabObject :=
  { self with m_pPrefabItem := pPrefab }

/-- The member function `CPrefabObject::SetPrefab(CPrefabItem* pPrefab, bool
bForceReload)` of the prefab at `selfPtr` with the members `self`. `loader` is the
archive (`CObjectArchive`, outside PrefabObject.cpp) as a parameter: for a scene,
an objects node and the id of the instance it gives the scene after `LoadObjects`
and `ResolveObjects`, and the loaded objects in load order. `none` when a pointer
dangles. -/
def SetPrefab_item (loader : ObjectManager → XmlNodeRef → CryGUID → ObjectManager × List ObjPtr)
    (lib : PrefabLibrary) (selfPtr : ObjPtr) (w : EditorWorld) (self : CPrefabObject)
    (pPrefab : Option ItemPtr) (bForceReload : Bool) : Option SetPrefabResult :=
  match pPrefab with
  | none => some { world := w, self := self }
  | some item =>
    if self.m_pPrefabItem == some item && !bForceReload then some { world := w, self := self }
    else
      match lib.get item with
      | none => none
      | some prefabItem =>
        let w0 := w.emit (SetPrefabEvent.SetCurrentlySettingPrefab true)
        match DeleteChildrenWithoutUpdating w0 selfPtr with
        | none => none
        | some w1 =>
          let self1 :=
            { SetPrefab_ptr self (some item) with
              m_prefabGUID := prefabItem.m_guid
              m_prefabName := prefabItem.m_fullName }
          let w2 := w1.emit (SetPrefabEvent.StoreUndo "Set Prefab")
          match prefabItem.m_objectsNode with
          | none =>
            some { world := (w2.emit (SetPrefabEvent.CryWarning
                              "Prefab does not contain objects")).emit
                              (SetPrefabEvent.SetCurrentlySettingPrefab false),
                   self := self1 }
          | some objectsXml =>
            match w2.om.get selfPtr with
            | none => none
            | some this =>
              let pThisLayer := this.m_layer
              let w3 := (w2.emit (SetPrefabEvent.SetSkipPrefabUpdate true)).emit
                (SetPrefabEvent.LoadObjects objectsXml)
              let w4 := { w3 with forcedId := self1.m_guid.hipart >>> 32 }.emit
                (SetPrefabEvent.ForceID (self1.m_guid.hipart >>> 32))
              let resolved := loader w4.om objectsXml self1.m_guid
              let w5 := { w4 with om := resolved.1 }.emit SetPrefabEvent.ResolveObjects
              match AttachLoadedChildrenToPrefab w5.om selfPtr resolved.2 pThisLayer with
              | none => none
              | some r =>
                let w6 := ({ w5 with om := r.om }.emit
                  (SetPrefabEvent.AttachChildren r.attached)).emit SetPrefabEvent.InvalidateTM
                let w7 := { w6 with forcedId := 0 }.emit (SetPrefabEvent.ForceID 0)
                let self2 := InvalidateBBox self1
                let w8 := ((w7.emit SetPrefabEvent.SyncParentObject).emit
                  (SetPrefabEvent.SetCurrentlySettingPrefab false)).emit
                  (SetPrefabEvent.SetSkipPrefabUpdate false)
                some { world := w8, self := self2 }

/-- The member function `CPrefabObject::SetPrefab(CryGUID guid, bool bForceReload)`. -/
def SetPrefab_guid (loader : ObjectManager → XmlNodeRef → CryGUID → ObjectManager × List ObjPtr)
    (lib : PrefabLibrary) (selfPtr : ObjPtr) (w : EditorWorld) (self : CPrefabObject)
    (guid : CryGUID) (bForceReload : Bool) : Option SetPrefabResult :=
  if self.m_prefabGUID == guid && bForceReload == false then some { world := w, self := self }
  else
    let self1 := { self with m_prefabGUID := guid }
    match lib.LoadItem guid with
    | some pPrefab => SetPrefab_item loader lib selfPtr w self1 (some pPrefab) bForceReload
    | none =>
      let self2 :=
        if self1.m_prefabName == "" then { self1 with m_prefabName := "Unknown Prefab" }
        else self1
      some { world := (w.emit (SetPrefabEvent.CryWarning "Cannot find Prefab")).emit
                        SetPrefabEvent.SetMinSpec,
             self := self2 }

/-! ## Accepting members -/

/-- The template item of a scene object (`GetPrefabItem()` of a `CPrefabObject`). -/
def prefabItemOf (obj : CBaseObject) : Option ItemPtr :=
  obj.m_prefab.bind (fun prefab => prefab.m_pPrefabItem)

/-- The loop `while (pToAddRoot->GetParent()) pToAddRoot = pToAddRoot->GetParent()` of
`CanAddMembers`: the top of the hierarchy of an object. The first argument bounds
the number of steps; `none` when it is exhausted or a pointer dangles. -/
def hierarchyRoot (om : ObjectManager) : Nat → ObjPtr → Option ObjPtr
  | 0, _ => none
  | fuel + 1, p =>
    match om.get p with
    | none => none
    | some obj =>
      match obj.m_parent with
      | none => some p
      | some parent => hierarchyRoot om fuel parent

/-- Modelled from the spec: `CPrefabPicker::GetAllPrefabObjectDescendants` is defined
outside PrefabObject.cpp; it collects every prefab object below an object: each
child that is a `CPrefabObject`, followed by what the recursion into the child
collects. The first argument bounds the recursion depth. -/
def GetAllPrefabObjectDescendants (om : ObjectManager) : Nat → ObjPtr → Option (List ObjPtr)
  | 0, _ => none
  | fuel + 1, p =>
    match om.get p with
    | none => none
    | some obj =>
      collectVisits
        (fun c =>
          match om.get c, GetAllPrefabObjectDescendants om fuel c with
          | some child, some below => some (if child.m_prefab.isSome then c :: below else below)
          | _, _ => none)
        obj.m_childs

/-- The inner loop of `CanAddMembers` over the prefab objects of one hierarchy:
`some true` when the `return false` is reached, `some false` when the loop runs to
its end. `GetPrefab` (the owning prefab of an object, declared outside
PrefabObject.cpp) is a parameter; it is read only inside the block guarded by
`this != this`. -/
def refusesDescendant (GetPrefab : ObjPtr → Option ObjPtr) (om : ObjectManager)
    (self : ObjPtr) (this : CBaseObject) : List ObjPtr → Option Bool
  | [] => some false
  | p :: rest =>
    match om.get p with
    | none => none
    | some pToAddPrefabDescendant =>
      if self != p && prefabItemOf this == prefabItemOf pToAddPrefabDescendant then
        if self != self then
          match GetPrefab self, GetPrefab p with
          | some currentParent, some toAddParent =>
            match om.get currentParent, om.get toAddParent with
            | some a, some b =>
              if prefabItemOf a != prefabItemOf b then
                refusesDescendant GetPrefab om self this rest
              else some true
            | _, _ => none
          | _, _ => refusesDescendant GetPrefab om self this rest
        else some true
      else refusesDescendant GetPrefab om self this rest

/-- The outer loop of `CanAddMembers` over the objects to add. -/
def canAddLoop (GetPrefab : ObjPtr → Option ObjPtr) (fuel : Nat) (om : ObjectManager)
    (self : ObjPtr) (this : CBaseObject) : List ObjPtr → Option Bool
  | [] => some true
  | pToAdd :: rest =>
    match hierarchyRoot om fuel pToAdd with
    | none => none
    | some pToAddRoot =>
      match GetAllPrefabObjectDescendants om fuel pToAddRoot, om.get pToAddRoot with
      | some descendants, some rootObj =>
        let toAddPrefabDescendants :=
          if rootObj.m_prefab.isSome then descendants ++ [pToAddRoot] else descendants
        match refusesDescendant GetPrefab om self this toAddPrefabDescendants with
        | none => none
        | some true => some false
        | some false => canAddLoop GetPrefab fuel om self this rest
      | _, _ => none

/-- The member function `CPrefabObject::CanAddMembers(objects)` of the prefab at
`self`; `groupCanAddMembers` is the result of `CGroup::CanAddMembers(objects)`,
which is defined outside PrefabObject.cpp. -/
def CanAddMembers (groupCanAddMembers : Bool) (GetPrefab : ObjPtr → Option ObjPtr)
    (fuel : Nat) (om : ObjectManager) (self : ObjPtr) (objects : List ObjPtr) : Option Bool :=
  if !groupCanAddMembers then some false
  else
    match om.get self with
    | none => none
    | some this => canAddLoop GetPrefab fuel om self this objects

/-- Following parent pointers from an object leads to a top object, one without
parent. -/
inductive HierarchyRoot (om : ObjectManager) : ObjPtr → ObjPtr → Prop where
  | top (p : ObjPtr) (obj : CBaseObject) :
      om.get p = some obj → obj.m_parent = none → HierarchyRoot om p p
  | up (p parent root : ObjPtr) (obj : CBaseObject) :
      om.get p = some obj → obj.m_parent = some parent → HierarchyRoot om parent root →
      HierarchyRoot om p root

/-- An object is below another: a child, or below a child. -/
inductive Below (om : ObjectManager) : ObjPtr → ObjPtr → Prop where
  | child (r c : ObjPtr) (obj : CBaseObject) :
      om.get r = some obj → c ∈ obj.m_childs → Below om r c
  | deeper (r c p : ObjPtr) (obj : CBaseObject) :
      om.get r = some obj → c ∈ obj.m_childs → Below om c p → Below om r p

/-- The hierarchy of a candidate (the top reached by following parents, or a prefab
object below that top) contains a prefab instance other than `self` with the
template item of `this`. -/
def hierarchyHasSameItem (om : ObjectManager) (self : ObjPtr) (this : CBaseObject)
    (candidate : ObjPtr) : Prop :=
  ∃ root p pobj, HierarchyRoot om candidate root ∧ (p = root ∨ Below om root p)
    ∧ om.get p = some pobj ∧ pobj.m_prefab.isSome = true ∧ p ≠ self
    ∧ prefabItemOf pobj = prefabItemOf this

/-- The parent pointers are live and lead upwards in rank, and no rank exceeds the
bound, so that following parents ends. -/
def parentsWellFounded (om : ObjectManager) (rank : ObjPtr → Nat) (bound : Nat) : Prop :=
  (∀ p, rank p ≤ bound)
    ∧ ∀ p obj parent, om.get p = some obj → obj.m_parent = some parent →
        (om.get parent).isSome = true ∧ rank p < rank parent

/-- The inner loop of `CanAddMembers` as the claim describes it, with the block
guarded by `this != this` removed: another prefab instance with the template item
of this one is refused at once. -/
def refusesDescendant_blockRemoved (om : ObjectManager) (self : ObjPtr) (this : CBaseObject) :
    List ObjPtr → Option Bool
  | [] => some false
  | p :: rest =>
    match om.get p with
    | none => none
    | some pToAddPrefabDescendant =>
      if self != p && prefabItemOf this == prefabItemOf pToAddPrefabDescendant then some true
      else refusesDescendant_blockRemoved om self this rest

/-- The outer loop of `CanAddMembers` over the inner loop with the block removed. -/
def canAddLoop_blockRemoved (fuel : Nat) (om : ObjectManager) (self : ObjPtr)
    (this : CBaseObject) : List ObjPtr → Option Bool
  | [] => some true
  | pToAdd :: rest =>
    match hierarchyRoot om fuel pToAdd with
    | none => none
    | some pToAddRoot =>
      match GetAllPrefabObjectDescendants om fuel pToAddRoot, om.get pToAddRoot with
      | some descendants, some rootObj =>
        let toAddPrefabDescendants :=
          if rootObj.m_prefab.isSome then descendants ++ [pToAddRoot] else descendants
        match refusesDescendant_blockRemoved om self this toAddPrefabDescendants with
        | none => none
        | some true => some false
        | some false => canAddLoop_blockRemoved fuel om self this rest
      | _, _ => none

/-- The function `CanAddMembers` as the claim describes it: the source function with
the block guarded by `this != this` removed; the owning prefabs are not an
argument any more. -/
def CanAddMembers_blockRemoved (groupCanAddMembers : Bool) (fuel : Nat) (om : ObjectManager)
    (self : ObjPtr) (objects : List ObjPtr) : Option Bool :=
  if !groupCanAddMembers then some false
  else
    match om.get self with
    | none => none
    | some this => canAddLoop_blockRemoved fuel om self this objects

/-- A call of one of the two `SetPrefab` overloads that bind a template. -/
inductive SetPrefabCall where
  | byGuid (guid : CryGUID) (bForceReload : Bool)
  | byItem (pPrefab : Option ItemPtr) (bForceReload : Bool)
deriving DecidableEq, Repr

/-- The state after one call; `none` when the call dereferences a dangling pointer. -/
def SetPrefabCall.apply
    (loader : ObjectManager → XmlNodeRef → CryGUID → ObjectManager × List ObjPtr)
    (lib : PrefabLibrary) (selfPtr : ObjPtr) (st : SetPrefabResult) :
    SetPrefabCall → Option SetPrefabResult
  | SetPrefabCall.byGuid guid bForceReload =>
    SetPrefab_guid loader lib selfPtr st.world st.self guid bForceReload
  | SetPrefabCall.byItem pPrefab bForceReload =>
    SetPrefab_item loader lib selfPtr st.world st.self pPrefab bForceReload

/-- The state after a sequence of calls, first call first. -/
def runSetPrefabCalls
    (loader : ObjectManager → XmlNodeRef → CryGUID → ObjectManager × List ObjPtr)
    (lib : PrefabLibrary) (selfPtr : ObjPtr) :
    List SetPrefabCall → SetPrefabResult → Option SetPrefabResult
  | [], st => some st
  | call :: rest, st =>
    match call.apply loader lib selfPtr st with
    | none => none
    | some st1 => runSetPrefabCalls loader lib selfPtr rest st1

/-- The template reference and the stored template identifier agree: when the
instance holds a template item, its stored template GUID is the GUID of the
item. -/
def templateConsistent (lib : PrefabLibrary) (self : CPrefabObject) : Prop :=
  ∀ item prefabItem, self.m_pPrefabItem = some item → lib.get item = some prefabItem →
    self.m_prefabGUID = prefabItem.m_guid

/-! ## The pivot -/

/-- The calls `UpdatePivot` makes, as trace events; the positions, which are
floating-point vectors, are left out. -/
inductive PivotEvent where
  | SetModifyInProgress (object : ObjPtr) (inProgress : Bool)
  | GroupUpdatePivot (object : ObjPtr)
  | UpdatePrefab (object : ObjPtr) (operation : EObjectChangedOpType)
deriving DecidableEq, Repr

/-- The object of a `CGroup::UpdatePivot` call. -/
def PivotEvent.pivotTarget : PivotEvent → Option ObjPtr
  | PivotEvent.GroupUpdatePivot object => some object
  | _ => none

/-- The object and the operation of an `UpdatePrefab` call. -/
def PivotEvent.updatePrefabCall : PivotEvent → Option (ObjPtr × EObjectChangedOpType)
  | PivotEvent.UpdatePrefab object operation => some (object, operation)
  | _ => none

/-- Modelled from the spec: `FindObjectsOfType(RUNTIME_CLASS(CPrefabObject), objects)`
of the object manager is defined outside PrefabObject.cpp; it gives the live
objects of the class `CPrefabObject`, each once. -/
def FindObjectsOfType_CPrefabObject (om : ObjectManager) : List ObjPtr :=
  (List.range om.m_objects.length).filter
    (fun p => match om.get p with
      | some obj => obj.m_prefab.isSome
      | none => false)

/-- The template GUID of a scene object (`GetPrefabGuid()` of a `CPrefabObject`). -/
def prefabGuidOf (obj : CBaseObject) : Option CryGUID :=
  obj.m_prefab.map (fun prefab => prefab.m_prefabGUID)

/-- The loop of `UpdatePivot` over the cached children: one
`UpdatePrefab(eOCOT_ModifyTransformInLibOnly)` on each, in order; `none` when a
child pointer dangles. -/
def updatePivotChildren (om : ObjectManager) : List ObjPtr → Option (List PivotEvent)
  | [] => some []
  | child :: rest =>
    match om.get child, updatePivotChildren om rest with
    | some _, some events =>
      some (PivotEvent.UpdatePrefab child EObjectChangedOpType.eOCOT_ModifyTransformInLibOnly
        :: events)
    | _, _ => none

/-- The loop of `UpdatePivot` over the prefab objects of the scene: an object with
another template GUID, and this instance itself, are skipped; on each other one
`CGroup::UpdatePivot` is called between the two `SetModifyInProgress`. -/
def updatePivotInstances (om : ObjectManager) (self : ObjPtr) (thisGuid : CryGUID) :
    List ObjPtr → Option (List PivotEvent)
  | [] => some []
  | p :: rest =>
    match om.get p with
    | none => none
    | some pobj =>
      match pobj.m_prefab with
      | none => none
      | some pPrefabInstanceObj =>
        if pPrefabInstanceObj.m_prefabGUID != thisGuid || p == self then
          updatePivotInstances om self thisGuid rest
        else
          (updatePivotInstances om self thisGuid rest).map
            (fun events =>
              [PivotEvent.SetModifyInProgress p true, PivotEvent.GroupUpdatePivot p,
               PivotEvent.SetModifyInProgress p false] ++ events)

/-- The member function `CPrefabObject::UpdatePivot(newWorldPivotPos)` of the prefab
at `self`, as the trace of its calls: the pivot of this instance, the children,
the other instances. `none` when a pointer dangles or `self` is no prefab
object. -/
def UpdatePivot (om : ObjectManager) (self : ObjPtr) : Option (List PivotEvent) :=
  match om.get self with
  | none => none
  | some this =>
    match this.m_prefab with
    | none => none
    | some prefab =>
      match updatePivotChildren om this.m_childs,
            updatePivotInstances om self prefab.m_prefabGUID
              (FindObjectsOfType_CPrefabObject om) with
      | some childEvents, some instanceEvents =>
        some ([PivotEvent.SetModifyInProgress self true, PivotEvent.GroupUpdatePivot self,
               PivotEvent.SetModifyInProgress self false] ++ childEvents ++ instanceEvents)
      | _, _ => none

/-- An object is another prefab instance with the given template GUID. -/
def isSiblingInstance (om : ObjectManager) (self : ObjPtr) (thisGuid : CryGUID)
    (p : ObjPtr) : Bool :=
  match om.get p with
  | some pobj => prefabGuidOf pobj == some thisGuid && p != self
  | none => false

/-! ## Creating a prefab from objects -/

/-- The calls `CreateFrom` makes, as trace events: `AddMember` is the call
`AddMember(pObject)` on this prefab, `ParentAddMember` the call
`pParent->AddMember(this)`. -/
inductive CreateFromEvent where
  | ClearSelection
  | SetLayer (layer : Option LayerPtr)
  | CryWarning (text : String)
  | RemoveMember (owner : ObjPtr) (object : ObjPtr)
  | AddMember (object : ObjPtr)
  | ParentAddMember (parent : ObjPtr)
  | SelectObject
  | SetModifiedFlag
  | ItemSetModified (item : ItemPtr)
deriving DecidableEq, Repr

/-- The object of an `AddMember` call on this prefab. -/
def CreateFromEvent.addedMember : CreateFromEvent → Option ObjPtr
  | CreateFromEvent.AddMember object => some object
  | _ => none

/-- Whether an event removes an object from a prefab or adds a member. -/
def CreateFromEvent.isMembership : CreateFromEvent → Bool
  | CreateFromEvent.RemoveMember _ _ => true
  | CreateFromEvent.AddMember _ => true
  | CreateFromEvent.ParentAddMember _ => true
  | _ => false

/-- The scene together with the members of this prefab. -/
structure InstanceWorld where
  om : ObjectManager := {}
  self : CPrefabObject := {}
deriving DecidableEq, Repr

/-- The functions `CreateFrom` calls whose effect on the scene is not embedded: the
owning prefab of an object (`CBaseObject::GetPrefab`, declared outside
PrefabObject.cpp), `RemoveMember(object, true, true)` on an owner, and
`AddMember(object)` on a group; the calls themselves are recorded in the trace, the
effects are parameters. -/
structure CreateFromEnv where
  GetPrefab : ObjectManager → ObjPtr → Option ObjPtr
  RemoveMember : InstanceWorld → ObjPtr → ObjPtr → InstanceWorld
  AddMember : InstanceWorld → ObjPtr → ObjPtr → InstanceWorld

/-- The template GUID of the prefab that owns an object, when it has an owner. -/
def ownerPrefabGuid (GetPrefab : ObjectManager → ObjPtr → Option ObjPtr)
    (om : ObjectManager) (p : ObjPtr) : Option CryGUID :=
  (GetPrefab om p).bind (fun owner => (om.get owner).bind prefabGuidOf)

/-- The first loop of `CreateFrom`, from an object on, with the prefab found so far to
compare against: `some true` when the `return false` is reached (an object whose
owner has another template GUID than the prefab compared against), `some false`
when the loop runs to its end; `none` when a pointer dangles. -/
def createFromCheck (GetPrefab : ObjectManager → ObjPtr → Option ObjPtr)
    (om : ObjectManager) : List ObjPtr → Option ObjPtr → Option Bool
  | [], _ => some false
  | pObject :: rest, pPrefabToCompareAgainst =>
    match om.get pObject with
    | none => none
    | some _ =>
      match pPrefabToCompareAgainst, GetPrefab om pObject with
      | some compare, some pObjectPrefab =>
        match (om.get compare).bind prefabGuidOf, (om.get pObjectPrefab).bind prefabGuidOf with
        | some compareGuid, some objectGuid =>
          if compareGuid != objectGuid then some true
          else createFromCheck GetPrefab om rest (some compare)
        | _, _ => none
      | some compare, none => createFromCheck GetPrefab om rest (some compare)
      | none, pObjectPrefab => createFromCheck GetPrefab om rest pObjectPrefab

/-- The second loop of `CreateFrom`: an object that is part of a prefab
(`IsPartOfPrefab()`, the prefab flag) is removed from the prefab that owns it. -/
def createFromRemove (env : CreateFromEnv) :
    List ObjPtr → InstanceWorld → List CreateFromEvent →
      Option (InstanceWorld × List CreateFromEvent)
  | [], w, events => some (w, events)
  | pObject :: rest, w, events =>
    match w.om.get pObject with
    | none => none
    | some obj =>
      if obj.m_prefabFlag then
        match env.GetPrefab w.om pObject with
        | none => none
        | some owner =>
          createFromRemove env rest (env.RemoveMember w owner pObject)
            (events ++ [CreateFromEvent.RemoveMember owner pObject])
      else createFromRemove env rest w events

/-- The third loop of `CreateFrom`: `AddMember(pObject)` for every object. -/
def createFromAdd (env : CreateFromEnv) (selfPtr : ObjPtr) :
    List ObjPtr → InstanceWorld → List CreateFromEvent → InstanceWorld × List CreateFromEvent
  | [], w, events => (w, events)
  | pObject :: rest, w, events =>
    createFromAdd env selfPtr rest (env.AddMember w selfPtr pObject)
      (events ++ [CreateFromEvent.AddMember pObject])

/-- What `CreateFrom` leaves behind: its result, the scene and the members of the
prefab, and the trace of its calls. -/
structure CreateFromResult where
  result : Bool
  world : InstanceWorld
  events : List CreateFromEvent := []

/-- The start of `CreateFrom`: the selection is cleared, and with a non-empty list
the prefab gets the layer of the last object, whose parent is kept; the result is
the scene, the parent and the trace so far, `none` when the last object dangles. -/
def createFromPrologue (selfPtr : ObjPtr) (w : InstanceWorld) (objects : List ObjPtr) :
    Option (InstanceWorld × Option ObjPtr × List CreateFromEvent) :=
  match objects.getLast? with
  | none => some (w, none, [CreateFromEvent.ClearSelection])
  | some pLastSelectedObject =>
    match w.om.get pLastSelectedObject with
    | none => none
    | some last =>
      some ({ om := w.om.modify selfPtr (SetLayer last.m_layer), self := w.self },
            last.m_parent,
            [CreateFromEvent.ClearSelection, CreateFromEvent.SetLayer last.m_layer])

/-- The rest of `CreateFrom`, from the first loop on. -/
def createFromBody (env : CreateFromEnv) (selfPtr : ObjPtr) (objects : List ObjPtr)
    (w1 : InstanceWorld) (pParent : Option ObjPtr) (events1 : List CreateFromEvent) :
    Option CreateFromResult :=
  match createFromCheck env.GetPrefab w1.om objects none with
  | none => none
  | some true =>
    some { result := false, world := w1,
           events := events1 ++ [CreateFromEvent.CryWarning
             "Cannot Create a new prefab from these objects, they are already owned by different prefabs"] }
  | some false =>
    match createFromRemove env objects w1 events1 with
    | none => none
    | some (w2, events2) =>
      let added := createFromAdd env selfPtr objects w2 events2
      let afterParent : InstanceWorld × List CreateFromEvent :=
        match pParent with
        | some parent =>
          (env.AddMember added.1 parent selfPtr,
           added.2 ++ [CreateFromEvent.ParentAddMember parent])
        | none => added
      match afterParent.1.self.m_pPrefabItem with
      | none => none
      | some item =>
        some { result := true, world := afterParent.1,
               events := afterParent.2 ++
                 [CreateFromEvent.SelectObject, CreateFromEvent.SetModifiedFlag,
                  CreateFromEvent.ItemSetModified item] }

/-- The member function `CPrefabObject::CreateFrom(objects)` of the prefab at
`selfPtr`; `none` when a null or dangling pointer is dereferenced, which includes
the null template item the assertion at the end excludes. -/
def CreateFrom (env : CreateFromEnv) (selfPtr : ObjPtr) (w : InstanceWorld)
    (objects : List ObjPtr) : Option CreateFromResult :=
  match createFromPrologue selfPtr w objects with
  | none => none
  | some (w1, pParent, events1) => createFromBody env selfPtr objects w1 pParent events1

/-- Two of the objects are owned by prefab instances with different template
GUIDs. -/
def ownedByDifferentPrefabs (GetPrefab : ObjectManager → ObjPtr → Option ObjPtr)
    (om : ObjectManager) (objects : List ObjPtr) : Prop :=
  ∃ a ∈ objects, ∃ b ∈ objects, ∃ ga gb,
    ownerPrefabGuid GetPrefab om a = some ga ∧ ownerPrefabGuid GetPrefab om b = some gb
      ∧ ga ≠ gb

/-- The objects are live, and the owner of each object that has one is a live prefab
object. -/
def ownersWellFormed (GetPrefab : ObjectManager → ObjPtr → Option ObjPtr)
    (om : ObjectManager) (objects : List ObjPtr) : Prop :=
  ∀ p ∈ objects, (om.get p).isSome = true
    ∧ ∀ owner, GetPrefab om p = some owner → ((om.get owner).bind prefabGuidOf).isSome = true

/-- What the totality of `CreateFrom` needs of the collaborators: an object with the
prefab flag has an owner, `RemoveMember` leaves live objects live, and neither
`RemoveMember` nor `AddMember` clears the template item of this prefab. -/
def CreateFromEnv.wellBehaved (env : CreateFromEnv) : Prop :=
  (∀ (w : InstanceWorld) (p : ObjPtr) (obj : CBaseObject),
      w.om.get p = some obj → obj.m_prefabFlag = true → (env.GetPrefab w.om p).isSome = true)
  ∧ (∀ (w : InstanceWorld) (owner p q : ObjPtr),
      (w.om.get q).isSome = true → ((env.RemoveMember w owner p).om.get q).isSome = true)
  ∧ (∀ (w : InstanceWorld) (owner p : ObjPtr),
      w.self.m_pPrefabItem.isSome = true →
        (env.RemoveMember w owner p).self.m_pPrefabItem.isSome = true)
  ∧ (∀ (w : InstanceWorld) (group p : ObjPtr),
      w.self.m_pPrefabItem.isSome = true →
        (env.AddMember w group p).self.m_pPrefabItem.isSome = true)

/-! ## Concrete instances and scenes -/

/-- An instance with auto update off, no template item, valid bounds and two pending
records for the object (1,2): a Delete and an Add. -/
def sampleInstance : CPrefabObject :=
  { m_guid := { hipart := 7, lopart := 9 }
    m_bBBoxValid := true
    m_autoUpdatePrefabs := false
    m_pendingChanges :=
      [{ m_operation := EObjectChangedOpType.eOCOT_Delete,
         m_modifiedObjectGlobalId := { hipart := 1, lopart := 2 } },
       { m_operation := EObjectChangedOpType.eOCOT_Add,
         m_modifiedObjectGlobalId := { hipart := 1, lopart := 2 } }] }

/-- A change record with the key of the second pending record of `sampleInstance`. -/
def sampleChange : SObjectChangedContext :=
  { m_operation := EObjectChangedOpType.eOCOT_Add
    m_modifiedObjectGlobalId := { hipart := 1, lopart := 2 }
    m_modifiedObjectGuidInPrefab := { hipart := 3, lopart := 3 } }

/-- A change record whose key no pending record of `sampleInstance` has. -/
def sampleFresh : SObjectChangedContext :=
  { m_operation := EObjectChangedOpType.eOCOT_Add
    m_modifiedObjectGlobalId := { hipart := 5, lopart := 5 } }

/-- A scene with a prefab (pointer 0) that has the children a and b, and a free
object c. -/
def sampleScene : ObjectManager :=
  { m_objects :=
      [some { m_guid := { hipart := 0, lopart := 1 }, m_name := "prefab", m_childs := [1, 2] },
       some { m_guid := { hipart := 0, lopart := 2 }, m_name := "a", m_parent := some 0 },
       some { m_guid := { hipart := 0, lopart := 3 }, m_name := "b", m_parent := some 0 },
       some { m_guid := { hipart := 0, lopart := 4 }, m_name := "c" }] }

/-- A submitted member list for `sampleScene`: it keeps a, drops b and adds c, under
names that differ from the names of the objects. -/
def sampleLinks : List PrefabLink :=
  [{ guid := { hipart := 0, lopart := 2 }, name := "first" },
   { guid := { hipart := 0, lopart := 4 }, name := "second" }]

/-- A scene for the bounds: the prefab (pointer 0) has the children 1 and 2; 1 has the
prefab flag, the tagged child 3 and the tagged linked object 4; 2 has no prefab
flag and the tagged child 5. -/
def sampleBoundsScene : ObjectManager :=
  { m_objects :=
      [some { m_guid := { hipart := 0, lopart := 1 }, m_childs := [1, 2] },
       some { m_guid := { hipart := 0, lopart := 2 }, m_parent := some 0, m_childs := [3],
              m_linkedObjects := [4], m_prefabFlag := true },
       some { m_guid := { hipart := 0, lopart := 3 }, m_parent := some 0, m_childs := [5] },
       some { m_guid := { hipart := 0, lopart := 4 }, m_parent := some 1, m_prefabFlag := true },
       some { m_guid := { hipart := 0, lopart := 5 }, m_linkedTo := some 1,
              m_prefabFlag := true },
       some { m_guid := { hipart := 0, lopart := 6 }, m_parent := some 2,
              m_prefabFlag := true }] }

/-- A stand-in for the floating-point accumulation: the box is left as it is. -/
def sampleAddBounds : AABB → BoundsVisit → AABB :=
  fun box _ => box

/-- An accumulation step for the concrete scenes: the local bounds of an object are
the point (pointer, length of the transform chain, 0), and the box grows to hold
it, as `box.Add` does. -/
def samplePointBounds : AABB → BoundsVisit → AABB :=
  fun box visit =>
    { min := { x := Min.min box.min.x visit.object, y := Min.min box.min.y visit.worldTM.length,
               z := Min.min box.min.z 0 }
      max := { x := Max.max box.max.x visit.object, y := Max.max box.max.y visit.worldTM.length,
               z := Max.max box.max.z 0 } }

/-- The scene after loading the template with the nodes A (no parent) and B (parent
A) for the instance at pointer 0: the object mapped from A is at pointer 1, the
object mapped from B at pointer 2, already resolved as a child of the first. -/
def sampleLoadedScene : ObjectManager :=
  { m_objects :=
      [some { m_guid := { hipart := 7, lopart := 9 }, m_name := "I1", m_layer := some 3,
              m_prefab := some { m_guid := { hipart := 7, lopart := 9 } } },
       some { m_guid := { hipart := 14, lopart := 1 }, m_name := "A", m_childs := [2] },
       some { m_guid := { hipart := 14, lopart := 2 }, m_name := "B", m_parent := some 1 }] }

/-- A library with an empty template (pointer 0, no objects node) and a template with
an object graph (pointer 1). -/
def sampleLibrary : PrefabLibrary :=
  { m_items :=
      [{ m_guid := { hipart := 3, lopart := 3 }, m_fullName := "Lib.Empty" },
       { m_guid := { hipart := 4, lopart := 4 }, m_fullName := "Lib.AB",
         m_objectsNode := some 0 }] }

/-- A loader that creates nothing: the scene as it is and no loaded object. -/
def sampleLoader : ObjectManager → XmlNodeRef → CryGUID → ObjectManager × List ObjPtr :=
  fun om _ _ => (om, [])

/-- The members of an instance bound to the empty template of `sampleLibrary`. -/
def sampleBound : CPrefabObject :=
  { m_guid := { hipart := 30064771072, lopart := 9 }
    m_prefabGUID := { hipart := 3, lopart := 3 }
    m_prefabName := "Lib.Empty"
    m_pPrefabItem := some 0 }

/-- A scene for `CanAddMembers`: the prefab instance at pointer 0 uses the template
item 5; the group at pointer 1 holds the plain object 2 and the prefab instance 3,
which uses the template item 5 too. -/
def sampleNestedScene : ObjectManager :=
  { m_objects :=
      [some { m_guid := { hipart := 1, lopart := 0 }, m_name := "thisPrefab",
              m_prefab := some { m_pPrefabItem := some 5 } },
       some { m_guid := { hipart := 1, lopart := 1 }, m_name := "group", m_childs := [2, 3] },
       some { m_guid := { hipart := 1, lopart := 2 }, m_name := "box", m_parent := some 1 },
       some { m_guid := { hipart := 1, lopart := 3 }, m_name := "otherPrefab",
              m_parent := some 1, m_prefab := some { m_pPrefabItem := some 5 } }] }

/-- A scene for the pivot: the instance at pointer 0 has the template GUID (4,4) and
the children 1 and 2; the instance at pointer 3 has the same template GUID, the
instance at pointer 4 another one. -/
def samplePivotScene : ObjectManager :=
  { m_objects :=
      [some { m_guid := { hipart := 2, lopart := 0 }, m_childs := [1, 2],
              m_prefab := some { m_prefabGUID := { hipart := 4, lopart := 4 } } },
       some { m_guid := { hipart := 2, lopart := 1 }, m_parent := some 0 },
       some { m_guid := { hipart := 2, lopart := 2 }, m_parent := some 0 },
       some { m_guid := { hipart := 2, lopart := 3 },
              m_prefab := some { m_prefabGUID := { hipart := 4, lopart := 4 } } },
       some { m_guid := { hipart := 2, lopart := 4 },
              m_prefab := some { m_prefabGUID := { hipart := 3, lopart := 3 } } }] }

/-- A scene for `CreateFrom`: the new prefab at pointer 0; the box 1 is a member of
the instance 3 (template GUID (4,4)), the box 2 a member of the instance 4
(template GUID (3,3)), the box 5 is free. -/
def sampleCreateScene : ObjectManager :=
  { m_objects :=
      [some { m_guid := { hipart := 5, lopart := 0 },
              m_prefab := some { m_pPrefabItem := some 1 } },
       some { m_guid := { hipart := 5, lopart := 1 }, m_parent := some 3, m_prefabFlag := true },
       some { m_guid := { hipart := 5, lopart := 2 }, m_parent := some 4, m_prefabFlag := true },
       some { m_guid := { hipart := 5, lopart := 3 }, m_childs := [1],
              m_prefab := some { m_prefabGUID := { hipart := 4, lopart := 4 } } },
       some { m_guid := { hipart := 5, lopart := 4 }, m_childs := [2],
              m_prefab := some { m_prefabGUID := { hipart := 3, lopart := 3 } } },
       some { m_guid := { hipart := 5, lopart := 5 } }] }

/-- Collaborators for the concrete scene: the owner of an object is its parent when
it has the prefab flag; removing clears the flag and the parent; adding changes
nothing. -/
def sampleCreateEnv : CreateFromEnv :=
  { GetPrefab := fun om p =>
      (om.get p).bind (fun obj => if obj.m_prefabFlag then obj.m_parent else none)
    RemoveMember := fun w _ object =>
      { om := ObjectManager.modify w.om object
          (fun o => { o with m_prefabFlag := false, m_parent := none }),
        self := w.self }
    AddMember := fun w _ _ => w }

/-- The new prefab of the concrete scene, with its template item, and the scene. -/
def sampleCreateWorld : InstanceWorld :=
  { om := sampleCreateScene, self := { m_pPrefabItem := some 1 } }

/-! ## Identity remapping: properties -/

/-- The remapped id of well-formed ids is well-formed: xor stays below `2 ^ 64`. -/
theorem GetFrom_wellFormed (I L : CryGUID) (hI : I.wellFormed) (hL : L.wellFormed) :
    (GetFrom I L).wellFormed :=
  ⟨Nat.xor_lt_two_pow hI.1 hI.2, hL.1⟩

/-- C1: for every instance id I and template-local id L, the runtime id `GetFrom`
produces for L under I is accepted by `IsValidChildGUid` against the same instance. -/
theorem GetFrom_isValidChildGUid (I L : CryGUID) :
    IsValidChildGUid (GetFrom I L) I = true := by
  simp [IsValidChildGUid, GetFrom]

/-- C2, as stated, fails: the template-local ids (0,0) and (0,1) differ and are mapped
to the same runtime id under the instance id (7,9). -/
theorem GetFrom_collision :
    (({ hipart := 0, lopart := 0 } : CryGUID) ≠ { hipart := 0, lopart := 1 })
      ∧ GetFrom { hipart := 7, lopart := 9 } { hipart := 0, lopart := 0 }
          = GetFrom { hipart := 7, lopart := 9 } { hipart := 0, lopart := 1 } := by
  decide

/-- C2, amended: under one instance id two template-local ids are mapped to the same
runtime id exactly when their high parts are equal; ids with different high parts
never collide. -/
theorem GetFrom_eq_iff_hipart (I L1 L2 : CryGUID) :
    GetFrom I L1 = GetFrom I L2 ↔ L1.hipart = L2.hipart := by
  simp [GetFrom]

/-- C3: an id remapped under I1 is accepted against I2 exactly when the xor of the two
halves of I1 equals that of I2; with different seeds it is rejected. -/
theorem IsValidChildGUid_GetFrom_iff (I1 I2 L : CryGUID) :
    (IsValidChildGUid (GetFrom I1 L) I2 = true
        ↔ I1.hipart ^^^ I1.lopart = I2.hipart ^^^ I2.lopart)
      ∧ (I1.hipart ^^^ I1.lopart ≠ I2.hipart ^^^ I2.lopart
          → IsValidChildGUid (GetFrom I1 L) I2 = false) := by
  constructor
  · simp only [IsValidChildGUid, GetFrom, beq_iff_eq]
    exact eq_comm
  · intro h
    simp only [IsValidChildGUid, GetFrom, beq_eq_false_iff_ne, ne_eq]
    exact fun e => h e.symm

/-- C4: `GetFrom` returns the id whose high part is the xor of the halves of I and
whose low part is the high part of L, so the runtime ids of an expansion are a
function of the instance id and the template-local ids alone. -/
theorem GetFrom_stable (I L : CryGUID) (templateIds : List CryGUID) :
    GetFrom I L = { hipart := I.hipart ^^^ I.lopart, lopart := L.hipart }
      ∧ expandIds I templateIds
          = templateIds.map
              (fun l => ({ hipart := I.hipart ^^^ I.lopart, lopart := l.hipart } : CryGUID)) :=
  ⟨rfl, rfl⟩

/-! ## The deferred change queue: properties -/

/-- The loop test holds exactly for records with the same key. -/
theorem sameKey_iff (change context : SObjectChangedContext) :
    sameKey change context = true ↔ changeKey change = changeKey context := by
  simp [sameKey, changeKey, Prod.ext_iff]

/-- The loop falls through exactly when no pending record has the key. -/
theorem overwritePending_eq_none_iff (context : SObjectChangedContext)
    (q : List SObjectChangedContext) :
    overwritePending context q = none ↔ ∀ change ∈ q, changeKey change ≠ changeKey context := by
  induction q with
  | nil => simp [overwritePending]
  | cons c rest ih =>
    by_cases hc : sameKey c context = true
    · have hk := (sameKey_iff c context).1 hc
      simp [overwritePending, hc, hk]
    · have hk : changeKey c ≠ changeKey context := fun e => hc ((sameKey_iff c context).2 e)
      simp [overwritePending, hc, hk, ih]

/-- When the loop finds a match it overwrites the first record with the key, in
place. -/
theorem overwritePending_eq_some (context : SObjectChangedContext) :
    ∀ (q q1 : List SObjectChangedContext), overwritePending context q = some q1 →
      ∃ i, ∃ hi : i < q.length,
        changeKey (q.get ⟨i, hi⟩) = changeKey context
          ∧ (∀ j, ∀ hj : j < q.length, j < i → changeKey (q.get ⟨j, hj⟩) ≠ changeKey context)
          ∧ q1 = q.set i context := by
  intro q
  induction q with
  | nil => intro q1 h; simp [overwritePending] at h
  | cons c rest ih =>
    intro q1 h
    by_cases hc : sameKey c context = true
    · simp only [overwritePending, hc, if_true, Option.some.injEq] at h
      refine ⟨0, by simp, ?_, ?_, ?_⟩
      · simpa using (sameKey_iff c context).1 hc
      · intro j _ hj; exact absurd hj (Nat.not_lt_zero j)
      · simp [← h]
    · have hk : changeKey c ≠ changeKey context := fun e => hc ((sameKey_iff c context).2 e)
      simp only [overwritePending, hc, Bool.false_eq_true, if_false, Option.map_eq_some'] at h
      obtain ⟨q2, hq2, rfl⟩ := h
      obtain ⟨i, hi, h1, h2, h3⟩ := ih q2 hq2
      refine ⟨i + 1, by simpa using hi, ?_, ?_, ?_⟩
      · simpa using h1
      · intro j hj hji
        cases j with
        | zero => simpa using hk
        | succ j =>
          have := h2 j (by simpa using hj) (by omega)
          simpa using this
      · simp [h3]

/-- Overwriting leaves the list of keys as it was. -/
theorem overwritePending_keys (context : SObjectChangedContext)
    (q q1 : List SObjectChangedContext) (h : overwritePending context q = some q1) :
    q1.map changeKey = q.map changeKey := by
  obtain ⟨i, hi, h1, _, rfl⟩ := overwritePending_eq_some context q q1 h
  rw [List.map_set, ← h1]
  apply List.ext_getElem (by simp)
  intro n hn1 hn2
  simp only [List.getElem_set, List.getElem_map]
  split
  · next e => subst e; simp
  · rfl

/-- With auto update off, `SyncPrefab` changes the pending queue only and forwards
nothing. -/
theorem SyncPrefab_off (self : CPrefabObject) (context : SObjectChangedContext)
    (h : self.m_autoUpdatePrefabs = false) :
    SyncPrefab self context =
      { self := { self with
                  m_pendingChanges :=
                    match overwritePending context self.m_pendingChanges with
                    | some q => q
                    | none => self.m_pendingChanges ++ [context] },
        forwarded := [] } := by
  unfold SyncPrefab
  rw [h]
  cases overwritePending context self.m_pendingChanges <;> rfl

/-- With auto update on, `SyncPrefab` invalidates the bounds and forwards the record
when a template item is set. -/
theorem SyncPrefab_on (self : CPrefabObject) (context : SObjectChangedContext)
    (h : self.m_autoUpdatePrefabs = true) :
    SyncPrefab self context =
      { self := InvalidateBBox self,
        forwarded :=
          match self.m_pPrefabItem with
          | some item => [{ item := item, context := context }]
          | none => [] } := by
  unfold SyncPrefab
  rw [h]
  rfl

/-- The flush loop with auto update on: every record is forwarded to the template
item when there is one, nothing when there is none; the queue member is not
touched. -/
theorem flushPending_on (q : List SObjectChangedContext) :
    ∀ acc : SyncResult, acc.self.m_autoUpdatePrefabs = true →
      (flushPending q acc).forwarded
          = acc.forwarded ++
              (match acc.self.m_pPrefabItem with
               | some item => q.map (fun c => { item := item, context := c })
               | none => [])
        ∧ (flushPending q acc).self.m_pendingChanges = acc.self.m_pendingChanges
        ∧ (flushPending q acc).self.m_autoUpdatePrefabs = true
        ∧ (flushPending q acc).self.m_pPrefabItem = acc.self.m_pPrefabItem := by
  induction q with
  | nil =>
    intro acc h
    refine ⟨?_, rfl, h, rfl⟩
    cases acc.self.m_pPrefabItem <;> simp [flushPending]
  | cons c rest ih =>
    intro acc h
    simp only [flushPending, SyncPrefab_on acc.self c h]
    obtain ⟨h1, h2, h3, h4⟩ :=
      ih { self := InvalidateBBox acc.self,
           forwarded := acc.forwarded ++
             (match acc.self.m_pPrefabItem with
              | some item => [{ item := item, context := c }]
              | none => []) } h
    refine ⟨?_, h2, h3, h4⟩
    rw [h1]
    simp only [InvalidateBBox]
    cases acc.self.m_pPrefabItem <;> simp

/-- C5: with auto update off, `SyncPrefab` upserts the record: when some pending record
has its key, the first such record is overwritten in place (same length, every
other position unchanged); otherwise the record is appended at the end. -/
theorem SyncPrefab_upsert (self : CPrefabObject) (context : SObjectChangedContext)
    (h : self.m_autoUpdatePrefabs = false) :
    ((∃ change ∈ self.m_pendingChanges, changeKey change = changeKey context) →
        ∃ i, ∃ hi : i < self.m_pendingChanges.length,
          changeKey (self.m_pendingChanges.get ⟨i, hi⟩) = changeKey context
            ∧ (SyncPrefab self context).self.m_pendingChanges
                = self.m_pendingChanges.set i context
            ∧ (SyncPrefab self context).self.m_pendingChanges.length
                = self.m_pendingChanges.length
            ∧ (SyncPrefab self context).self.m_pendingChanges.get? i = some context
            ∧ ∀ j, j ≠ i →
                (SyncPrefab self context).self.m_pendingChanges.get? j
                  = self.m_pendingChanges.get? j)
      ∧ ((¬ ∃ change ∈ self.m_pendingChanges, changeKey change = changeKey context) →
          (SyncPrefab self context).self.m_pendingChanges
            = self.m_pendingChanges ++ [context]) := by
  rw [SyncPrefab_off self context h]
  constructor
  · rintro ⟨c, hc, hk⟩
    cases hq : overwritePending context self.m_pendingChanges with
    | none =>
      exact absurd hk ((overwritePending_eq_none_iff context _).1 hq c hc)
    | some q1 =>
      obtain ⟨i, hi, h1, _, h3⟩ := overwritePending_eq_some context _ q1 hq
      refine ⟨i, hi, h1, ?_, ?_, ?_, ?_⟩
      · simpa using h3
      · simp [h3]
      · simp [h3, hi]
      · intro j hj
        simp [h3, List.getElem?_set, Ne.symm hj]
  · intro hno
    have hq : overwritePending context self.m_pendingChanges = none := by
      rw [overwritePending_eq_none_iff]
      intro c hc hk
      exact hno ⟨c, hc, hk⟩
    simp [hq]

/-- C5 at a concrete queue: a record with a new key is appended, a record with the
key of the second pending record leaves the length at two. -/
theorem SyncPrefab_upsert_witness :
    sampleInstance.m_autoUpdatePrefabs = false
      ∧ (SyncPrefab sampleInstance sampleFresh).self.m_pendingChanges
          = sampleInstance.m_pendingChanges ++ [sampleFresh]
      ∧ (SyncPrefab sampleInstance sampleChange).self.m_pendingChanges.length
          = sampleInstance.m_pendingChanges.length := by
  refine ⟨rfl, (SyncPrefab_upsert sampleInstance sampleFresh rfl).2 (by decide), ?_⟩
  obtain ⟨i, hi, -, -, hlen, -⟩ :=
    (SyncPrefab_upsert sampleInstance sampleChange rfl).1 (by decide)
  exact hlen

/-- One `SyncPrefab` keeps the keys of the pending queue pairwise distinct. -/
theorem SyncPrefab_keys_nodup (self : CPrefabObject) (context : SObjectChangedContext)
    (h : (self.m_pendingChanges.map changeKey).Nodup) :
    ((SyncPrefab self context).self.m_pendingChanges.map changeKey).Nodup := by
  cases ha : self.m_autoUpdatePrefabs with
  | true =>
    rw [SyncPrefab_on self context ha]
    exact h
  | false =>
    rw [SyncPrefab_off self context ha]
    cases hq : overwritePending context self.m_pendingChanges with
    | some q1 =>
      simp only []
      rw [overwritePending_keys context _ q1 hq]
      exact h
    | none =>
      simp only [List.map_append, List.map_cons, List.map_nil]
      rw [List.nodup_append]
      refine ⟨h, List.nodup_singleton _, ?_⟩
      intro k hmem hk
      obtain ⟨c, hc, hck⟩ := List.mem_map.1 hmem
      rw [List.mem_singleton] at hk
      exact (overwritePending_eq_none_iff context _).1 hq c hc (hck.trans hk)

/-- One `SetAutoUpdatePrefab` keeps the keys of the pending queue pairwise distinct. -/
theorem SetAutoUpdatePrefab_keys_nodup (self : CPrefabObject) (autoUpdate : Bool)
    (h : (self.m_pendingChanges.map changeKey).Nodup) :
    ((SetAutoUpdatePrefab self autoUpdate).self.m_pendingChanges.map changeKey).Nodup := by
  cases autoUpdate with
  | true => simp [SetAutoUpdatePrefab]
  | false => simpa [SetAutoUpdatePrefab] using h

/-- Any sequence of the two calls keeps the keys pairwise distinct. -/
theorem runCalls_keys_nodup (calls : List QueueCall) :
    ∀ self : CPrefabObject, (self.m_pendingChanges.map changeKey).Nodup →
      ((runCalls self calls).m_pendingChanges.map changeKey).Nodup := by
  induction calls with
  | nil => intro self h; exact h
  | cons call rest ih =>
    intro self h
    simp only [runCalls, List.foldl_cons]
    apply ih
    cases call with
    | syncPrefab context => exact SyncPrefab_keys_nodup self context h
    | setAutoUpdatePrefab autoUpdate => exact SetAutoUpdatePrefab_keys_nodup self autoUpdate h

/-- C6: the pending queue never holds two records with the same key: it is empty at
construction, each call of `SyncPrefab` and of `SetAutoUpdatePrefab` keeps the keys
pairwise distinct, and so does every sequence of such calls, from any instance
whose keys are distinct and in particular from a constructed one. -/
theorem pendingChanges_keys_distinct (id : CryGUID) (self : CPrefabObject)
    (context : SObjectChangedContext) (autoUpdate : Bool) (calls : List QueueCall)
    (h : (self.m_pendingChanges.map changeKey).Nodup) :
    (CPrefabObject.ctor id).m_pendingChanges = []
      ∧ ((SyncPrefab self context).self.m_pendingChanges.map changeKey).Nodup
      ∧ ((SetAutoUpdatePrefab self autoUpdate).self.m_pendingChanges.map changeKey).Nodup
      ∧ ((runCalls self calls).m_pendingChanges.map changeKey).Nodup
      ∧ ((runCalls (CPrefabObject.ctor id) calls).m_pendingChanges.map changeKey).Nodup :=
  ⟨rfl, SyncPrefab_keys_nodup self context h, SetAutoUpdatePrefab_keys_nodup self autoUpdate h,
    runCalls_keys_nodup calls self h,
    runCalls_keys_nodup calls (CPrefabObject.ctor id) List.nodup_nil⟩

/-- C6 at a concrete instance with two pending records and a sequence of four calls. -/
theorem pendingChanges_keys_distinct_witness :
    (sampleInstance.m_pendingChanges.map changeKey).Nodup
      ∧ ((runCalls sampleInstance
            [QueueCall.syncPrefab sampleChange, QueueCall.syncPrefab sampleFresh,
             QueueCall.setAutoUpdatePrefab true,
             QueueCall.syncPrefab sampleChange]).m_pendingChanges.map changeKey).Nodup :=
  ⟨by decide,
    (pendingChanges_keys_distinct sampleInstance.m_guid sampleInstance sampleChange true
      [QueueCall.syncPrefab sampleChange, QueueCall.syncPrefab sampleFresh,
       QueueCall.setAutoUpdatePrefab true, QueueCall.syncPrefab sampleChange]
      (by decide)).2.2.2.1⟩

/-- C7: with auto update off, `SyncPrefab` forwards nothing to the template and leaves
the bounds flag and every member other than the pending queue as they were. -/
theorem SyncPrefab_off_frame (self : CPrefabObject) (context : SObjectChangedContext)
    (h : self.m_autoUpdatePrefabs = false) :
    (SyncPrefab self context).forwarded = []
      ∧ (SyncPrefab self context).self.m_bBBoxValid = self.m_bBBoxValid
      ∧ (SyncPrefab self context).self
          = { self with
              m_pendingChanges := (SyncPrefab self context).self.m_pendingChanges } := by
  rw [SyncPrefab_off self context h]
  exact ⟨rfl, rfl, rfl⟩

/-- C7 at the concrete instance, whose bounds flag is set. -/
theorem SyncPrefab_off_frame_witness :
    sampleInstance.m_autoUpdatePrefabs = false
      ∧ (SyncPrefab sampleInstance sampleChange).forwarded = []
      ∧ (SyncPrefab sampleInstance sampleChange).self.m_bBBoxValid = true :=
  ⟨rfl, (SyncPrefab_off_frame sampleInstance sampleChange rfl).1,
    (SyncPrefab_off_frame sampleInstance sampleChange rfl).2.1⟩

/-- C8: on an instance bound to a template item, `SetAutoUpdatePrefab(true)` forwards
the pending queue to that item, each record once and in queue order, and leaves
the queue empty and auto update on; `SetAutoUpdatePrefab(false)` forwards nothing
and leaves the queue as it was. -/
theorem SetAutoUpdatePrefab_flush (self : CPrefabObject) (item : ItemPtr)
    (h : self.m_pPrefabItem = some item) :
    (SetAutoUpdatePrefab self true).forwarded
        = self.m_pendingChanges.map (fun c => { item := item, context := c })
      ∧ (SetAutoUpdatePrefab self true).self.m_pendingChanges = []
      ∧ (SetAutoUpdatePrefab self true).self.m_autoUpdatePrefabs = true
      ∧ (SetAutoUpdatePrefab self false).forwarded = []
      ∧ (SetAutoUpdatePrefab self false).self.m_pendingChanges = self.m_pendingChanges
      ∧ (SetAutoUpdatePrefab self false).self.m_autoUpdatePrefabs = false := by
  obtain ⟨h1, _, h3, _⟩ :=
    flushPending_on self.m_pendingChanges
      { self := { self with m_autoUpdatePrefabs := true }, forwarded := [] } rfl
  refine ⟨?_, ?_, ?_, ?_, ?_, ?_⟩
  · simp only [SetAutoUpdatePrefab, if_true]
    rw [h1]
    simp [h]
  · simp [SetAutoUpdatePrefab]
  · simp only [SetAutoUpdatePrefab, if_true]
    exact h3
  · simp [SetAutoUpdatePrefab]
  · simp [SetAutoUpdatePrefab]
  · simp [SetAutoUpdatePrefab]

/-- C8 at the concrete instance bound to the template item 4: its two pending records
are forwarded in queue order. -/
theorem SetAutoUpdatePrefab_flush_witness :
    ({ sampleInstance with m_pPrefabItem := some 4 } : CPrefabObject).m_pPrefabItem = some 4
      ∧ (SetAutoUpdatePrefab { sampleInstance with m_pPrefabItem := some 4 } true).forwarded
          = sampleInstance.m_pendingChanges.map (fun c => { item := 4, context := c }) :=
  ⟨rfl, (SetAutoUpdatePrefab_flush { sampleInstance with m_pPrefabItem := some 4 } 4 rfl).1⟩

/-- C9, as stated, fails: with auto update on and no template item, `SyncPrefab` on
valid bounds returns invalid bounds, so the state after the call is not the state
before it. -/
theorem SyncPrefab_noItem_not_noop :
    ({ sampleInstance with m_autoUpdatePrefabs := true } : CPrefabObject).m_autoUpdatePrefabs
        = true
      ∧ ({ sampleInstance with m_autoUpdatePrefabs := true } : CPrefabObject).m_pPrefabItem
          = none
      ∧ ({ sampleInstance with m_autoUpdatePrefabs := true } : CPrefabObject).m_bBBoxValid
          = true
      ∧ (SyncPrefab { sampleInstance with m_autoUpdatePrefabs := true }
            sampleChange).self.m_bBBoxValid = false
      ∧ (SyncPrefab { sampleInstance with m_autoUpdatePrefabs := true } sampleChange).self
          ≠ { sampleInstance with m_autoUpdatePrefabs := true } := by
  decide

/-- C9, amended: with auto update on and no template item, `SyncPrefab` forwards
nothing and leaves every member of the instance, the pending queue included, as it
was, except the bounds flag, which it clears; on an instance whose bounds are
already invalid the call changes nothing. -/
theorem SyncPrefab_noItem (self : CPrefabObject) (context : SObjectChangedContext)
    (ha : self.m_autoUpdatePrefabs = true) (hi : self.m_pPrefabItem = none) :
    (SyncPrefab self context).forwarded = []
      ∧ (SyncPrefab self context).self = { self with m_bBBoxValid := false }
      ∧ (SyncPrefab self context).self.m_pendingChanges = self.m_pendingChanges
      ∧ (self.m_bBBoxValid = false → (SyncPrefab self context).self = self) := by
  have e := SyncPrefab_on self context ha
  rw [hi] at e
  rw [e]
  refine ⟨rfl, rfl, rfl, ?_⟩
  intro hb
  simp only [InvalidateBBox]
  rw [← hb]

/-- C9, amended, at the concrete instance with auto update switched on. -/
theorem SyncPrefab_noItem_witness :
    ({ sampleInstance with m_autoUpdatePrefabs := true } : CPrefabObject).m_autoUpdatePrefabs
        = true
      ∧ ({ sampleInstance with m_autoUpdatePrefabs := true } : CPrefabObject).m_pPrefabItem
          = none
      ∧ (SyncPrefab { sampleInstance with m_autoUpdatePrefabs := true } sampleChange).self
          = { sampleInstance with m_autoUpdatePrefabs := true, m_bBBoxValid := false } :=
  ⟨rfl, rfl,
    (SyncPrefab_noItem { sampleInstance with m_autoUpdatePrefabs := true } sampleChange
      rfl rfl).2.1⟩

/-! ## Membership reconciliation: properties -/

/-- Dereference after an update: the slot updated holds the updated object, every
other slot is as before. -/
theorem ObjectManager.get_modify (om : ObjectManager) (p q : ObjPtr)
    (f : CBaseObject → CBaseObject) :
    (om.modify p f).get q = if p = q then (om.get q).map f else om.get q := by
  simp only [ObjectManager.get, ObjectManager.modify, List.get?_eq_getElem?,
    List.getElem?_modify]
  by_cases h : p = q
  · simp only [h, if_true]
    cases om.m_objects[q]? with
    | none => rfl
    | some o => cases o <;> rfl
  · simp only [h, if_false]
    cases om.m_objects[q]? <;> rfl

/-- The table of ids, slot by slot. -/
theorem ObjectManager.modify_guids (om : ObjectManager) (g : CryGUID) (p : ObjPtr)
    (f : CBaseObject → CBaseObject) (hf : ∀ o, (f o).m_guid = o.m_guid) :
    (om.modify p f).m_objects.map (slotHasGuid g) = om.m_objects.map (slotHasGuid g) := by
  apply List.ext_getElem?
  intro n
  simp only [ObjectManager.modify, List.getElem?_map, List.getElem?_modify]
  cases om.m_objects[n]? with
  | none => rfl
  | some o =>
    by_cases h : p = n
    · cases o with
      | none => simp [h, slotHasGuid]
      | some o => simp [h, slotHasGuid, hf]
    · simp [h]

/-- The index search depends on the test values only. -/
theorem findIdx_congr_map {α : Type} (p : α → Bool) :
    ∀ (l1 l2 : List α), l1.map p = l2.map p → l1.findIdx p = l2.findIdx p := by
  intro l1
  induction l1 with
  | nil => intro l2 h; cases l2 with
    | nil => rfl
    | cons b l2 => simp at h
  | cons a l1 ih =>
    intro l2 h
    cases l2 with
    | nil => simp at h
    | cons b l2 =>
      simp only [List.map_cons, List.cons.injEq] at h
      simp only [List.findIdx_cons, h.1, ih l2 h.2]

/-- The lookup depends on the table of ids only. -/
theorem ObjectManager.FindObject_congr (om1 om2 : ObjectManager) (g : CryGUID)
    (h : om1.m_objects.map (slotHasGuid g) = om2.m_objects.map (slotHasGuid g)) :
    om1.FindObject g = om2.FindObject g := by
  have hl : om1.m_objects.length = om2.m_objects.length := by
    simpa using congrArg List.length h
  simp only [ObjectManager.FindObject, findIdx_congr_map _ _ _ h, hl]

/-- The lookup returns a live object with the id asked for. -/
theorem ObjectManager.FindObject_some (om : ObjectManager) (g : CryGUID) (p : ObjPtr)
    (h : om.FindObject g = some p) : ∃ obj, om.get p = some obj ∧ obj.m_guid = g := by
  simp only [ObjectManager.FindObject] at h
  split at h
  · next hlt =>
    simp only [Option.some.injEq] at h
    subst h
    have hp := List.findIdx_getElem (w := hlt)
    simp only [ObjectManager.get, List.get?_eq_getElem?, List.getElem?_eq_getElem hlt]
    cases ho : om.m_objects[List.findIdx (slotHasGuid g) om.m_objects] with
    | none => rw [ho] at hp; simp [slotHasGuid] at hp
    | some o =>
      rw [ho] at hp
      refine ⟨o, rfl, ?_⟩
      simpa [slotHasGuid] using hp
  · simp at h

/-- The attach operation changes no id, so every lookup gives what it gave before. -/
theorem AttachObjectToPrefab_guids (om : ObjectManager) (prefab object : ObjPtr)
    (g : CryGUID) :
    (AttachObjectToPrefab om prefab object).m_objects.map (slotHasGuid g)
      = om.m_objects.map (slotHasGuid g) := by
  unfold AttachObjectToPrefab
  simp only []
  refine Eq.trans (ObjectManager.modify_guids _ g _ _ ?_) ?_
  · intro o; rfl
  refine Eq.trans (ObjectManager.modify_guids _ g _ _ ?_) ?_
  · intro o; rfl
  split
  · refine ObjectManager.modify_guids _ g _ _ ?_
    intro o; rfl
  · rfl

/-- After the attach operation a slot holds an object with the id it had before, and
with the parent it had before unless it is the attached object. -/
theorem AttachObjectToPrefab_get (om : ObjectManager) (prefab object q : ObjPtr)
    (o1 : CBaseObject) (h : (AttachObjectToPrefab om prefab object).get q = some o1) :
    ∃ o, om.get q = some o ∧ o1.m_guid = o.m_guid
      ∧ (o1.m_parent = o.m_parent ∨ q = object) := by
  have step : ∀ (om0 : ObjectManager) (p : ObjPtr) (f : CBaseObject → CBaseObject)
      (o2 : CBaseObject), (om0.modify p f).get q = some o2 →
      ∃ o, om0.get q = some o ∧ (o2 = o ∨ (p = q ∧ o2 = f o)) := by
    intro om0 p f o2 h2
    rw [ObjectManager.get_modify] at h2
    by_cases hp : p = q
    · simp only [hp, if_true, Option.map_eq_some'] at h2
      obtain ⟨o, ho, hf⟩ := h2
      exact ⟨o, ho, Or.inr ⟨hp, hf.symm⟩⟩
    · simp only [hp, if_false] at h2
      exact ⟨o2, h2, Or.inl rfl⟩
  unfold AttachObjectToPrefab at h
  simp only [] at h
  obtain ⟨o3, h3, e3⟩ := step _ _ _ _ h
  obtain ⟨o2, h2, e2⟩ := step _ _ _ _ h3
  have first : ∃ o, om.get q = some o ∧ o2.m_guid = o.m_guid ∧ o2.m_parent = o.m_parent := by
    split at h2
    · obtain ⟨o, ho, e⟩ := step _ _ _ _ h2
      refine ⟨o, ho, ?_⟩
      rcases e with e | ⟨_, e⟩ <;> simp [e]
    · exact ⟨o2, h2, rfl, rfl⟩
  obtain ⟨o, ho, g2, p2⟩ := first
  refine ⟨o, ho, ?_, ?_⟩
  · rcases e3 with e3 | ⟨_, e3⟩ <;> rcases e2 with e2 | ⟨_, e2⟩ <;> simp [e3, e2, g2]
  · rcases e2 with e2 | ⟨hq, e2⟩
    · left
      rcases e3 with e3 | ⟨_, e3⟩ <;> simp [e3, e2, p2]
    · exact Or.inr hq.symm

/-- Inserting into the id set keeps it free of repetitions and adds the id. -/
theorem guidSetInsert_spec (set : List CryGUID) (id : CryGUID) (h : set.Nodup) :
    (guidSetInsert set id).Nodup ∧ ∀ g, g ∈ guidSetInsert set id ↔ g ∈ set ∨ g = id := by
  unfold guidSetInsert
  by_cases hc : set.contains id = true
  · simp only [hc, if_true]
    refine ⟨h, fun g => ⟨Or.inl, ?_⟩⟩
    rintro (hg | rfl)
    · exact hg
    · simpa using hc
  · simp only [hc, Bool.false_eq_true, if_false]
    have hn : id ∉ set := by simpa using hc
    refine ⟨?_, fun g => by simp⟩
    rw [List.nodup_append]
    refine ⟨h, List.nodup_singleton _, ?_⟩
    intro k hk hk2
    rw [List.mem_singleton] at hk2
    exact hn (hk2 ▸ hk)

/-- The id set of the children holds each child id once. -/
theorem collectChildGuids_spec (children : List CBaseObject) :
    (collectChildGuids children).Nodup
      ∧ ∀ g, g ∈ collectChildGuids children ↔ g ∈ children.map (fun c => c.m_guid) := by
  have gen : ∀ (cs : List CBaseObject) (acc : List CryGUID), acc.Nodup →
      (cs.foldl (fun set child => guidSetInsert set child.m_guid) acc).Nodup
        ∧ ∀ g, g ∈ cs.foldl (fun set child => guidSetInsert set child.m_guid) acc
            ↔ g ∈ acc ∨ g ∈ cs.map (fun c => c.m_guid) := by
    intro cs
    induction cs with
    | nil => intro acc h; simp [h]
    | cons c cs ih =>
      intro acc h
      obtain ⟨h1, h2⟩ := guidSetInsert_spec acc c.m_guid h
      obtain ⟨h3, h4⟩ := ih _ h1
      refine ⟨h3, fun g => ?_⟩
      simp only [List.foldl_cons, h4, h2, List.map_cons, List.mem_cons]
      tauto
  obtain ⟨h1, h2⟩ := gen children [] List.nodup_nil
  exact ⟨h1, fun g => by simpa using h2 g⟩

/-- The delete loop issues one `DeleteObject` for each id left and no attach. -/
theorem deleteLoop_counts (remaining : List CryGUID) :
    ∀ st : ReconcileState,
      deleteCount (deleteLoop remaining st).calls = deleteCount st.calls + remaining.length
        ∧ attachCount (deleteLoop remaining st).calls = attachCount st.calls := by
  induction remaining with
  | nil => intro st; simp [deleteLoop]
  | cons g rest ih =>
    intro st
    obtain ⟨h1, h2⟩ := ih { om := DeleteObject st.om (st.om.FindObject g),
                            calls := st.calls ++ [EditorCall.DeleteObject (st.om.FindObject g)] }
    simp only [deleteLoop]
    rw [h1, h2]
    simp [deleteCount, attachCount, EditorCall.isDelete, EditorCall.isAttach]
    omega

/-- The loop over the submitted links, from a scene with the ids of the initial one:
when the remaining ids are distinct and resolve, and every remaining link whose
object already has the prefab as parent is in the id set, the loop completes,
issues one attach for each link that is not in the id set and no delete, and
leaves in the set the ids no link names. -/
theorem attachLoop_spec (self : ObjPtr) (om0 : ObjectManager) :
    ∀ (links : List PrefabLink) (st : ReconcileState) (cg : List CryGUID),
      (∀ g, st.om.m_objects.map (slotHasGuid g) = om0.m_objects.map (slotHasGuid g)) →
      (∀ link ∈ links, (om0.FindObject link.guid).isSome) →
      (links.map PrefabLink.guid).Nodup →
      cg.Nodup →
      (∀ q o, st.om.get q = some o → o.m_parent = some self →
          ∀ link ∈ links, link.guid = o.m_guid → link.guid ∈ cg) →
      ∃ st1 cg1, attachLoop self links st cg = some (st1, cg1)
        ∧ attachCount st1.calls
            = attachCount st.calls + (links.filter (fun l => !cg.contains l.guid)).length
        ∧ deleteCount st1.calls = deleteCount st.calls
        ∧ cg1.Nodup
        ∧ (∀ g, g ∈ cg1 ↔ g ∈ cg ∧ g ∉ links.map PrefabLink.guid)
        ∧ st1.calls = st.calls ++ (links.filter (fun l => !cg.contains l.guid)).filterMap
            (fun l => (om0.FindObject l.guid).map (EditorCall.AttachObjectToPrefab self))
        ∧ st1.om = replayCalls st.om ((links.filter (fun l => !cg.contains l.guid)).filterMap
            (fun l => (om0.FindObject l.guid).map (EditorCall.AttachObjectToPrefab self)))
        ∧ ∀ g, st1.om.m_objects.map (slotHasGuid g) = om0.m_objects.map (slotHasGuid g) := by
  intro links
  induction links with
  | nil =>
    intro st cg hF _ _ hcg _
    exact ⟨st, cg, rfl, by simp, rfl, hcg, fun g => by simp, by simp, rfl, hF⟩
  | cons link rest ih =>
    intro st cg hF hres hnd hcg hP
    have hnd1 : link.guid ∉ rest.map PrefabLink.guid := (List.nodup_cons.1 hnd).1
    have hnd2 : (rest.map PrefabLink.guid).Nodup := (List.nodup_cons.1 hnd).2
    have hne : ∀ l ∈ rest, l.guid ≠ link.guid := by
      intro l hl e
      exact hnd1 (e ▸ List.mem_map_of_mem PrefabLink.guid hl)
    have hres1 : ∀ l ∈ rest, (om0.FindObject l.guid).isSome :=
      fun l hl => hres l (List.mem_cons_of_mem _ hl)
    by_cases hc : cg.contains link.guid = true
    · -- the id is a current child: it is erased from the set
      have hmem : link.guid ∈ cg := by simpa using hc
      have hstep : attachStep self st cg link = some (st, cg.erase link.guid) := by
        simp [attachStep, hmem]
      have hP1 : ∀ q o, st.om.get q = some o → o.m_parent = some self →
          ∀ l ∈ rest, l.guid = o.m_guid → l.guid ∈ cg.erase link.guid := by
        intro q o hq hpar l hl e
        exact (List.mem_erase_of_ne (hne l hl)).2
          (hP q o hq hpar l (List.mem_cons_of_mem _ hl) e)
      obtain ⟨st1, cg1, h1, h2, h3, h4, h5, h6, h7, h8⟩ :=
        ih st (cg.erase link.guid) hF hres1 hnd2 (hcg.erase _) hP1
      have hfil : rest.filter (fun l => !(cg.erase link.guid).contains l.guid)
          = rest.filter (fun l => !cg.contains l.guid) := by
        apply List.filter_congr
        intro l hl
        have := List.mem_erase_of_ne (l := cg) (hne l hl)
        by_cases hm : l.guid ∈ cg
        · simp [hm, this.2 hm]
        · have hn : l.guid ∉ cg.erase link.guid := fun h => hm (this.1 h)
          simp [hm, hn]
      have hskip : (link :: rest).filter (fun l => !cg.contains l.guid)
          = rest.filter (fun l => !cg.contains l.guid) := by
        simp [List.filter_cons, hmem]
      refine ⟨st1, cg1, ?_, ?_, h3, h4, ?_, ?_, ?_, h8⟩
      · simp only [attachLoop, hstep]
        exact h1
      · rw [h2]
        congr 1
        rw [hfil]
        simp [List.filter_cons, hmem]
      · intro g
        rw [h5 g, hcg.mem_erase_iff]
        simp only [List.map_cons, List.mem_cons, not_or]
        tauto
      · rw [h6, hfil, hskip]
      · rw [h7, hfil, hskip]
    · -- the id is not a current child: the object is looked up and attached
      have hc1 : cg.contains link.guid = false := by simpa using hc
      have hnot : link.guid ∉ cg := by simpa using hc
      have hfind : st.om.FindObject link.guid = om0.FindObject link.guid :=
        ObjectManager.FindObject_congr _ _ _ (hF link.guid)
      obtain ⟨p, hp⟩ := Option.isSome_iff_exists.1 (hres link (List.mem_cons_self _ _))
      rw [← hfind] at hp
      obtain ⟨obj, hobj, hguid⟩ := ObjectManager.FindObject_some _ _ _ hp
      have hpar : obj.m_parent ≠ some self := by
        intro e
        exact hnot (hP p obj hobj e link (List.mem_cons_self _ _) hguid.symm)
      have hstep : attachStep self st cg link
          = some ({ om := AttachObjectToPrefab st.om self p,
                    calls := st.calls ++ [EditorCall.AttachObjectToPrefab self p] }, cg) := by
        simp [attachStep, hnot, hp, hobj, hpar]
      have hF1 : ∀ g, (AttachObjectToPrefab st.om self p).m_objects.map (slotHasGuid g)
          = om0.m_objects.map (slotHasGuid g) :=
        fun g => (AttachObjectToPrefab_guids st.om self p g).trans (hF g)
      have hP1 : ∀ q o, (AttachObjectToPrefab st.om self p).get q = some o →
          o.m_parent = some self → ∀ l ∈ rest, l.guid = o.m_guid → l.guid ∈ cg := by
        intro q o1 hq hpar1 l hl e
        obtain ⟨o, ho, hg, hcase⟩ := AttachObjectToPrefab_get st.om self p q o1 hq
        rcases hcase with hsame | hqp
        · exact hP q o ho (hsame ▸ hpar1) l (List.mem_cons_of_mem _ hl) (e.trans hg)
        · subst hqp
          rw [hobj] at ho
          cases ho
          exact absurd ((e.trans hg).trans hguid) (hne l hl)
      obtain ⟨st1, cg1, h1, h2, h3, h4, h5, h6, h7, h8⟩ :=
        ih { om := AttachObjectToPrefab st.om self p,
             calls := st.calls ++ [EditorCall.AttachObjectToPrefab self p] }
          cg hF1 hres1 hnd2 hcg hP1
      have hp0 : om0.FindObject link.guid = some p := by
        rw [← hfind]
        exact hp
      have htake : ((link :: rest).filter (fun l => !cg.contains l.guid)).filterMap
            (fun l => (om0.FindObject l.guid).map (EditorCall.AttachObjectToPrefab self))
          = EditorCall.AttachObjectToPrefab self p ::
              (rest.filter (fun l => !cg.contains l.guid)).filterMap
                (fun l => (om0.FindObject l.guid).map (EditorCall.AttachObjectToPrefab self)) := by
        simp [List.filter_cons, hnot, hp0]
      refine ⟨st1, cg1, ?_, ?_, ?_, h4, ?_, ?_, ?_, h8⟩
      · simp only [attachLoop, hstep]
        exact h1
      · rw [h2]
        simp [attachCount, EditorCall.isAttach, List.filter_cons, hnot]
        omega
      · rw [h3]
        simp [deleteCount, EditorCall.isDelete]
      · intro g
        rw [h5 g]
        simp only [List.map_cons, List.mem_cons, not_or]
        constructor
        · rintro ⟨hg, hr⟩
          exact ⟨hg, fun e => hnot (e ▸ hg), hr⟩
        · rintro ⟨hg, _, hr⟩
          exact ⟨hg, hr⟩
      · rw [h6, htake]
        simp
      · rw [h7, htake]
        rfl

/-- Every child pointer that was dereferenced refers to one of the child objects. -/
theorem getChildObjects_mem (om : ObjectManager) :
    ∀ (ps : List ObjPtr) (children : List CBaseObject),
      getChildObjects om ps = some children →
      ∀ p ∈ ps, ∃ obj ∈ children, om.get p = some obj := by
  intro ps
  induction ps with
  | nil => intro children _ p hp; simp at hp
  | cons p0 rest ih =>
    intro children h p hp
    simp only [getChildObjects] at h
    cases h0 : om.get p0 with
    | none => simp [h0] at h
    | some obj0 =>
      simp only [h0, Option.map_eq_some'] at h
      obtain ⟨objs, hobjs, rfl⟩ := h
      rcases List.mem_cons.1 hp with rfl | hp
      · exact ⟨obj0, List.mem_cons_self _ _, h0⟩
      · obtain ⟨obj, hobj, hget⟩ := ih objs hobjs p hp
        exact ⟨obj, List.mem_cons_of_mem _ hobj, hget⟩

/-- When the comparison finds no change, the submitted ids are the child ids, in the
same order. -/
theorem membersChanged_eq_false (children : List CBaseObject) (links : List PrefabLink)
    (h : membersChanged children links = false) :
    links.map PrefabLink.guid = children.map (fun c => c.m_guid) := by
  unfold membersChanged at h
  split at h
  · next hlen =>
    have hlen1 : links.length = children.length := by simpa using hlen
    clear hlen
    induction children generalizing links with
    | nil =>
      cases links with
      | nil => rfl
      | cons l ls => simp at hlen1
    | cons c cs ih =>
      cases links with
      | nil => simp at hlen1
      | cons l ls =>
        simp only [idsDiffer] at h
        split at h
        · exact absurd h (by simp)
        · next hne =>
          have e : c.m_guid = l.guid := by simpa using hne
          simp only [List.map_cons, e]
          rw [ih ls h (by simpa using hlen1)]
  · exact absurd h (by simp)

/-- A list without repetitions that holds the ids of A outside B has as many entries
as the set difference. -/
theorem length_eq_card_sdiff (l A B : List CryGUID) (hn : l.Nodup)
    (hm : ∀ g, g ∈ l ↔ g ∈ A ∧ g ∉ B) :
    l.length = (A.toFinset \ B.toFinset).card := by
  rw [← List.toFinset_card_of_nodup hn]
  congr 1
  ext g
  simp [hm g]

/-- The trace counts of the input branch: under the scene invariant, for distinct
submitted ids that all resolve, the branch completes with one attach for each
submitted id that is not a child id and one delete for each child id that is not
submitted. -/
theorem SerializeMembers_counts (self : ObjPtr) (om : ObjectManager)
    (links : List PrefabLink) (hscene : sceneConsistent om self)
    (hdistinct : (links.map PrefabLink.guid).Nodup)
    (hresolve : ∀ link ∈ links, (om.FindObject link.guid).isSome) :
    ∃ st, SerializeMembers self om links = some st
      ∧ attachCount st.calls
          = ((links.map PrefabLink.guid).toFinset \ (childIds om self).toFinset).card
      ∧ deleteCount st.calls
          = ((childIds om self).toFinset \ (links.map PrefabLink.guid).toFinset).card := by
  obtain ⟨prefab, children, hself, hch, hpar⟩ := hscene
  have hC : childIds om self = children.map (fun c => c.m_guid) := by
    simp [childIds, hself, hch]
  rw [hC]
  simp only [SerializeMembers, hself, hch]
  by_cases hchg : membersChanged children links = true
  · simp only [hchg, if_true]
    obtain ⟨hcgn, hcgm⟩ := collectChildGuids_spec children
    have hP : ∀ q o, om.get q = some o → o.m_parent = some self →
        ∀ link ∈ links, link.guid = o.m_guid → link.guid ∈ collectChildGuids children := by
      intro q o hq hp link _ e
      obtain ⟨obj, hobj, hget⟩ := getChildObjects_mem om _ _ hch q (hpar q o hq hp)
      rw [hq] at hget
      cases hget
      rw [hcgm, e]
      exact List.mem_map_of_mem _ hobj
    obtain ⟨st1, cg1, h1, h2, h3, h4, h5, -⟩ :=
      attachLoop_spec self om links
        { om := om, calls := [EditorCall.UndoBegin "Modify Prefab"] }
        (collectChildGuids children) (fun _ => rfl) hresolve hdistinct hcgn hP
    obtain ⟨d1, d2⟩ := deleteLoop_counts cg1 st1
    refine ⟨deleteLoop cg1 st1, by simp [h1], ?_, ?_⟩
    · rw [d2, h2]
      have hl : (links.filter (fun l => !(collectChildGuids children).contains l.guid)).length
          = ((links.filter (fun l => !(collectChildGuids children).contains l.guid)).map
              PrefabLink.guid).length := by simp
      rw [hl]
      simp only [attachCount, List.filter_cons, EditorCall.isAttach, Bool.false_eq_true,
        if_false, List.filter_nil, List.length_nil, Nat.zero_add]
      apply length_eq_card_sdiff
      · exact hdistinct.sublist ((List.filter_sublist _).map _)
      · intro g
        have hcont : (collectChildGuids children).contains g = false
            ↔ g ∉ children.map (fun c => c.m_guid) := by
          rw [← hcgm g]
          simp
        rw [← hcont]
        simp only [List.mem_map, List.mem_filter, Bool.not_eq_true']
        constructor
        · rintro ⟨l, ⟨hl1, hl2⟩, rfl⟩
          exact ⟨⟨l, hl1, rfl⟩, hl2⟩
        · rintro ⟨⟨l, hl1, rfl⟩, hl2⟩
          exact ⟨l, ⟨hl1, hl2⟩, rfl⟩
    · rw [d1, h3]
      simp only [deleteCount, List.filter_cons, EditorCall.isDelete, Bool.false_eq_true,
        if_false, List.filter_nil, List.length_nil, Nat.zero_add]
      apply length_eq_card_sdiff _ _ _ h4
      intro g
      rw [h5 g, hcgm g]
  · have hchg1 : membersChanged children links = false := by simpa using hchg
    have e := membersChanged_eq_false children links hchg1
    simp only [hchg1, Bool.false_eq_true, if_false]
    refine ⟨{ om := om, calls := [] }, rfl, ?_, ?_⟩
    · simp [attachCount, e]
    · simp [deleteCount, e]

/-- The comparison finds no change exactly when the submitted ids are the child ids,
position by position. -/
theorem membersChanged_eq_false_iff (children : List CBaseObject) (links : List PrefabLink) :
    membersChanged children links = false
      ↔ links.map PrefabLink.guid = children.map (fun c => c.m_guid) := by
  refine ⟨membersChanged_eq_false children links, ?_⟩
  intro h
  have hlen : links.length = children.length := by
    simpa using congrArg List.length h
  unfold membersChanged
  simp only [hlen, beq_self_eq_true, if_true]
  clear hlen
  induction children generalizing links with
  | nil => cases links <;> rfl
  | cons c cs ih =>
    cases links with
    | nil => rfl
    | cons l ls =>
      simp only [List.map_cons, List.cons.injEq] at h
      simp only [idsDiffer, h.1, bne_self_eq_false, Bool.false_eq_true, if_false]
      exact ih ls h.2

/-- The slot of a live object holds that object. -/
theorem ObjectManager.slot_of_get (om : ObjectManager) (q : ObjPtr) (o : CBaseObject)
    (h : om.get q = some o) : om.m_objects[q]? = some (some o) := by
  simp only [ObjectManager.get, List.get?_eq_getElem?] at h
  cases hq : om.m_objects[q]? with
  | none => rw [hq] at h; cases h
  | some slot =>
    rw [hq] at h
    cases slot with
    | none => cases h
    | some o1 =>
      have e : o1 = o := Option.some.inj h
      rw [e]

/-- A live object with an id makes the lookup of that id succeed, with a live object
that has the id. -/
theorem ObjectManager.FindObject_of_live (om : ObjectManager) (g : CryGUID) (q : ObjPtr)
    (o : CBaseObject) (h : om.get q = some o) (hg : o.m_guid = g) :
    ∃ p obj, om.FindObject g = some p ∧ om.get p = some obj ∧ obj.m_guid = g := by
  have hslot : om.m_objects[q]? = some (some o) := ObjectManager.slot_of_get om q o h
  have hex : ∃ x ∈ om.m_objects, slotHasGuid g x = true :=
    ⟨some o, List.getElem?_mem hslot, by simp [slotHasGuid, hg]⟩
  have hlt := List.findIdx_lt_length_of_exists hex
  have hfind : om.FindObject g = some (om.m_objects.findIdx (slotHasGuid g)) := by
    simp only [ObjectManager.FindObject, hlt, if_true]
  obtain ⟨obj, hobj, hguid⟩ := ObjectManager.FindObject_some om g _ hfind
  exact ⟨_, obj, hfind, hobj, hguid⟩

/-- Deleting the object found for one id changes the lookup of no other id. -/
theorem DeleteObject_guids (om : ObjectManager) (g g' : CryGUID) (hne : g' ≠ g) :
    (DeleteObject om (om.FindObject g)).m_objects.map (slotHasGuid g')
      = om.m_objects.map (slotHasGuid g') := by
  cases hF : om.FindObject g with
  | none => rfl
  | some p =>
    obtain ⟨obj, hobj, hguid⟩ := ObjectManager.FindObject_some om g p hF
    have hslot : om.m_objects[p]? = some (some obj) := ObjectManager.slot_of_get om p obj hobj
    have h1 : (match (om.get p).bind (fun obj => obj.m_parent) with
        | some old => om.modify old (fun o => { o with m_childs := o.m_childs.erase p })
        | none => om).m_objects.map (slotHasGuid g') = om.m_objects.map (slotHasGuid g') := by
      split
      · refine ObjectManager.modify_guids _ g' _ _ ?_
        intro o; rfl
      · rfl
    simp only [DeleteObject, List.map_set, h1]
    apply List.ext_getElem?
    intro i
    rw [List.getElem?_set]
    by_cases hpi : p = i
    · subst hpi
      have hfalse : slotHasGuid g' (some obj) = false := by
        simp only [slotHasGuid, hguid, beq_eq_false_iff_ne, ne_eq]
        exact fun e => hne e.symm
      have hlen : p < (om.m_objects.map (slotHasGuid g')).length := by
        rw [List.length_map]
        exact (List.getElem?_eq_some_iff.1 hslot).1
      simp only [if_true, hlen, List.getElem?_map, hslot, Option.map_some', hfalse]
      rfl
    · simp only [hpi, if_false]

/-- The delete loop over distinct ids appends one `DeleteObject` for each id, with
the object the lookup finds for the id in the scene the loop starts from, and
leaves the scene these calls give. -/
theorem deleteLoop_args (remaining : List CryGUID) :
    ∀ st : ReconcileState, remaining.Nodup →
      (deleteLoop remaining st).calls
          = st.calls ++ remaining.map (fun g => EditorCall.DeleteObject (st.om.FindObject g))
        ∧ (deleteLoop remaining st).om
          = replayCalls st.om
              (remaining.map (fun g => EditorCall.DeleteObject (st.om.FindObject g))) := by
  induction remaining with
  | nil =>
    intro st _
    exact ⟨by simp [deleteLoop], rfl⟩
  | cons g rest ih =>
    intro st hnd
    have hg : g ∉ rest := (List.nodup_cons.1 hnd).1
    obtain ⟨h1, h2⟩ :=
      ih { om := DeleteObject st.om (st.om.FindObject g),
           calls := st.calls ++ [EditorCall.DeleteObject (st.om.FindObject g)] }
        (List.nodup_cons.1 hnd).2
    have hmap : rest.map (fun g' => EditorCall.DeleteObject
          ((DeleteObject st.om (st.om.FindObject g)).FindObject g'))
        = rest.map (fun g' => EditorCall.DeleteObject (st.om.FindObject g')) := by
      apply List.map_congr_left
      intro g' hg'
      have hne : g' ≠ g := fun e => hg (e ▸ hg')
      rw [ObjectManager.FindObject_congr _ _ g' (DeleteObject_guids st.om g g' hne)]
    simp only [deleteLoop]
    rw [h1, h2]
    simp only [hmap, List.map_cons, List.append_assoc, List.singleton_append]
    exact ⟨trivial, rfl⟩

/-- The loop over the submitted links reads the ids of the links only. -/
theorem attachLoop_congr (self : ObjPtr) :
    ∀ (links renamed : List PrefabLink) (st : ReconcileState) (cg : List CryGUID),
      renamed.map PrefabLink.guid = links.map PrefabLink.guid →
      attachLoop self renamed st cg = attachLoop self links st cg := by
  intro links
  induction links with
  | nil =>
    intro renamed st cg h
    cases renamed with
    | nil => rfl
    | cons r rs => simp at h
  | cons l ls ih =>
    intro renamed st cg h
    cases renamed with
    | nil => simp at h
    | cons r rs =>
      simp only [List.map_cons, List.cons.injEq] at h
      have hstep : attachStep self st cg r = attachStep self st cg l := by
        simp only [attachStep, h.1]
      simp only [attachLoop, hstep]
      cases attachStep self st cg l with
      | none => rfl
      | some res => exact ih rs res.1 res.2 h.2

/-- The input branch of `SerializeMembers` reads the ids of the submitted links only:
a list with the same ids under other names gives the same result. -/
theorem SerializeMembers_congr (self : ObjPtr) (om : ObjectManager)
    (links renamed : List PrefabLink)
    (h : renamed.map PrefabLink.guid = links.map PrefabLink.guid) :
    SerializeMembers self om renamed = SerializeMembers self om links := by
  have hchg : ∀ children, membersChanged children renamed = membersChanged children links := by
    intro children
    cases h1 : membersChanged children links with
    | false =>
      exact (membersChanged_eq_false_iff children renamed).2
        (h.trans ((membersChanged_eq_false_iff children links).1 h1))
    | true =>
      cases h2 : membersChanged children renamed with
      | true => rfl
      | false =>
        have := (membersChanged_eq_false_iff children links).2
          (h.symm.trans ((membersChanged_eq_false_iff children renamed).1 h2))
        rw [h1] at this
        cases this
  simp only [SerializeMembers, hchg, attachLoop_congr self links renamed _ _ h]

/-- Keeping the results of a lookup that always succeeds loses no entry. -/
theorem filterMap_map_some {α β : Type} (f : α → Option β) :
    ∀ l : List α, (∀ x ∈ l, (f x).isSome = true) → (l.filterMap f).map some = l.map f := by
  intro l
  induction l with
  | nil => intro _; rfl
  | cons a rest ih =>
    intro h
    obtain ⟨b, hb⟩ := Option.isSome_iff_exists.1 (h a (List.mem_cons_self _ _))
    simp only [List.filterMap_cons, hb, List.map_cons]
    rw [ih (fun x hx => h x (List.mem_cons_of_mem _ hx))]

/-- The attach operations of a list of attach calls, and its delete operations. -/
theorem filterMap_attached_attaches {α : Type} (self : ObjPtr) (f : α → Option ObjPtr) :
    ∀ l : List α,
      (l.filterMap (fun x => (f x).map (EditorCall.AttachObjectToPrefab self))).filterMap
          EditorCall.attached = (l.filterMap f).map (fun p => (self, p))
        ∧ (l.filterMap (fun x => (f x).map (EditorCall.AttachObjectToPrefab self))).filterMap
          EditorCall.deleted = [] := by
  intro l
  induction l with
  | nil => exact ⟨rfl, rfl⟩
  | cons a rest ih =>
    cases ha : f a with
    | none => simpa only [List.filterMap_cons, ha, Option.map_none'] using ih
    | some p =>
      simp only [List.filterMap_cons, ha, Option.map_some', EditorCall.attached,
        EditorCall.deleted, List.map_cons, ih.1, ih.2]
      exact ⟨trivial, trivial⟩

/-- The delete operations of a list of delete calls, and its attach operations. -/
theorem filterMap_deleted_deletes {α : Type} (f : α → Option ObjPtr) :
    ∀ l : List α,
      (l.map (fun x => EditorCall.DeleteObject (f x))).filterMap EditorCall.deleted = l.map f
        ∧ (l.map (fun x => EditorCall.DeleteObject (f x))).filterMap EditorCall.attached
            = [] := by
  intro l
  induction l with
  | nil => exact ⟨rfl, rfl⟩
  | cons a rest ih =>
    simp only [List.map_cons, List.filterMap_cons, EditorCall.deleted, EditorCall.attached,
      ih.1, ih.2]
    exact ⟨trivial, trivial⟩

/-- C10: reconciliation is minimal and matches by id only: under the scene invariant,
for a submitted list of distinct ids that all resolve, the input branch of
`SerializeMembers` completes; its `AttachObjectToPrefab` operations are, in the
order of the submitted list, one for each submitted id that is not a child id, to
this prefab and of the object the lookup finds for that id; its `DeleteObject`
operations are one for each child id that is not submitted, of the live object
the lookup finds for that id; the scene it leaves is the scene these calls give;
so there are exactly |D\C| attach operations and exactly |C\D| delete operations,
C being the child ids and D the submitted ids; and a list with the same ids under
other names gives the same result. -/
theorem SerializeMembers_minimal (self : ObjPtr) (om : ObjectManager)
    (links : List PrefabLink) (hscene : sceneConsistent om self)
    (hdistinct : (links.map PrefabLink.guid).Nodup)
    (hresolve : ∀ link ∈ links, (om.FindObject link.guid).isSome) :
    ∃ (st : ReconcileState) (attached : List ObjPtr) (removed : List CryGUID),
      SerializeMembers self om links = some st
      ∧ attached.map some
          = (links.filter (fun l => !(childIds om self).contains l.guid)).map
              (fun l => om.FindObject l.guid)
      ∧ st.calls.filterMap EditorCall.attached = attached.map (fun p => (self, p))
      ∧ removed.Nodup
      ∧ (∀ g, g ∈ removed ↔ g ∈ childIds om self ∧ g ∉ links.map PrefabLink.guid)
      ∧ (∀ g ∈ removed, ∃ p obj, om.FindObject g = some p ∧ om.get p = some obj
          ∧ obj.m_guid = g)
      ∧ st.calls.filterMap EditorCall.deleted = removed.map (fun g => om.FindObject g)
      ∧ st.om = replayCalls om st.calls
      ∧ attachCount st.calls
          = ((links.map PrefabLink.guid).toFinset \ (childIds om self).toFinset).card
      ∧ deleteCount st.calls
          = ((childIds om self).toFinset \ (links.map PrefabLink.guid).toFinset).card
      ∧ ∀ renamed : List PrefabLink,
          renamed.map PrefabLink.guid = links.map PrefabLink.guid →
          SerializeMembers self om renamed = some st := by
  obtain ⟨st, hst, ha, hd⟩ := SerializeMembers_counts self om links hscene hdistinct hresolve
  obtain ⟨prefab, children, hself, hch, hpar⟩ := hscene
  have hC : childIds om self = children.map (fun c => c.m_guid) := by
    simp [childIds, hself, hch]
  have hren : ∀ renamed : List PrefabLink,
      renamed.map PrefabLink.guid = links.map PrefabLink.guid →
      SerializeMembers self om renamed = some st := by
    intro renamed h
    rw [SerializeMembers_congr self om links renamed h]
    exact hst
  have hlive : ∀ g, g ∈ childIds om self →
      ∃ p obj, om.FindObject g = some p ∧ om.get p = some obj ∧ obj.m_guid = g := by
    intro g hg
    simp only [childIds, hself, hch, List.mem_map] at hg
    obtain ⟨child, hchild, hguid⟩ := hg
    have hex : ∃ q, om.get q = some child := by
      clear hpar hC hren hst ha hd
      generalize prefab.m_childs = ps at hch
      induction ps generalizing children with
      | nil =>
        simp only [getChildObjects, Option.some.injEq] at hch
        rw [← hch] at hchild
        cases hchild
      | cons p0 rest ih =>
        simp only [getChildObjects] at hch
        cases h0 : om.get p0 with
        | none => simp [h0] at hch
        | some obj0 =>
          simp only [h0, Option.map_eq_some'] at hch
          obtain ⟨objs, hobjs, rfl⟩ := hch
          rcases List.mem_cons.1 hchild with rfl | hin
          · exact ⟨p0, h0⟩
          · exact ih objs hin hobjs
    obtain ⟨q, hq⟩ := hex
    exact ObjectManager.FindObject_of_live om g q child hq hguid
  have hst0 := hst
  simp only [SerializeMembers, hself, hch] at hst
  by_cases hchg : membersChanged children links = true
  · simp only [hchg, if_true] at hst
    obtain ⟨hcgn, hcgm⟩ := collectChildGuids_spec children
    have hP : ∀ q o, om.get q = some o → o.m_parent = some self →
        ∀ link ∈ links, link.guid = o.m_guid → link.guid ∈ collectChildGuids children := by
      intro q o hq hp link _ e
      obtain ⟨obj, hobj, hget⟩ := getChildObjects_mem om _ _ hch q (hpar q o hq hp)
      rw [hq] at hget
      cases hget
      rw [hcgm, e]
      exact List.mem_map_of_mem _ hobj
    obtain ⟨st1, cg1, h1, -, -, h4, h5, h6, h7, h8⟩ :=
      attachLoop_spec self om links
        { om := om, calls := [EditorCall.UndoBegin "Modify Prefab"] }
        (collectChildGuids children) (fun _ => rfl) hresolve hdistinct hcgn hP
    simp only [h1, Option.some.injEq] at hst
    obtain ⟨d1, d2⟩ := deleteLoop_args cg1 st1 h4
    have hfind : ∀ g, st1.om.FindObject g = om.FindObject g :=
      fun g => ObjectManager.FindObject_congr _ _ g (h8 g)
    simp only [hfind] at d1 d2
    have hfil : links.filter (fun l => !(collectChildGuids children).contains l.guid)
        = links.filter (fun l => !(childIds om self).contains l.guid) := by
      apply List.filter_congr
      intro l _
      have := hcgm l.guid
      rw [← hC] at this
      by_cases hm : l.guid ∈ childIds om self
      · simp [hm, this.2 hm]
      · have hn : l.guid ∉ collectChildGuids children := fun h => hm (this.1 h)
        simp [hm, hn]
    rw [hfil] at h6 h7
    have hA := filterMap_attached_attaches self (fun l : PrefabLink => om.FindObject l.guid)
      (links.filter (fun l => !(childIds om self).contains l.guid))
    have hD := filterMap_deleted_deletes (fun g : CryGUID => om.FindObject g) cg1
    have hcalls : st.calls = EditorCall.UndoBegin "Modify Prefab" ::
        ((links.filter (fun l => !(childIds om self).contains l.guid)).filterMap
            (fun l => (om.FindObject l.guid).map (EditorCall.AttachObjectToPrefab self))
          ++ cg1.map (fun g => EditorCall.DeleteObject (om.FindObject g))) := by
      rw [← hst, d1, h6]
      simp
    refine ⟨st,
      (links.filter (fun l => !(childIds om self).contains l.guid)).filterMap
        (fun l => om.FindObject l.guid),
      cg1, hst0, ?_, ?_, h4, ?_, ?_, ?_, ?_, ha, hd, hren⟩
    · exact filterMap_map_some _ _
        (fun l hl => hresolve l (List.mem_of_mem_filter hl))
    · rw [hcalls]
      simp only [List.filterMap_cons, EditorCall.attached, List.filterMap_append, hA.1, hD.2,
        List.append_nil]
    · intro g
      rw [h5 g, hcgm g, hC]
    · intro g hg
      exact hlive g (by rw [hC]; exact (hcgm g).1 ((h5 g).1 hg).1)
    · rw [hcalls]
      simp only [List.filterMap_cons, EditorCall.deleted, List.filterMap_append, hA.2, hD.1,
        List.nil_append]
    · rw [hcalls, ← hst, d2, h7]
      simp only [replayCalls, List.foldl_cons, List.foldl_append, applyEditorCall]
  · have hchg1 : membersChanged children links = false := by simpa using hchg
    have e := membersChanged_eq_false children links hchg1
    simp only [hchg1, Bool.false_eq_true, if_false, Option.some.injEq] at hst
    have hnone : links.filter (fun l => !(childIds om self).contains l.guid) = [] := by
      apply List.filter_eq_nil_iff.2
      intro l hl
      have hm : l.guid ∈ childIds om self := by
        rw [hC, ← e]
        exact List.mem_map_of_mem PrefabLink.guid hl
      simp [hm]
    refine ⟨st, [], [], hst0, by rw [hnone]; rfl, by rw [← hst]; rfl, List.nodup_nil, ?_, ?_,
      by rw [← hst]; rfl, by rw [← hst]; rfl, ha, hd, hren⟩
    · intro g
      rw [hC, e]
      simp
    · intro g hg
      cases hg

/-- The concrete scene satisfies the scene invariant for its prefab. -/
theorem sampleScene_consistent : sceneConsistent sampleScene 0 := by
  refine ⟨_, _, rfl, rfl, ?_⟩
  intro p obj hget hpar
  rcases p with _ | _ | _ | _ | p
  · simp [sampleScene, ObjectManager.get] at hget
    subst hget
    simp at hpar
  · simp
  · simp
  · simp [sampleScene, ObjectManager.get] at hget
    subst hget
    simp at hpar
  · simp [sampleScene, ObjectManager.get] at hget

/-- C10 at the concrete scene: keeping a, dropping b and adding c, under names that
are not the names of the objects, costs one attach, of c (pointer 3) to the
prefab, and one delete, of b (pointer 2); afterwards the children of the prefab
are a and c, and b is gone. -/
theorem SerializeMembers_minimal_witness :
    sceneConsistent sampleScene 0
      ∧ (sampleLinks.map PrefabLink.guid).Nodup
      ∧ (∀ link ∈ sampleLinks, (sampleScene.FindObject link.guid).isSome)
      ∧ (∃ st, SerializeMembers 0 sampleScene sampleLinks = some st
          ∧ attachCount st.calls = 1 ∧ deleteCount st.calls = 1)
      ∧ (SerializeMembers 0 sampleScene sampleLinks).map (fun st => st.calls)
          = some [EditorCall.UndoBegin "Modify Prefab", EditorCall.AttachObjectToPrefab 0 3,
                  EditorCall.DeleteObject (some 2)]
      ∧ ((SerializeMembers 0 sampleScene sampleLinks).bind (fun st => st.om.get 0)).map
          (fun o => o.m_childs) = some [1, 3]
      ∧ (SerializeMembers 0 sampleScene sampleLinks).map (fun st => st.om.get 2)
          = some none := by
  refine ⟨sampleScene_consistent, by decide, by decide, ?_, by decide, by decide, by decide⟩
  obtain ⟨st, -, -, hst, -, -, -, -, -, -, -, ha, hd, -⟩ :=
    SerializeMembers_minimal 0 sampleScene sampleLinks sampleScene_consistent
      (by decide) (by decide)
  refine ⟨st, hst, ?_, ?_⟩
  · rw [ha]; decide
  · rw [hd]; decide

/-- The loop over the submitted links only appends attach operations to the trace. -/
theorem attachLoop_calls (self : ObjPtr) :
    ∀ (links : List PrefabLink) (st : ReconcileState) (cg : List CryGUID)
      (st1 : ReconcileState) (cg1 : List CryGUID),
      attachLoop self links st cg = some (st1, cg1) →
      ∃ ext, st1.calls = st.calls ++ ext ∧ ∀ c ∈ ext, c.isAttach = true := by
  intro links
  induction links with
  | nil =>
    intro st cg st1 cg1 h
    simp only [attachLoop, Option.some.injEq, Prod.mk.injEq] at h
    exact ⟨[], by simp [h.1], by simp⟩
  | cons link rest ih =>
    intro st cg st1 cg1 h
    simp only [attachLoop] at h
    cases hs : attachStep self st cg link with
    | none => simp [hs] at h
    | some r =>
      obtain ⟨st2, cg2⟩ := r
      simp only [hs] at h
      obtain ⟨ext, he, ha⟩ := ih st2 cg2 st1 cg1 h
      have hstep : ∃ e2, st2.calls = st.calls ++ e2 ∧ ∀ c ∈ e2, c.isAttach = true := by
        unfold attachStep at hs
        split at hs
        · split at hs
          · simp at hs
          · split at hs
            · simp at hs
            · split at hs
              · simp only [Option.some.injEq, Prod.mk.injEq] at hs
                refine ⟨[EditorCall.AttachObjectToPrefab self _], by rw [← hs.1], ?_⟩
                intro c hc
                rw [List.mem_singleton] at hc
                subst hc
                rfl
              · simp only [Option.some.injEq, Prod.mk.injEq] at hs
                exact ⟨[], by simp [← hs.1], by simp⟩
        · simp only [Option.some.injEq, Prod.mk.injEq] at hs
          exact ⟨[], by simp [← hs.1], by simp⟩
      obtain ⟨e2, he2, ha2⟩ := hstep
      refine ⟨e2 ++ ext, by rw [he, he2, List.append_assoc], ?_⟩
      intro c hc
      rcases List.mem_append.1 hc with hc | hc
      · exact ha2 c hc
      · exact ha c hc

/-- The delete loop only appends delete operations to the trace. -/
theorem deleteLoop_calls (remaining : List CryGUID) :
    ∀ st : ReconcileState,
      ∃ ext, (deleteLoop remaining st).calls = st.calls ++ ext
        ∧ ∀ c ∈ ext, c.isDelete = true := by
  induction remaining with
  | nil => intro st; exact ⟨[], by simp [deleteLoop], by simp⟩
  | cons g rest ih =>
    intro st
    obtain ⟨ext, he, hd⟩ :=
      ih { om := DeleteObject st.om (st.om.FindObject g),
           calls := st.calls ++ [EditorCall.DeleteObject (st.om.FindObject g)] }
    refine ⟨EditorCall.DeleteObject (st.om.FindObject g) :: ext, ?_, ?_⟩
    · simp only [deleteLoop]
      rw [he]
      simp
    · intro c hc
      rcases List.mem_cons.1 hc with rfl | hc
      · rfl
      · exact hd c hc

/-- The trace of the input branch: empty on the fast path; otherwise the undo record
"Modify Prefab", then attach operations, then delete operations. -/
theorem SerializeMembers_trace (self : ObjPtr) (om : ObjectManager)
    (links : List PrefabLink) (st : ReconcileState)
    (h : SerializeMembers self om links = some st) :
    ∃ prefab children, om.get self = some prefab
      ∧ getChildObjects om prefab.m_childs = some children
      ∧ ((membersChanged children links = false ∧ st = { om := om, calls := [] })
          ∨ (membersChanged children links = true
              ∧ ∃ attaches deletes,
                  st.calls = EditorCall.UndoBegin "Modify Prefab" :: (attaches ++ deletes)
                    ∧ (∀ c ∈ attaches, c.isAttach = true)
                    ∧ (∀ c ∈ deletes, c.isDelete = true))) := by
  unfold SerializeMembers at h
  cases hself : om.get self with
  | none => simp [hself] at h
  | some prefab =>
    simp only [hself] at h
    cases hch : getChildObjects om prefab.m_childs with
    | none => simp [hch] at h
    | some children =>
      simp only [hch] at h
      refine ⟨prefab, children, rfl, hch, ?_⟩
      cases hchg : membersChanged children links with
      | false =>
        simp only [hchg, Bool.false_eq_true, if_false, Option.some.injEq] at h
        exact Or.inl ⟨rfl, h.symm⟩
      | true =>
        simp only [hchg, if_true] at h
        refine Or.inr ⟨rfl, ?_⟩
        cases hl : attachLoop self links
            { om := om, calls := [EditorCall.UndoBegin "Modify Prefab"] }
            (collectChildGuids children) with
        | none => simp [hl] at h
        | some r =>
          obtain ⟨st1, remaining⟩ := r
          simp only [hl, Option.some.injEq] at h
          obtain ⟨attaches, ha, hat⟩ := attachLoop_calls self links _ _ st1 remaining hl
          obtain ⟨deletes, hd, hdel⟩ := deleteLoop_calls remaining st1
          refine ⟨attaches, deletes, ?_, hat, hdel⟩
          rw [← h, hd, ha]
          simp

/-- C11: the fast path: when the submitted list has the length of the child list and
the same id at every position, the input branch of `SerializeMembers` returns with
an empty trace (no attach, no delete, no undo record); whenever it returns, the
undo record "Modify Prefab" is in the trace exactly when the lengths differ or
some position holds a different id, and it is then the first event. -/
theorem SerializeMembers_fastPath (self : ObjPtr) (om : ObjectManager)
    (links : List PrefabLink) (prefab : CBaseObject) (children : List CBaseObject)
    (hself : om.get self = some prefab)
    (hch : getChildObjects om prefab.m_childs = some children) :
    (links.map PrefabLink.guid = children.map (fun c => c.m_guid) →
        SerializeMembers self om links = some { om := om, calls := [] })
      ∧ ∀ st, SerializeMembers self om links = some st →
          ((EditorCall.UndoBegin "Modify Prefab" ∈ st.calls
              ↔ links.map PrefabLink.guid ≠ children.map (fun c => c.m_guid))
            ∧ (links.map PrefabLink.guid ≠ children.map (fun c => c.m_guid) →
                st.calls.head? = some (EditorCall.UndoBegin "Modify Prefab"))) := by
  constructor
  · intro hsame
    have hchg := (membersChanged_eq_false_iff children links).2 hsame
    simp [SerializeMembers, hself, hch, hchg]
  · intro st hst
    obtain ⟨prefab1, children1, hself1, hch1, hcase⟩ :=
      SerializeMembers_trace self om links st hst
    rw [hself] at hself1
    cases hself1
    rw [hch] at hch1
    cases hch1
    rcases hcase with ⟨hchg, rfl⟩ | ⟨hchg, attaches, deletes, hcalls, _, _⟩
    · have hsame := (membersChanged_eq_false_iff children links).1 hchg
      simp [hsame]
    · have hdiff : links.map PrefabLink.guid ≠ children.map (fun c => c.m_guid) := by
        intro e
        rw [(membersChanged_eq_false_iff children links).2 e] at hchg
        exact Bool.noConfusion hchg
      rw [hcalls]
      simp [hdiff]

/-- C11 at the concrete scene: the child ids in child order give an empty trace, the
same ids in the other order open the undo record. -/
theorem SerializeMembers_fastPath_witness :
    sampleScene.get 0
        = some { m_guid := { hipart := 0, lopart := 1 }, m_name := "prefab", m_childs := [1, 2] }
      ∧ SerializeMembers 0 sampleScene
          [{ guid := { hipart := 0, lopart := 2 } }, { guid := { hipart := 0, lopart := 3 } }]
          = some { om := sampleScene, calls := [] }
      ∧ (SerializeMembers 0 sampleScene
          [{ guid := { hipart := 0, lopart := 3 } },
           { guid := { hipart := 0, lopart := 2 } }]).map (fun st => st.calls)
          = some [EditorCall.UndoBegin "Modify Prefab"] :=
  ⟨rfl,
    (SerializeMembers_fastPath 0 sampleScene
      [{ guid := { hipart := 0, lopart := 2 } }, { guid := { hipart := 0, lopart := 3 } }]
      _ _ rfl rfl).1 (by decide),
    by decide⟩

/-- C12: in the trace of one reconciliation pass no `DeleteObject` precedes an
`AttachObjectToPrefab`: whenever the input branch of `SerializeMembers` returns,
for any child list and any submitted list, no earlier event of its trace is a
delete while a later one is an attach. -/
theorem SerializeMembers_attach_before_delete (self : ObjPtr) (om : ObjectManager)
    (links : List PrefabLink) (st : ReconcileState)
    (h : SerializeMembers self om links = some st) :
    st.calls.Pairwise (fun earlier later =>
      ¬ (earlier.isDelete = true ∧ later.isAttach = true)) := by
  obtain ⟨prefab, children, _, _, hcase⟩ := SerializeMembers_trace self om links st h
  rcases hcase with ⟨_, rfl⟩ | ⟨_, attaches, deletes, hcalls, hat, hdel⟩
  · exact List.Pairwise.nil
  · have hnd : ∀ c ∈ attaches, c.isDelete = false := by
      intro c hc
      have := hat c hc
      cases c <;> simp_all [EditorCall.isAttach, EditorCall.isDelete]
    have hna : ∀ c ∈ deletes, c.isAttach = false := by
      intro c hc
      have := hdel c hc
      cases c <;> simp_all [EditorCall.isAttach, EditorCall.isDelete]
    rw [hcalls, List.pairwise_cons]
    constructor
    · intro c _ hbad
      exact Bool.noConfusion hbad.1
    · rw [List.pairwise_append]
      refine ⟨?_, ?_, ?_⟩
      · apply List.pairwise_of_forall_mem_list
        intro a ha b _ hbad
        rw [hnd a ha] at hbad
        exact Bool.noConfusion hbad.1
      · apply List.pairwise_of_forall_mem_list
        intro a _ b hb hbad
        rw [hna b hb] at hbad
        exact Bool.noConfusion hbad.2
      · intro a ha b _ hbad
        rw [hnd a ha] at hbad
        exact Bool.noConfusion hbad.1

/-- C12 at the concrete scene: the pass that adds c and drops b issues the attach
before the delete. -/
theorem SerializeMembers_attach_before_delete_witness :
    SerializeMembers 0 sampleScene sampleLinks
        = some (deleteLoop [{ hipart := 0, lopart := 3 }]
            { om := AttachObjectToPrefab sampleScene 0 3,
              calls := [EditorCall.UndoBegin "Modify Prefab",
                        EditorCall.AttachObjectToPrefab 0 3] })
      ∧ (deleteLoop [{ hipart := 0, lopart := 3 }]
            { om := AttachObjectToPrefab sampleScene 0 3,
              calls := [EditorCall.UndoBegin "Modify Prefab",
                        EditorCall.AttachObjectToPrefab 0 3] }).calls
          = [EditorCall.UndoBegin "Modify Prefab", EditorCall.AttachObjectToPrefab 0 3,
             EditorCall.DeleteObject (some 2)]
      ∧ (deleteLoop [{ hipart := 0, lopart := 3 }]
            { om := AttachObjectToPrefab sampleScene 0 3,
              calls := [EditorCall.UndoBegin "Modify Prefab",
                        EditorCall.AttachObjectToPrefab 0 3] }).calls.Pairwise
          (fun earlier later => ¬ (earlier.isDelete = true ∧ later.isAttach = true)) :=
  ⟨by decide, by decide,
    SerializeMembers_attach_before_delete 0 sampleScene sampleLinks _ (by decide)⟩

/-! ## Bounds: properties -/

/-- The accumulation steps of a loop are those of its calls. -/
theorem collectVisits_mem {α : Type} (visit : ObjPtr → Option (List α)) :
    ∀ (ps : List ObjPtr) (vs : List α), collectVisits visit ps = some vs →
      ∀ v, v ∈ vs ↔ ∃ c ∈ ps, ∃ vc, visit c = some vc ∧ v ∈ vc := by
  intro ps
  induction ps with
  | nil =>
    intro vs h v
    simp only [collectVisits, Option.some.injEq] at h
    simp [← h]
  | cons p rest ih =>
    intro vs h v
    simp only [collectVisits] at h
    cases hp : visit p with
    | none => simp [hp] at h
    | some a =>
      cases hr : collectVisits visit rest with
      | none => simp [hp, hr] at h
      | some b =>
        simp only [hp, hr, Option.some.injEq] at h
        subst h
        rw [List.mem_append, ih b hr v]
        constructor
        · rintro (hv | ⟨c, hc, vc, hvc, hv⟩)
          · exact ⟨p, List.mem_cons_self _ _, a, hp, hv⟩
          · exact ⟨c, List.mem_cons_of_mem _ hc, vc, hvc, hv⟩
        · rintro ⟨c, hc, vc, hvc, hv⟩
          rcases List.mem_cons.1 hc with rfl | hc
          · rw [hp] at hvc
            cases hvc
            exact Or.inl hv
          · exact Or.inr ⟨c, hc, vc, hvc, hv⟩

/-- When a loop has a result, each of its calls had one. -/
theorem collectVisits_call_isSome {α : Type} (visit : ObjPtr → Option (List α)) :
    ∀ (ps : List ObjPtr) (vs : List α), collectVisits visit ps = some vs →
      ∀ c ∈ ps, (visit c).isSome = true := by
  intro ps
  induction ps with
  | nil => intro vs _ c hc; simp at hc
  | cons p rest ih =>
    intro vs h c hc
    simp only [collectVisits] at h
    cases hp : visit p with
    | none => simp [hp] at h
    | some a =>
      cases hr : collectVisits visit rest with
      | none => simp [hp, hr] at h
      | some b =>
        rcases List.mem_cons.1 hc with rfl | hc
        · simp [hp]
        · exact ih b hr c hc

/-- A loop has a result when each of its calls has one. -/
theorem collectVisits_isSome {α : Type} (visit : ObjPtr → Option (List α)) :
    ∀ ps : List ObjPtr, (∀ c ∈ ps, (visit c).isSome = true) →
      (collectVisits visit ps).isSome = true := by
  intro ps
  induction ps with
  | nil => intro _; rfl
  | cons p rest ih =>
    intro h
    have hp := h p (List.mem_cons_self _ _)
    have hr := ih (fun c hc => h c (List.mem_cons_of_mem _ hc))
    obtain ⟨a, ha⟩ := Option.isSome_iff_exists.1 hp
    obtain ⟨b, hb⟩ := Option.isSome_iff_exists.1 hr
    simp [collectVisits, ha, hb]

/-- A loop over an array whose calls all make no step makes no step. -/
theorem collectVisits_nil_of_forall {α : Type} (visit : ObjPtr → Option (List α)) :
    ∀ ps : List ObjPtr, (∀ c ∈ ps, visit c = some []) → collectVisits visit ps = some [] := by
  intro ps
  induction ps with
  | nil => intro _; rfl
  | cons p rest ih =>
    intro h
    simp [collectVisits, h p (List.mem_cons_self _ _),
      ih (fun c hc => h c (List.mem_cons_of_mem _ hc))]

/-- No tagged path starts at an object without the prefab flag. -/
theorem TaggedPath.start_tagged {om : ObjectManager} {p q : ObjPtr}
    (h : TaggedPath om p q) : ∃ obj, om.get p = some obj ∧ obj.m_prefabFlag = true := by
  cases h with
  | here _ obj h1 h2 => exact ⟨obj, h1, h2⟩
  | child _ _ _ obj h1 h2 _ _ => exact ⟨obj, h1, h2⟩
  | linked _ _ _ obj h1 h2 _ _ => exact ⟨obj, h1, h2⟩

/-- The objects the recursion accumulates from an object are those a tagged path
from it leads to. -/
theorem Prefab_RecursivelyGetBoundBox_visited (om : ObjectManager) :
    ∀ (fuel : Nat) (p : ObjPtr) (parentTM : List ObjPtr) (vs : List BoundsVisit),
      Prefab_RecursivelyGetBoundBox om fuel p parentTM = some vs →
      ∀ q, q ∈ vs.map BoundsVisit.object ↔ TaggedPath om p q := by
  intro fuel
  induction fuel with
  | zero => intro p parentTM vs h; simp [Prefab_RecursivelyGetBoundBox] at h
  | succ fuel ih =>
    intro p parentTM vs h q
    simp only [Prefab_RecursivelyGetBoundBox] at h
    cases hp : om.get p with
    | none => simp [hp] at h
    | some obj =>
      simp only [hp] at h
      cases hflag : obj.m_prefabFlag with
      | false =>
        simp only [hflag, Bool.not_false, if_true, Option.some.injEq] at h
        subst h
        simp only [List.map_nil, List.not_mem_nil, false_iff]
        intro hpath
        obtain ⟨obj1, h1, h2⟩ := hpath.start_tagged
        rw [hp] at h1
        cases h1
        rw [hflag] at h2
        exact Bool.noConfusion h2
      | true =>
        simp only [hflag, Bool.not_true, Bool.false_eq_true, if_false] at h
        cases ha : collectVisits
            (fun c => Prefab_RecursivelyGetBoundBox om fuel c (parentTM ++ [p])) obj.m_childs with
        | none => simp [ha] at h
        | some a =>
          cases hb : collectVisits
              (fun c => Prefab_RecursivelyGetBoundBox om fuel c (parentTM ++ [p]))
              obj.m_linkedObjects with
          | none => simp [ha, hb] at h
          | some b =>
            simp only [ha, hb, Option.some.injEq] at h
            subst h
            have hma := collectVisits_mem _ _ _ ha
            have hmb := collectVisits_mem _ _ _ hb
            simp only [List.map_cons, List.map_append, List.mem_cons, List.mem_append,
              List.mem_map]
            constructor
            · rintro (rfl | ⟨v, hv, rfl⟩ | ⟨v, hv, rfl⟩)
              · exact TaggedPath.here _ obj hp hflag
              · obtain ⟨c, hc, vc, hvc, hvin⟩ := (hma v).1 hv
                exact TaggedPath.child _ c _ obj hp hflag hc
                  ((ih c _ vc hvc v.object).1 (List.mem_map_of_mem _ hvin))
              · obtain ⟨c, hc, vc, hvc, hvin⟩ := (hmb v).1 hv
                exact TaggedPath.linked _ c _ obj hp hflag hc
                  ((ih c _ vc hvc v.object).1 (List.mem_map_of_mem _ hvin))
            · intro hpath
              cases hpath with
              | here _ _ _ _ => exact Or.inl rfl
              | child _ c _ obj1 h1 _ hc hrest =>
                rw [hp] at h1
                cases h1
                obtain ⟨vc, hvc⟩ :=
                  Option.isSome_iff_exists.1 (collectVisits_call_isSome _ _ _ ha c hc)
                obtain ⟨v, hv, hvq⟩ := List.mem_map.1 ((ih c _ vc hvc q).2 hrest)
                exact Or.inr (Or.inl ⟨v, (hma v).2 ⟨c, hc, vc, hvc, hv⟩, hvq⟩)
              | linked _ c _ obj1 h1 _ hc hrest =>
                rw [hp] at h1
                cases h1
                obtain ⟨vc, hvc⟩ :=
                  Option.isSome_iff_exists.1 (collectVisits_call_isSome _ _ _ hb c hc)
                obtain ⟨v, hv, hvq⟩ := List.mem_map.1 ((ih c _ vc hvc q).2 hrest)
                exact Or.inr (Or.inr ⟨v, (hmb v).2 ⟨c, hc, vc, hvc, hv⟩, hvq⟩)

/-- In a closed scene with a well-founded hierarchy the recursion has a result once
the depth bound exceeds the rank of the object. -/
theorem Prefab_RecursivelyGetBoundBox_isSome (om : ObjectManager) (rank : ObjPtr → Nat)
    (hwf : hierarchyWellFounded om rank) :
    ∀ (fuel : Nat) (p : ObjPtr) (parentTM : List ObjPtr),
      (om.get p).isSome = true → rank p < fuel →
      (Prefab_RecursivelyGetBoundBox om fuel p parentTM).isSome = true := by
  intro fuel
  induction fuel with
  | zero => intro p _ _ h; exact absurd h (Nat.not_lt_zero _)
  | succ fuel ih =>
    intro p parentTM hlive hrank
    obtain ⟨obj, hp⟩ := Option.isSome_iff_exists.1 hlive
    simp only [Prefab_RecursivelyGetBoundBox, hp]
    cases hflag : obj.m_prefabFlag with
    | false => simp
    | true =>
      simp only [Bool.not_true, Bool.false_eq_true, if_false]
      have ha := collectVisits_isSome
        (fun c => Prefab_RecursivelyGetBoundBox om fuel c (parentTM ++ [p])) obj.m_childs
        (fun c hc => ih c _ (hwf p obj hp c (Or.inl hc)).1
          (by have := (hwf p obj hp c (Or.inl hc)).2; omega))
      have hb := collectVisits_isSome
        (fun c => Prefab_RecursivelyGetBoundBox om fuel c (parentTM ++ [p])) obj.m_linkedObjects
        (fun c hc => ih c _ (hwf p obj hp c (Or.inr hc)).1
          (by have := (hwf p obj hp c (Or.inr hc)).2; omega))
      obtain ⟨a, ha⟩ := Option.isSome_iff_exists.1 ha
      obtain ⟨b, hb⟩ := Option.isSome_iff_exists.1 hb
      simp [ha, hb]

/-- The objects accumulated for one direct child are those a tagged path from the
child leads to. -/
theorem calcBoundBoxChild_visited (om : ObjectManager) (fuel : Nat) (c : ObjPtr)
    (vs : List BoundsVisit) (h : calcBoundBoxChild om fuel c = some vs) :
    ∀ q, q ∈ vs.map BoundsVisit.object ↔ TaggedPath om c q := by
  intro q
  unfold calcBoundBoxChild at h
  cases hc : om.get c with
  | none => simp [hc] at h
  | some obj =>
    simp only [hc] at h
    cases hflag : obj.m_prefabFlag with
    | true =>
      simp only [hflag, if_true] at h
      exact Prefab_RecursivelyGetBoundBox_visited om fuel c [] vs h q
    | false =>
      simp only [hflag, Bool.false_eq_true, if_false, Option.some.injEq] at h
      subst h
      simp only [List.map_nil, List.not_mem_nil, false_iff]
      intro hpath
      obtain ⟨obj1, h1, h2⟩ := hpath.start_tagged
      rw [hc] at h1
      cases h1
      rw [hflag] at h2
      exact Bool.noConfusion h2

/-- When `CalcBoundBox` returns, its result is built from the loop over the direct
children. -/
theorem CalcBoundBox_eq_some (addBounds : AABB → BoundsVisit → AABB) (fuel : Nat)
    (om : ObjectManager) (selfPtr : ObjPtr) (self : CPrefabObject) (this : CBaseObject)
    (r : BoundsResult) (hthis : om.get selfPtr = some this)
    (h : CalcBoundBox addBounds fuel om selfPtr self = some r) :
    collectVisits (calcBoundBoxChild om fuel) this.m_childs = some r.visited
      ∧ r.self = { self with
                   m_bbox := if this.m_childs.length == 0 then AABB.unit
                             else r.visited.foldl addBounds AABB.Reset,
                   m_bBBoxValid := true } := by
  unfold CalcBoundBox at h
  simp only [hthis] at h
  cases hv : collectVisits (calcBoundBoxChild om fuel) this.m_childs with
  | none => simp [hv] at h
  | some visited =>
    simp only [hv, Option.some.injEq] at h
    subst h
    exact ⟨rfl, rfl⟩

/-- C13, the code at the failing input: the prefab of the concrete scene has two direct
children, neither of them prefab-tagged, so it has zero prefab-tagged children;
`CalcBoundBox` accumulates nothing, its test of the child count fails, and it
stores the reset box, which is not the unit box, and marks the bounds valid. -/
theorem CalcBoundBox_untagged_children_not_unit :
    (sampleScene.get 0).map (fun o => o.m_childs) = some [1, 2]
      ∧ (sampleScene.get 1).map (fun o => o.m_prefabFlag) = some false
      ∧ (sampleScene.get 2).map (fun o => o.m_prefabFlag) = some false
      ∧ (CalcBoundBox sampleAddBounds 8 sampleScene 0 sampleInstance).map
          (fun r => (r.self.m_bbox, r.self.m_bBBoxValid, r.visited))
          = some (AABB.Reset, true, [])
      ∧ AABB.Reset ≠ AABB.unit := by
  decide

/-- What `CalcBoundBox` stores when nothing is accumulated: the fixed unit box, min
(-1,-1,-1) and max (1,1,1), for an instance without direct children; the reset
box for an instance with direct children none of which is prefab-tagged; whenever
it returns, the bounds are marked valid. -/
theorem CalcBoundBox_unit_box (addBounds : AABB → BoundsVisit → AABB) (fuel : Nat)
    (om : ObjectManager) (selfPtr : ObjPtr) (self : CPrefabObject) (this : CBaseObject)
    (hthis : om.get selfPtr = some this) :
    (this.m_childs = [] →
        CalcBoundBox addBounds fuel om selfPtr self
          = some { self := { self with m_bbox := AABB.unit, m_bBBoxValid := true },
                   visited := [] })
      ∧ (this.m_childs ≠ [] →
          (∀ c ∈ this.m_childs, ∃ obj, om.get c = some obj ∧ obj.m_prefabFlag = false) →
          CalcBoundBox addBounds fuel om selfPtr self
            = some { self := { self with m_bbox := AABB.Reset, m_bBBoxValid := true },
                     visited := [] })
      ∧ (∀ r, CalcBoundBox addBounds fuel om selfPtr self = some r →
          r.self.m_bBBoxValid = true) := by
  refine ⟨?_, ?_, ?_⟩
  · intro hno
    simp [CalcBoundBox, hthis, hno, collectVisits]
  · intro hne hall
    have hv : collectVisits (calcBoundBoxChild om fuel) this.m_childs = some [] := by
      apply collectVisits_nil_of_forall
      intro c hc
      obtain ⟨obj, ho, hf⟩ := hall c hc
      simp [calcBoundBoxChild, ho, hf]
    have hlen : this.m_childs.length ≠ 0 := by
      intro e
      exact hne (List.length_eq_zero.1 e)
    simp [CalcBoundBox, hthis, hv, hlen]
  · intro r hr
    rw [(CalcBoundBox_eq_some addBounds fuel om selfPtr self this r hthis hr).2]

/-- The object c (pointer 3) of the concrete scene has no children and gets the unit
box. -/
theorem CalcBoundBox_unit_box_sample :
    sampleScene.get 3
        = some { m_guid := { hipart := 0, lopart := 4 }, m_name := "c" }
      ∧ CalcBoundBox sampleAddBounds 0 sampleScene 3 sampleInstance
          = some { self := { sampleInstance with m_bbox := AABB.unit, m_bBBoxValid := true },
                   visited := [] } :=
  ⟨rfl, (CalcBoundBox_unit_box sampleAddBounds 0 sampleScene 3 sampleInstance _ rfl).1 rfl⟩

/-- C20: the objects whose local bounds `CalcBoundBox` accumulates are exactly the
objects a tagged path leads to from a direct child of the instance: in a closed
scene with a well-founded hierarchy the function returns, and whenever it returns
the box it stores (for an instance with children) is the reset box with the
accumulation step applied for each entry of one list of visits, in order, the
bounds are marked valid, and an object is visited in that list exactly when some
direct child reaches it along child and linked-object edges through prefab-tagged
objects only; the accumulation step is arbitrary. -/
theorem CalcBoundBox_visits_tagged_reachable (addBounds : AABB → BoundsVisit → AABB)
    (om : ObjectManager) (selfPtr : ObjPtr) (self : CPrefabObject) (this : CBaseObject)
    (rank : ObjPtr → Nat) (hthis : om.get selfPtr = some this)
    (hwf : hierarchyWellFounded om rank) :
    (∃ r, CalcBoundBox addBounds (rank selfPtr) om selfPtr self = some r)
      ∧ ∀ fuel r, CalcBoundBox addBounds fuel om selfPtr self = some r →
          r.self.m_bbox
              = (if this.m_childs.length == 0 then AABB.unit
                 else r.visited.foldl addBounds AABB.Reset)
            ∧ r.self.m_bBBoxValid = true
            ∧ (∀ other : AABB → BoundsVisit → AABB,
                ∃ r2, CalcBoundBox other fuel om selfPtr self = some r2
                  ∧ r2.visited = r.visited
                  ∧ r2.self.m_bbox
                      = (if this.m_childs.length == 0 then AABB.unit
                         else r.visited.foldl other AABB.Reset))
            ∧ ∀ q, q ∈ r.visited.map BoundsVisit.object
                ↔ ∃ c ∈ this.m_childs, TaggedPath om c q := by
  constructor
  · have hv := collectVisits_isSome (calcBoundBoxChild om (rank selfPtr)) this.m_childs
      (by
        intro c hc
        obtain ⟨hlive, hrank⟩ := hwf selfPtr this hthis c (Or.inl hc)
        obtain ⟨obj, ho⟩ := Option.isSome_iff_exists.1 hlive
        simp only [calcBoundBoxChild, ho]
        split
        · exact Prefab_RecursivelyGetBoundBox_isSome om rank hwf _ c [] hlive hrank
        · rfl)
    obtain ⟨visited, hvis⟩ := Option.isSome_iff_exists.1 hv
    refine ⟨{ self := { self with
                        m_bbox := if this.m_childs.length == 0 then AABB.unit
                                  else visited.foldl addBounds AABB.Reset,
                        m_bBBoxValid := true },
              visited := visited }, ?_⟩
    simp only [CalcBoundBox, hthis, hvis]
  · intro fuel r hr
    obtain ⟨hcv, hself⟩ := CalcBoundBox_eq_some addBounds fuel om selfPtr self this r hthis hr
    refine ⟨by rw [hself], by rw [hself], ?_, ?_⟩
    · intro other
      refine ⟨{ self := { self with
                          m_bbox := if this.m_childs.length == 0 then AABB.unit
                                    else r.visited.foldl other AABB.Reset,
                          m_bBBoxValid := true },
                visited := r.visited }, ?_, rfl, rfl⟩
      simp only [CalcBoundBox, hthis, hcv]
    · intro q
      have hm := collectVisits_mem _ _ _ hcv
      constructor
      · intro hq
        obtain ⟨v, hv, rfl⟩ := List.mem_map.1 hq
        obtain ⟨c, hc, vc, hvc, hvin⟩ := (hm v).1 hv
        exact ⟨c, hc, (calcBoundBoxChild_visited om fuel c vc hvc v.object).1
          (List.mem_map_of_mem _ hvin)⟩
      · rintro ⟨c, hc, hpath⟩
        obtain ⟨vc, hvc⟩ :=
          Option.isSome_iff_exists.1 (collectVisits_call_isSome _ _ _ hcv c hc)
        obtain ⟨v, hv, hvq⟩ :=
          List.mem_map.1 ((calcBoundBoxChild_visited om fuel c vc hvc q).2 hpath)
        exact List.mem_map.2 ⟨v, (hm v).2 ⟨c, hc, vc, hvc, hv⟩, hvq⟩

/-- The hierarchy of the concrete bounds scene is well-founded: pointers grow from an
object to its children and linked objects. -/
theorem sampleBoundsScene_wellFounded :
    hierarchyWellFounded sampleBoundsScene (fun p => 6 - p) := by
  intro p obj hget c hc
  rcases p with _ | _ | _ | _ | _ | _ | p
  all_goals simp [sampleBoundsScene, ObjectManager.get] at hget
  all_goals subst hget
  all_goals simp at hc
  · rcases hc with rfl | rfl <;> decide
  · rcases hc with rfl | rfl <;> decide
  · subst hc; decide

/-- C20 at the concrete bounds scene, each object having the point (pointer, length
of the transform chain, 0) as local bounds: the accumulated objects are 1, 3 and
4, and the stored box spans (1,1,0) to (4,2,0); the untagged child 2 and the
tagged object 5 below it contribute nothing. -/
theorem CalcBoundBox_visits_tagged_reachable_witness :
    hierarchyWellFounded sampleBoundsScene (fun p => 6 - p)
      ∧ (CalcBoundBox samplePointBounds 6 sampleBoundsScene 0 sampleInstance).map
          (fun r => (r.visited.map BoundsVisit.object, r.self.m_bbox, r.self.m_bBBoxValid))
          = some ([1, 3, 4],
                  { min := { x := 1, y := 1, z := 0 }, max := { x := 4, y := 2, z := 0 } },
                  true)
      ∧ ∀ q, q ∈ [1, 3, 4] ↔ ∃ c ∈ [1, 2], TaggedPath sampleBoundsScene c q := by
  refine ⟨sampleBoundsScene_wellFounded, by decide, ?_⟩
  have h := ((CalcBoundBox_visits_tagged_reachable samplePointBounds sampleBoundsScene 0
    sampleInstance _ (fun p => 6 - p) rfl sampleBoundsScene_wellFounded).2 6 _ rfl).2.2.2
  exact h

/-! ## Expansion: properties -/

/-- An update that keeps parent, link target and child array of an object keeps them
in every slot of the scene. -/
theorem ObjectManager.modify_hierarchy (om : ObjectManager) (p q : ObjPtr)
    (f : CBaseObject → CBaseObject)
    (hf : ∀ o, ((f o).m_parent, (f o).m_linkedTo, (f o).m_childs)
      = (o.m_parent, o.m_linkedTo, o.m_childs)) :
    ((om.modify p f).get q).map (fun o => (o.m_parent, o.m_linkedTo, o.m_childs))
      = (om.get q).map (fun o => (o.m_parent, o.m_linkedTo, o.m_childs)) := by
  rw [ObjectManager.get_modify]
  by_cases h : p = q
  · simp only [h, if_true]
    cases om.get q with
    | none => rfl
    | some o => simp only [Option.map_some', hf o]
  · simp only [h, if_false]

/-- The loop over the loaded objects changes flags and layers only, and pushes the
loaded objects that have neither parent nor link target, in load order. -/
theorem attachLoadedLoop_spec (om0 : ObjectManager) (self : ObjPtr)
    (pLayer : Option LayerPtr) (hself : (om0.get self).isSome = true) :
    ∀ (loaded : List ObjPtr) (om : ObjectManager) (objects : List ObjPtr),
      (∀ q, (om.get q).map (fun o => (o.m_parent, o.m_linkedTo, o.m_childs))
          = (om0.get q).map (fun o => (o.m_parent, o.m_linkedTo, o.m_childs))) →
      (∀ p ∈ loaded, (om0.get p).isSome = true) →
      ∃ om1, attachLoadedLoop self pLayer loaded om objects
          = some (om1, objects ++ loaded.filter (isUnattached om0))
        ∧ ∀ q, (om1.get q).map (fun o => (o.m_parent, o.m_linkedTo, o.m_childs))
            = (om0.get q).map (fun o => (o.m_parent, o.m_linkedTo, o.m_childs)) := by
  intro loaded
  induction loaded with
  | nil => intro om objects hinv _; exact ⟨om, by simp [attachLoadedLoop], hinv⟩
  | cons p rest ih =>
    intro om objects hinv hlive
    have hinv1 : ∀ q, ((om.modify p (SetLayer pLayer)).get q).map
        (fun o => (o.m_parent, o.m_linkedTo, o.m_childs))
        = (om0.get q).map (fun o => (o.m_parent, o.m_linkedTo, o.m_childs)) :=
      fun q => (ObjectManager.modify_hierarchy om p q (SetLayer pLayer)
        (fun _ => rfl)).trans (hinv q)
    obtain ⟨obj0, hobj0⟩ := Option.isSome_iff_exists.1 (hlive p (List.mem_cons_self _ _))
    have hp1 := hinv1 p
    rw [hobj0] at hp1
    cases hobj : (om.modify p (SetLayer pLayer)).get p with
    | none => rw [hobj] at hp1; simp at hp1
    | some obj =>
      rw [hobj] at hp1
      simp only [Option.map_some', Option.some.injEq, Prod.mk.injEq] at hp1
      obtain ⟨this1, hthis1⟩ : ∃ this1, (om.modify p (SetLayer pLayer)).get self = some this1 := by
        have h1 := hinv1 self
        obtain ⟨this0, hthis0⟩ := Option.isSome_iff_exists.1 hself
        rw [hthis0] at h1
        cases hs : (om.modify p (SetLayer pLayer)).get self with
        | none => rw [hs] at h1; simp at h1
        | some t => exact ⟨t, rfl⟩
      have hinv2 : ∀ q, (((om.modify p (SetLayer pLayer)).modify p
          (fun o => SetLayer this1.m_layer { o with m_prefabFlag := true })).get q).map
          (fun o => (o.m_parent, o.m_linkedTo, o.m_childs))
          = (om0.get q).map (fun o => (o.m_parent, o.m_linkedTo, o.m_childs)) :=
        fun q => (ObjectManager.modify_hierarchy _ p q
          (fun o => SetLayer this1.m_layer { o with m_prefabFlag := true })
          (fun _ => rfl)).trans (hinv1 q)
      obtain ⟨om1, h1, h2⟩ := ih _
        (if obj.m_parent.isNone && obj.m_linkedTo.isNone then objects ++ [p] else objects)
        hinv2 (fun q hq => hlive q (List.mem_cons_of_mem _ hq))
      refine ⟨om1, ?_, h2⟩
      simp only [attachLoadedLoop, hobj, SetObjectPrefabFlagAndLayer, hthis1]
      rw [h1]
      have hun : isUnattached om0 p = (obj.m_parent.isNone && obj.m_linkedTo.isNone) := by
        simp only [isUnattached, hobj0, hp1.1, hp1.2.1]
      simp only [List.filter_cons, hun]
      cases (obj.m_parent.isNone && obj.m_linkedTo.isNone) <;> simp

/-- After one attach of an object without parent, the child array of the prefab is
longer by that object. -/
theorem AttachObjectToPrefab_childs (om : ObjectManager) (self c : ObjPtr)
    (hc : (om.get c).bind (fun o => o.m_parent) = none) :
    ((AttachObjectToPrefab om self c).get self).map (fun o => o.m_childs)
      = (om.get self).map (fun o => o.m_childs ++ [c]) := by
  simp only [AttachObjectToPrefab, hc, ObjectManager.get_modify, if_true]
  by_cases h : c = self
  · subst h
    cases hs : om.get c <;> simp
  · cases hs : om.get self <;> simp [h]

/-- Attaching a list of distinct objects without parents appends the list to the
child array of the prefab. -/
theorem AttachChildren_childs (self : ObjPtr) :
    ∀ (objects : List ObjPtr) (om : ObjectManager), objects.Nodup →
      (∀ c ∈ objects, (om.get c).bind (fun o => o.m_parent) = none) →
      ((AttachChildren om self objects).get self).map (fun o => o.m_childs)
        = (om.get self).map (fun o => o.m_childs ++ objects) := by
  intro objects
  induction objects with
  | nil =>
    intro om _ _
    simp [AttachChildren]
  | cons c rest ih =>
    intro om hnd hpar
    have hc := hpar c (List.mem_cons_self _ _)
    have hrest : ∀ d ∈ rest,
        ((AttachObjectToPrefab om self c).get d).bind (fun o => o.m_parent) = none := by
      intro d hd
      have hne : d ≠ c := fun e => (List.nodup_cons.1 hnd).1 (e ▸ hd)
      cases hg : (AttachObjectToPrefab om self c).get d with
      | none => rfl
      | some o1 =>
        obtain ⟨o, ho, _, hcase⟩ := AttachObjectToPrefab_get om self c d o1 hg
        rcases hcase with hsame | hdc
        · have := hpar d (List.mem_cons_of_mem _ hd)
          rw [ho] at this
          simpa [hsame] using this
        · exact absurd hdc hne
    have h1 := ih (AttachObjectToPrefab om self c) (List.nodup_cons.1 hnd).2 hrest
    simp only [AttachChildren, List.foldl_cons] at h1 ⊢
    rw [h1]
    have h2 := AttachObjectToPrefab_childs om self c hc
    cases hs : om.get self with
    | none =>
      rw [hs] at h2
      cases hs2 : (AttachObjectToPrefab om self c).get self with
      | none => rfl
      | some o => rw [hs2] at h2; simp at h2
    | some o =>
      rw [hs] at h2
      cases hs2 : (AttachObjectToPrefab om self c).get self with
      | none => rw [hs2] at h2; simp at h2
      | some o2 =>
        rw [hs2] at h2
        simp only [Option.map_some', Option.some.injEq] at h2 ⊢
        rw [h2]
        simp

/-- C14: the objects `AttachLoadedChildrenToPrefab` attaches as direct children of the
instance are exactly the loaded objects that have neither a parent nor a link
target, in load order, and for distinct loaded objects they are appended to the
child array of the instance; for the template with the nodes A (no parent) and B
(parent A) the instance gets one direct child, the object mapped from A, which
keeps the object mapped from B as its child. -/
theorem AttachLoadedChildrenToPrefab_attached (om : ObjectManager) (self : ObjPtr)
    (loaded : List ObjPtr) (pLayer : Option LayerPtr) (this : CBaseObject)
    (hthis : om.get self = some this)
    (hlive : ∀ p ∈ loaded, (om.get p).isSome = true) :
    (∃ r, AttachLoadedChildrenToPrefab om self loaded pLayer = some r
        ∧ r.attached = loaded.filter (isUnattached om)
        ∧ (loaded.Nodup →
            (r.om.get self).map (fun o => o.m_childs)
              = some (this.m_childs ++ loaded.filter (isUnattached om))))
      ∧ (AttachLoadedChildrenToPrefab sampleLoadedScene 0 [1, 2] (some 3)).map
          (fun r => (r.attached, (r.om.get 0).map (fun o => o.m_childs),
                     (r.om.get 1).map (fun o => o.m_childs)))
          = some ([1], some [1], some [2]) := by
  refine ⟨?_, by decide⟩
  obtain ⟨om1, h1, h2⟩ := attachLoadedLoop_spec om self pLayer (by simp [hthis]) loaded om []
    (fun _ => rfl) hlive
  refine ⟨{ om := AttachChildren om1 self (loaded.filter (isUnattached om)),
            attached := loaded.filter (isUnattached om) }, ?_, rfl, ?_⟩
  · simp only [AttachLoadedChildrenToPrefab, h1, List.nil_append]
  · intro hnd
    have hpar : ∀ c ∈ loaded.filter (isUnattached om),
        (om1.get c).bind (fun o => o.m_parent) = none := by
      intro c hc
      have hun := (List.mem_filter.1 hc).2
      have h2c := h2 c
      simp only [isUnattached] at hun
      cases hg0 : om.get c with
      | none => simp [hg0] at hun
      | some o0 =>
        rw [hg0] at h2c hun
        cases hg1 : om1.get c with
        | none => rfl
        | some o1 =>
          rw [hg1] at h2c
          simp only [Option.map_some', Option.some.injEq, Prod.mk.injEq] at h2c
          simp only [Option.some_bind, h2c.1]
          simp only [Bool.and_eq_true, Option.isNone_iff_eq_none] at hun
          exact hun.1
    rw [AttachChildren_childs self _ om1 (hnd.sublist (List.filter_sublist _)) hpar]
    have h2s := h2 self
    rw [hthis] at h2s
    cases hs : om1.get self with
    | none => rw [hs] at h2s; simp at h2s
    | some o1 =>
      rw [hs] at h2s
      simp only [Option.map_some', Option.some.injEq, Prod.mk.injEq] at h2s
      simp only [Option.map_some', h2s.2.2]

/-- C14 at the concrete scene of the template with the nodes A and B. -/
theorem AttachLoadedChildrenToPrefab_attached_witness :
    (∀ p ∈ [1, 2], (sampleLoadedScene.get p).isSome = true)
      ∧ ∃ r, AttachLoadedChildrenToPrefab sampleLoadedScene 0 [1, 2] (some 3) = some r
          ∧ r.attached = [1] := by
  refine ⟨by decide, ?_⟩
  obtain ⟨r, hr, ha, -⟩ :=
    (AttachLoadedChildrenToPrefab_attached sampleLoadedScene 0 [1, 2] (some 3) _ rfl
      (by decide)).1
  exact ⟨r, hr, by rw [ha]; decide⟩

/-- C18: the id in the prefab is assigned once: `InitObjectPrefabId` leaves an object
whose id in the prefab is not null as it is, and gives an object whose id in the
prefab is null its current global id, changing nothing else; the loop body of
`GenerateGUIDsForObjectAndChildren` leaves the id in the prefab this assigns.
Hence, for an object that enters with an id in the prefab or with a global id
that is not null, a second application changes nothing, whatever global id the
object got in between, in particular the one `GenerateGUIDsForObjectAndChildren`
gives it. -/
theorem InitObjectPrefabId_once (object : CBaseObject) (newGuid : CryGUID)
    (GetFor : CBaseObject → CryGUID) (thisLayer : Option LayerPtr) :
    (object.m_idInPrefab ≠ CryGUID.Null → InitObjectPrefabId object = object)
      ∧ (object.m_idInPrefab = CryGUID.Null →
          InitObjectPrefabId object = { object with m_idInPrefab := object.m_guid })
      ∧ (generateGuidFor GetFor thisLayer object).m_idInPrefab
          = (InitObjectPrefabId object).m_idInPrefab
      ∧ (object.m_idInPrefab ≠ CryGUID.Null ∨ object.m_guid ≠ CryGUID.Null →
          InitObjectPrefabId { InitObjectPrefabId object with m_guid := newGuid }
              = { InitObjectPrefabId object with m_guid := newGuid }
            ∧ (InitObjectPrefabId
                { InitObjectPrefabId object with m_guid := newGuid }).m_idInPrefab
                = (InitObjectPrefabId object).m_idInPrefab
            ∧ InitObjectPrefabId (generateGuidFor GetFor thisLayer object)
                = generateGuidFor GetFor thisLayer object
            ∧ (InitObjectPrefabId (generateGuidFor GetFor thisLayer object)).m_idInPrefab
                = (InitObjectPrefabId object).m_idInPrefab
            ∧ (generateGuidFor GetFor thisLayer
                  (generateGuidFor GetFor thisLayer object)).m_idInPrefab
                = (InitObjectPrefabId object).m_idInPrefab) := by
  have key : ∀ o : CBaseObject, o.m_idInPrefab ≠ CryGUID.Null → InitObjectPrefabId o = o := by
    intro o h
    simp [InitObjectPrefabId, h]
  have hnull : object.m_idInPrefab = CryGUID.Null →
      InitObjectPrefabId object = { object with m_idInPrefab := object.m_guid } := by
    intro h
    simp [InitObjectPrefabId, h]
  have hgen : ∀ o : CBaseObject, (generateGuidFor GetFor thisLayer o).m_idInPrefab
      = (InitObjectPrefabId o).m_idInPrefab := by
    intro o
    simp only [generateGuidFor, SetLayer, InitObjectPrefabId]
    split <;> rfl
  refine ⟨key object, hnull, hgen object, ?_⟩
  intro hinput
  have hassigned : (InitObjectPrefabId object).m_idInPrefab ≠ CryGUID.Null := by
    by_cases h : object.m_idInPrefab = CryGUID.Null
    · rw [hnull h]
      rcases hinput with h1 | h1
      · exact absurd h h1
      · exact h1
    · rw [key object h]
      exact h
  have h1 := key { InitObjectPrefabId object with m_guid := newGuid } hassigned
  have h2 := key (generateGuidFor GetFor thisLayer object)
    (by rw [hgen object]; exact hassigned)
  refine ⟨h1, by rw [h1], h2, by rw [h2, hgen object], ?_⟩
  rw [hgen (generateGuidFor GetFor thisLayer object), h2, hgen object]

/-- C18 at the object B of the concrete scene, whose id in the prefab is null and
whose global id is (14,2): the first application assigns (14,2), and a second
application after a change of the global id to (5,5) leaves that. -/
theorem InitObjectPrefabId_once_witness :
    (InitObjectPrefabId { m_guid := { hipart := 14, lopart := 2 }, m_name := "B" }).m_idInPrefab
        = { hipart := 14, lopart := 2 }
      ∧ (InitObjectPrefabId
          { InitObjectPrefabId { m_guid := { hipart := 14, lopart := 2 }, m_name := "B" } with
            m_guid := { hipart := 5, lopart := 5 } }).m_idInPrefab
          = { hipart := 14, lopart := 2 } :=
  ⟨by decide,
    ((InitObjectPrefabId_once { m_guid := { hipart := 14, lopart := 2 }, m_name := "B" }
      { hipart := 5, lopart := 5 } (fun o => o.m_guid) none).2.2.2
        (Or.inr (by decide))).2.1⟩

/-! ## Binding a template: properties -/

/-- The tagged children collected are among the children, and they are collected
whenever every child pointer is live. -/
theorem GetAllPrefabFlagedChildren_spec (om : ObjectManager) :
    ∀ (cs : List ObjPtr),
      (∀ tagged, GetAllPrefabFlagedChildren om cs = some tagged → ∀ c ∈ tagged, c ∈ cs)
        ∧ (∀ children, getChildObjects om cs = some children →
            (GetAllPrefabFlagedChildren om cs).isSome = true) := by
  intro cs
  induction cs with
  | nil =>
    refine ⟨?_, fun _ _ => rfl⟩
    intro tagged h c hc
    simp only [GetAllPrefabFlagedChildren, Option.some.injEq] at h
    rw [← h] at hc
    exact hc
  | cons c0 rest ih =>
    constructor
    · intro tagged h c hc
      simp only [GetAllPrefabFlagedChildren] at h
      cases h0 : om.get c0 with
      | none => simp [h0] at h
      | some obj =>
        cases hr : GetAllPrefabFlagedChildren om rest with
        | none => simp [h0, hr] at h
        | some t =>
          simp only [h0, hr, Option.some.injEq] at h
          subst h
          split at hc
          · rcases List.mem_cons.1 hc with rfl | hc
            · exact List.mem_cons_self _ _
            · exact List.mem_cons_of_mem _ (ih.1 t hr c hc)
          · exact List.mem_cons_of_mem _ (ih.1 t hr c hc)
    · intro children h
      simp only [getChildObjects] at h
      cases h0 : om.get c0 with
      | none => simp [h0] at h
      | some obj =>
        simp only [h0, Option.map_eq_some'] at h
        obtain ⟨objs, hobjs, _⟩ := h
        obtain ⟨t, ht⟩ := Option.isSome_iff_exists.1 (ih.2 objs hobjs)
        simp [GetAllPrefabFlagedChildren, h0, ht]

/-- Updates of other objects leave an object as it is. -/
theorem foldl_modify_get_of_not_mem (f : CBaseObject → CBaseObject) (q : ObjPtr) :
    ∀ (cs : List ObjPtr) (om : ObjectManager), q ∉ cs →
      (cs.foldl (fun acc c => acc.modify c f) om).get q = om.get q := by
  intro cs
  induction cs with
  | nil => intro om _; rfl
  | cons c rest ih =>
    intro om hq
    simp only [List.foldl_cons]
    rw [ih _ (fun h => hq (List.mem_cons_of_mem _ h)), ObjectManager.get_modify]
    have hne : c ≠ q := fun e => hq (e ▸ List.mem_cons_self _ _)
    simp [hne]

/-- After `DetachAll` an object that is not its own child has no children. -/
theorem DetachAll_childs (om : ObjectManager) (self : ObjPtr) (this : CBaseObject)
    (hthis : om.get self = some this) (hself : self ∉ this.m_childs) :
    ((DetachAll om self).get self).map (fun o => o.m_childs) = some [] := by
  simp only [DetachAll, hthis, ObjectManager.get_modify, if_true]
  rw [foldl_modify_get_of_not_mem _ self _ om hself, hthis]
  rfl

/-- Deleting another object leaves an object without children without children. -/
theorem DeleteObject_childs_nil (om : ObjectManager) (self c : ObjPtr) (hne : c ≠ self)
    (h : (om.get self).map (fun o => o.m_childs) = some []) :
    ((DeleteObject om (some c)).get self).map (fun o => o.m_childs) = some [] := by
  have hset : ∀ om1 : ObjectManager,
      ObjectManager.get { m_objects := om1.m_objects.set c none } self = om1.get self := by
    intro om1
    simp only [ObjectManager.get, List.get?_eq_getElem?]
    rw [List.getElem?_set_ne hne]
  simp only [DeleteObject]
  rw [hset]
  split
  · next old _ =>
    rw [ObjectManager.get_modify]
    by_cases ho : old = self
    · simp only [ho, if_true]
      cases hs : om.get self with
      | none => rw [hs] at h; simp at h
      | some o =>
        rw [hs] at h
        simp only [Option.map_some', Option.some.injEq] at h
        simp [h]
    · simp only [ho, if_false]
      exact h
  · exact h

/-- Deleting other objects leaves an object without children without children. -/
theorem DeleteObjects_childs_nil (self : ObjPtr) :
    ∀ (cs : List ObjPtr) (om : ObjectManager), self ∉ cs →
      (om.get self).map (fun o => o.m_childs) = some [] →
      ((DeleteObjects om cs).get self).map (fun o => o.m_childs) = some [] := by
  intro cs
  induction cs with
  | nil => intro om _ h; exact h
  | cons c rest ih =>
    intro om hs h
    simp only [DeleteObjects, List.foldl_cons]
    exact ih _ (fun hm => hs (List.mem_cons_of_mem _ hm))
      (DeleteObject_childs_nil om self c (fun e => hs (e ▸ List.mem_cons_self _ _)) h)

/-- The return paths of `SetPrefab(item, force)`: the early return (null item, or the
item already set and no forced reload), the empty template, the full expansion;
with the forced id and the events of each. -/
theorem SetPrefab_item_paths
    (loader : ObjectManager → XmlNodeRef → CryGUID → ObjectManager × List ObjPtr)
    (lib : PrefabLibrary) (selfPtr : ObjPtr) (w : EditorWorld) (self : CPrefabObject)
    (pPrefab : Option ItemPtr) (bForceReload : Bool) (r : SetPrefabResult)
    (h : SetPrefab_item loader lib selfPtr w self pPrefab bForceReload = some r) :
    ((pPrefab = none ∨ (self.m_pPrefabItem = pPrefab ∧ bForceReload = false))
        ∧ r = { world := w, self := self })
      ∨ (∃ item prefabItem this children,
          pPrefab = some item ∧ lib.get item = some prefabItem
            ∧ ¬ (self.m_pPrefabItem = some item ∧ bForceReload = false)
            ∧ w.om.get selfPtr = some this
            ∧ GetAllPrefabFlagedChildren w.om this.m_childs = some children
            ∧ r.self.m_pPrefabItem = some item
            ∧ r.self.m_prefabGUID = prefabItem.m_guid
            ∧ r.self.m_prefabName = prefabItem.m_fullName
            ∧ ((prefabItem.m_objectsNode = none
                  ∧ r.world.om = DeleteObjects (DetachAll w.om selfPtr) children
                  ∧ r.world.forcedId = w.forcedId
                  ∧ r.world.events = w.events ++
                      [SetPrefabEvent.SetCurrentlySettingPrefab true,
                       SetPrefabEvent.DeleteObjects children,
                       SetPrefabEvent.StoreUndo "Set Prefab",
                       SetPrefabEvent.CryWarning "Prefab does not contain objects",
                       SetPrefabEvent.SetCurrentlySettingPrefab false])
                ∨ (∃ objectsXml attached,
                    prefabItem.m_objectsNode = some objectsXml
                      ∧ r.world.forcedId = 0
                      ∧ r.world.events = w.events ++
                          [SetPrefabEvent.SetCurrentlySettingPrefab true,
                           SetPrefabEvent.DeleteObjects children,
                           SetPrefabEvent.StoreUndo "Set Prefab",
                           SetPrefabEvent.SetSkipPrefabUpdate true,
                           SetPrefabEvent.LoadObjects objectsXml,
                           SetPrefabEvent.ForceID (self.m_guid.hipart >>> 32),
                           SetPrefabEvent.ResolveObjects,
                           SetPrefabEvent.AttachChildren attached,
                           SetPrefabEvent.InvalidateTM,
                           SetPrefabEvent.ForceID 0,
                           SetPrefabEvent.SyncParentObject,
                           SetPrefabEvent.SetCurrentlySettingPrefab false,
                           SetPrefabEvent.SetSkipPrefabUpdate false]))) := by
  unfold SetPrefab_item at h
  cases pPrefab with
  | none =>
    simp only [Option.some.injEq] at h
    exact Or.inl ⟨Or.inl rfl, h.symm⟩
  | some item =>
    simp only [] at h
    by_cases hskip : (self.m_pPrefabItem == some item && !bForceReload) = true
    · simp only [hskip, if_true, Option.some.injEq] at h
      simp only [Bool.and_eq_true, beq_iff_eq, Bool.not_eq_true'] at hskip
      exact Or.inl ⟨Or.inr hskip, h.symm⟩
    · simp only [hskip, Bool.false_eq_true, if_false] at h
      have hrun : ¬ (self.m_pPrefabItem = some item ∧ bForceReload = false) := by
        simpa [Bool.and_eq_true, beq_iff_eq, Bool.not_eq_true'] using hskip
      right
      cases hitem : lib.get item with
      | none => simp [hitem] at h
      | some prefabItem =>
        simp only [hitem] at h
        simp only [DeleteChildrenWithoutUpdating, DeleteAllPrefabObjects, EditorWorld.emit] at h
        cases hthis : w.om.get selfPtr with
        | none => simp [hthis] at h
        | some this =>
          simp only [hthis] at h
          cases hch : GetAllPrefabFlagedChildren w.om this.m_childs with
          | none => simp [hch] at h
          | some children =>
            simp only [hch] at h
            refine ⟨item, prefabItem, this, children, rfl, hitem, hrun, rfl, hch, ?_⟩
            cases hnode : prefabItem.m_objectsNode with
            | none =>
              simp only [hnode, Option.some.injEq] at h
              subst h
              exact ⟨rfl, rfl, rfl, Or.inl ⟨rfl, rfl, rfl, by simp⟩⟩
            | some objectsXml =>
              simp only [hnode] at h
              split at h
              · simp at h
              · split at h
                · simp at h
                · next r1 _ =>
                  simp only [Option.some.injEq] at h
                  subst h
                  exact ⟨rfl, rfl, rfl,
                    Or.inr ⟨objectsXml, r1.attached, rfl, rfl, by simp [SetPrefab_ptr]⟩⟩

/-- C15, as stated, fails: the instance of the concrete scene is bound to the empty
template and has two children; `SetPrefab` with that template and no forced
reload returns at once, and the instance still has its two children. -/
theorem SetPrefab_item_emptyTemplate_skipped :
    (sampleLibrary.get 0).map (fun item => item.m_objectsNode) = some none
      ∧ SetPrefab_item sampleLoader sampleLibrary 0 { om := sampleScene } sampleBound
          (some 0) false
          = some { world := { om := sampleScene }, self := sampleBound }
      ∧ (sampleScene.get 0).map (fun o => o.m_childs) = some [1, 2] := by
  decide

/-- C15, amended: for a template without objects node, `SetPrefab(item, force)` that is
not skipped by the early return (the item is not the one already set, or the
reload is forced) leaves the instance referencing that template (pointer, stored
GUID and name are those of the item) with zero children, and nothing is loaded or
attached: the events are the deletion of the tagged children, the undo record and
the warning; a call with the item already set and no forced reload changes
nothing. -/
theorem SetPrefab_item_emptyTemplate
    (loader : ObjectManager → XmlNodeRef → CryGUID → ObjectManager × List ObjPtr)
    (lib : PrefabLibrary) (selfPtr : ObjPtr) (w : EditorWorld) (self : CPrefabObject)
    (item : ItemPtr) (prefabItem : CPrefabItem) (bForceReload : Bool)
    (this : CBaseObject) (children : List CBaseObject)
    (hitem : lib.get item = some prefabItem) (hempty : prefabItem.m_objectsNode = none)
    (hthis : w.om.get selfPtr = some this)
    (hlive : getChildObjects w.om this.m_childs = some children)
    (hself : selfPtr ∉ this.m_childs) :
    ((self.m_pPrefabItem = some item ∧ bForceReload = false) →
        SetPrefab_item loader lib selfPtr w self (some item) bForceReload
          = some { world := w, self := self })
      ∧ (¬ (self.m_pPrefabItem = some item ∧ bForceReload = false) →
          ∃ r deleted, SetPrefab_item loader lib selfPtr w self (some item) bForceReload = some r
            ∧ r.self.m_pPrefabItem = some item
            ∧ r.self.m_prefabGUID = prefabItem.m_guid
            ∧ r.self.m_prefabName = prefabItem.m_fullName
            ∧ (r.world.om.get selfPtr).map (fun o => o.m_childs) = some []
            ∧ r.world.forcedId = w.forcedId
            ∧ r.world.events = w.events ++
                [SetPrefabEvent.SetCurrentlySettingPrefab true,
                 SetPrefabEvent.DeleteObjects deleted,
                 SetPrefabEvent.StoreUndo "Set Prefab",
                 SetPrefabEvent.CryWarning "Prefab does not contain objects",
                 SetPrefabEvent.SetCurrentlySettingPrefab false]) := by
  constructor
  · rintro ⟨h1, h2⟩
    simp [SetPrefab_item, h1, h2]
  · intro hrun
    have hskip : (self.m_pPrefabItem == some item && !bForceReload) = false := by
      cases hb : bForceReload
      · have : self.m_pPrefabItem ≠ some item := fun e => hrun ⟨e, hb⟩
        simp [this]
      · simp
    obtain ⟨deleted, hdel⟩ := Option.isSome_iff_exists.1
      ((GetAllPrefabFlagedChildren_spec w.om this.m_childs).2 children hlive)
    have hsub := (GetAllPrefabFlagedChildren_spec w.om this.m_childs).1 deleted hdel
    cases hres : SetPrefab_item loader lib selfPtr w self (some item) bForceReload with
    | none =>
      exfalso
      simp [SetPrefab_item, hskip, hitem, DeleteChildrenWithoutUpdating,
        DeleteAllPrefabObjects, EditorWorld.emit, hthis, hdel, hempty] at hres
    | some r =>
      rcases SetPrefab_item_paths loader lib selfPtr w self (some item) bForceReload r hres with
        ⟨hearly, _⟩ | ⟨item1, prefabItem1, this1, children1, hi, hitem1, _, hthis1, hch1,
          hp, hg, hn, hcase⟩
      · rcases hearly with hnone | hsk
        · exact absurd hnone (by simp)
        · exact absurd hsk hrun
      · cases hi
        rw [hitem] at hitem1
        cases hitem1
        rw [hthis] at hthis1
        cases hthis1
        rw [hdel] at hch1
        cases hch1
        rcases hcase with ⟨_, hom, hf, he⟩ | ⟨objectsXml, _, hnode, _, _⟩
        · refine ⟨r, deleted, rfl, hp, hg, hn, ?_, hf, he⟩
          rw [hom]
          exact DeleteObjects_childs_nil selfPtr deleted _
            (fun hm => hself (hsub selfPtr hm))
            (DetachAll_childs w.om selfPtr this hthis hself)
        · rw [hempty] at hnode
          exact Option.noConfusion hnode

/-- C15, amended, at the concrete scene: a forced reload of the empty template leaves
the instance without children and loads nothing. -/
theorem SetPrefab_item_emptyTemplate_witness :
    sampleLibrary.get 0
        = some { m_guid := { hipart := 3, lopart := 3 }, m_fullName := "Lib.Empty" }
      ∧ ¬ (sampleBound.m_pPrefabItem = some 0 ∧ true = false)
      ∧ ∃ r, SetPrefab_item sampleLoader sampleLibrary 0 { om := sampleScene } sampleBound
            (some 0) true = some r
          ∧ (r.world.om.get 0).map (fun o => o.m_childs) = some []
          ∧ r.self.m_prefabName = "Lib.Empty" := by
  refine ⟨rfl, by decide, ?_⟩
  obtain ⟨r, _, hr, _, _, hname, hch, _⟩ :=
    (SetPrefab_item_emptyTemplate sampleLoader sampleLibrary 0 { om := sampleScene }
      sampleBound 0 _ true _ _ rfl rfl rfl rfl (by decide)).2 (by decide)
  exact ⟨r, hr, hch, hname⟩

/-- C16: template not found: when `SetPrefab(guid, force)` is not skipped by the early
return and the library cannot resolve the guid, the instance stores the guid as
its template identifier, the scene and with it the child list are unchanged,
nothing is expanded, and the template name becomes "Unknown Prefab" if it was
empty and stays as it was otherwise. -/
theorem SetPrefab_guid_notFound
    (loader : ObjectManager → XmlNodeRef → CryGUID → ObjectManager × List ObjPtr)
    (lib : PrefabLibrary) (selfPtr : ObjPtr) (w : EditorWorld) (self : CPrefabObject)
    (guid : CryGUID) (bForceReload : Bool)
    (hrun : ¬ (self.m_prefabGUID = guid ∧ bForceReload = false))
    (hmissing : lib.LoadItem guid = none) :
    ∃ r, SetPrefab_guid loader lib selfPtr w self guid bForceReload = some r
      ∧ r.self.m_prefabGUID = guid
      ∧ r.world.om = w.om
      ∧ childIds r.world.om selfPtr = childIds w.om selfPtr
      ∧ r.world.forcedId = w.forcedId
      ∧ r.world.events = w.events ++
          [SetPrefabEvent.CryWarning "Cannot find Prefab", SetPrefabEvent.SetMinSpec]
      ∧ (self.m_prefabName = "" → r.self.m_prefabName = "Unknown Prefab")
      ∧ (self.m_prefabName ≠ "" → r.self.m_prefabName = self.m_prefabName)
      ∧ r.self.m_pPrefabItem = self.m_pPrefabItem := by
  have hskip : (self.m_prefabGUID == guid && bForceReload == false) = false := by
    cases hb : bForceReload
    · have : self.m_prefabGUID ≠ guid := fun e => hrun ⟨e, hb⟩
      simp [this]
    · simp
  have hres : SetPrefab_guid loader lib selfPtr w self guid bForceReload
      = some { world := (w.emit (SetPrefabEvent.CryWarning "Cannot find Prefab")).emit
                          SetPrefabEvent.SetMinSpec,
               self := if ({ self with m_prefabGUID := guid } : CPrefabObject).m_prefabName == ""
                       then { self with m_prefabGUID := guid, m_prefabName := "Unknown Prefab" }
                       else { self with m_prefabGUID := guid } } := by
    simp only [SetPrefab_guid, hskip, Bool.false_eq_true, if_false, hmissing]
  refine ⟨_, hres, ?_⟩
  by_cases hname : self.m_prefabName = ""
  · simp [hname, EditorWorld.emit]
  · simp [hname, EditorWorld.emit]

/-- C16 at the concrete instance: the guid (9,9) is not in the library; the instance
stores it and keeps its two children. -/
theorem SetPrefab_guid_notFound_witness :
    ¬ (sampleBound.m_prefabGUID = { hipart := 9, lopart := 9 } ∧ false = false)
      ∧ sampleLibrary.LoadItem { hipart := 9, lopart := 9 } = none
      ∧ ∃ r, SetPrefab_guid sampleLoader sampleLibrary 0 { om := sampleScene } sampleBound
            { hipart := 9, lopart := 9 } false = some r
          ∧ r.self.m_prefabGUID = { hipart := 9, lopart := 9 }
          ∧ childIds r.world.om 0 = [{ hipart := 0, lopart := 2 }, { hipart := 0, lopart := 3 }] := by
  refine ⟨by decide, by decide, ?_⟩
  obtain ⟨r, hr, hg, _, hc, _⟩ :=
    SetPrefab_guid_notFound sampleLoader sampleLibrary 0 { om := sampleScene } sampleBound
      { hipart := 9, lopart := 9 } false (by decide) (by decide)
  exact ⟨r, hr, hg, by rw [hc]; decide⟩

/-- The top the loop computes is the top of the hierarchy. -/
theorem hierarchyRoot_sound (om : ObjectManager) :
    ∀ (fuel : Nat) (p r : ObjPtr), hierarchyRoot om fuel p = some r → HierarchyRoot om p r := by
  intro fuel
  induction fuel with
  | zero => intro p r h; simp [hierarchyRoot] at h
  | succ fuel ih =>
    intro p r h
    simp only [hierarchyRoot] at h
    cases hp : om.get p with
    | none => simp [hp] at h
    | some obj =>
      simp only [hp] at h
      cases hpar : obj.m_parent with
      | none =>
        simp only [hpar, Option.some.injEq] at h
        subst h
        exact HierarchyRoot.top p obj hp hpar
      | some parent =>
        simp only [hpar] at h
        exact HierarchyRoot.up p parent r obj hp hpar (ih parent r h)

/-- The top of a hierarchy is unique. -/
theorem HierarchyRoot.unique {om : ObjectManager} {p r1 r2 : ObjPtr}
    (h1 : HierarchyRoot om p r1) (h2 : HierarchyRoot om p r2) : r1 = r2 := by
  induction h1 with
  | top p obj hp hpar =>
    cases h2 with
    | top _ _ _ _ => rfl
    | up _ parent _ obj2 hp2 hpar2 _ =>
      rw [hp] at hp2
      cases hp2
      rw [hpar] at hpar2
      exact Option.noConfusion hpar2
  | up p parent root obj hp hpar _ ih =>
    cases h2 with
    | top _ obj2 hp2 hpar2 =>
      rw [hp] at hp2
      cases hp2
      rw [hpar] at hpar2
      exact Option.noConfusion hpar2
    | up _ parent2 _ obj2 hp2 hpar2 hrest =>
      rw [hp] at hp2
      cases hp2
      rw [hpar] at hpar2
      cases hpar2
      exact ih hrest

/-- The top of a hierarchy is a live object. -/
theorem HierarchyRoot.root_live {om : ObjectManager} {p r : ObjPtr}
    (h : HierarchyRoot om p r) : (om.get r).isSome = true := by
  induction h with
  | top p obj hp _ => simp [hp]
  | up _ _ _ _ _ _ _ ih => exact ih

/-- With live parent pointers that lead upwards in a bounded rank, the loop finds the
top once the step bound exceeds the distance of the rank from the bound. -/
theorem hierarchyRoot_isSome (om : ObjectManager) (rank : ObjPtr → Nat) (bound : Nat)
    (hwf : parentsWellFounded om rank bound) :
    ∀ (fuel : Nat) (p : ObjPtr), (om.get p).isSome = true → bound - rank p < fuel →
      (hierarchyRoot om fuel p).isSome = true := by
  intro fuel
  induction fuel with
  | zero => intro p _ h; exact absurd h (Nat.not_lt_zero _)
  | succ fuel ih =>
    intro p hlive hfuel
    obtain ⟨obj, hp⟩ := Option.isSome_iff_exists.1 hlive
    simp only [hierarchyRoot, hp]
    cases hpar : obj.m_parent with
    | none => rfl
    | some parent =>
      obtain ⟨hl, hr⟩ := hwf.2 p obj parent hp hpar
      have hb := hwf.1 parent
      exact ih parent hl (by omega)

/-- The prefab objects collected below an object are the prefab objects below it. -/
theorem GetAllPrefabObjectDescendants_mem (om : ObjectManager) :
    ∀ (fuel : Nat) (r : ObjPtr) (desc : List ObjPtr),
      GetAllPrefabObjectDescendants om fuel r = some desc →
      ∀ p, p ∈ desc
        ↔ Below om r p ∧ ∃ pobj, om.get p = some pobj ∧ pobj.m_prefab.isSome = true := by
  intro fuel
  induction fuel with
  | zero => intro r desc h; simp [GetAllPrefabObjectDescendants] at h
  | succ fuel ih =>
    intro r desc h p
    simp only [GetAllPrefabObjectDescendants] at h
    cases hr : om.get r with
    | none => simp [hr] at h
    | some obj =>
      simp only [hr] at h
      have hm := collectVisits_mem _ _ _ h p
      have hsome := collectVisits_call_isSome _ _ _ h
      have hcall : ∀ c vc,
          (match om.get c, GetAllPrefabObjectDescendants om fuel c with
            | some child, some below =>
              some (if child.m_prefab.isSome then c :: below else below)
            | _, _ => none) = some vc →
          ∃ child below, om.get c = some child
            ∧ GetAllPrefabObjectDescendants om fuel c = some below
            ∧ vc = if child.m_prefab.isSome then c :: below else below := by
        intro c vc hc
        cases h1 : om.get c with
        | none => simp [h1] at hc
        | some child =>
          cases h2 : GetAllPrefabObjectDescendants om fuel c with
          | none => simp [h1, h2] at hc
          | some below =>
            simp only [h1, h2, Option.some.injEq] at hc
            exact ⟨child, below, rfl, rfl, hc.symm⟩
      rw [hm]
      constructor
      · rintro ⟨c, hc, vc, hvc, hp⟩
        obtain ⟨child, below, h1, h2, rfl⟩ := hcall c vc hvc
        by_cases hpre : child.m_prefab.isSome = true
        · simp only [hpre, if_true, List.mem_cons] at hp
          rcases hp with rfl | hp
          · exact ⟨Below.child r p obj hr hc, child, h1, hpre⟩
          · obtain ⟨hb, hx⟩ := (ih c below h2 p).1 hp
            exact ⟨Below.deeper r c p obj hr hc hb, hx⟩
        · simp only [hpre, Bool.false_eq_true, if_false] at hp
          obtain ⟨hb, hx⟩ := (ih c below h2 p).1 hp
          exact ⟨Below.deeper r c p obj hr hc hb, hx⟩
      · rintro ⟨hbelow, pobj, hpobj, hpre⟩
        cases hbelow with
        | child _ _ obj1 hr1 hc =>
          rw [hr] at hr1
          cases hr1
          obtain ⟨vc, hvc⟩ := Option.isSome_iff_exists.1 (hsome p hc)
          obtain ⟨child, below, h1, _, rfl⟩ := hcall p vc hvc
          rw [hpobj] at h1
          cases h1
          exact ⟨p, hc, _, hvc, by simp [hpre]⟩
        | deeper _ c _ obj1 hr1 hc hrest =>
          rw [hr] at hr1
          cases hr1
          obtain ⟨vc, hvc⟩ := Option.isSome_iff_exists.1 (hsome c hc)
          obtain ⟨child, below, _, h2, rfl⟩ := hcall c vc hvc
          have hin := (ih c below h2 p).2 ⟨hrest, pobj, hpobj, hpre⟩
          refine ⟨c, hc, _, hvc, ?_⟩
          split
          · exact List.mem_cons_of_mem _ hin
          · exact hin

/-- In a closed scene with a well-founded hierarchy the collection has a result once
the depth bound exceeds the rank of the object. -/
theorem GetAllPrefabObjectDescendants_isSome (om : ObjectManager) (rank : ObjPtr → Nat)
    (hwf : hierarchyWellFounded om rank) :
    ∀ (fuel : Nat) (p : ObjPtr), (om.get p).isSome = true → rank p < fuel →
      (GetAllPrefabObjectDescendants om fuel p).isSome = true := by
  intro fuel
  induction fuel with
  | zero => intro p _ h; exact absurd h (Nat.not_lt_zero _)
  | succ fuel ih =>
    intro p hlive hrank
    obtain ⟨obj, hp⟩ := Option.isSome_iff_exists.1 hlive
    simp only [GetAllPrefabObjectDescendants, hp]
    apply collectVisits_isSome
    intro c hc
    obtain ⟨hl, hr⟩ := hwf p obj hp c (Or.inl hc)
    obtain ⟨child, hchild⟩ := Option.isSome_iff_exists.1 hl
    obtain ⟨below, hbelow⟩ := Option.isSome_iff_exists.1 (ih c hl (by omega))
    simp [hchild, hbelow]

/-- The inner loop reaches its `return false` when the list holds another prefab
instance with the template item of this one, and it has a result when every
pointer of the list is live. -/
theorem refusesDescendant_spec (GetPrefab : ObjPtr → Option ObjPtr) (om : ObjectManager)
    (self : ObjPtr) (this : CBaseObject) :
    ∀ l : List ObjPtr,
      (∀ b, refusesDescendant GetPrefab om self this l = some b →
          (∃ p ∈ l, ∃ pobj, om.get p = some pobj ∧ p ≠ self
            ∧ prefabItemOf pobj = prefabItemOf this) → b = true)
        ∧ ((∀ p ∈ l, (om.get p).isSome = true) →
            (refusesDescendant GetPrefab om self this l).isSome = true) := by
  intro l
  induction l with
  | nil =>
    refine ⟨?_, fun _ => rfl⟩
    rintro b _ ⟨p, hp, _⟩
    simp at hp
  | cons q rest ih =>
    constructor
    · intro b hb hex
      simp only [refusesDescendant] at hb
      cases hq : om.get q with
      | none => simp [hq] at hb
      | some qobj =>
        simp only [hq, bne_self_eq_false, Bool.false_eq_true, if_false] at hb
        split at hb
        · exact (Option.some.inj hb).symm
        · next hcond =>
          apply ih.1 b hb
          obtain ⟨p, hp, pobj, hpobj, hne, hitem⟩ := hex
          rcases List.mem_cons.1 hp with rfl | hp
          · exfalso
            rw [hq] at hpobj
            cases hpobj
            apply hcond
            simp [hitem, Ne.symm hne]
          · exact ⟨p, hp, pobj, hpobj, hne, hitem⟩
    · intro hlive
      obtain ⟨qobj, hq⟩ := Option.isSome_iff_exists.1 (hlive q (List.mem_cons_self _ _))
      simp only [refusesDescendant, hq, bne_self_eq_false, Bool.false_eq_true, if_false]
      split
      · rfl
      · exact ih.2 (fun p hp => hlive p (List.mem_cons_of_mem _ hp))

/-- The outer loop returns false when the hierarchy of some candidate contains another
prefab instance with the template item of this one. -/
theorem canAddLoop_refuses (GetPrefab : ObjPtr → Option ObjPtr) (fuel : Nat)
    (om : ObjectManager) (self : ObjPtr) (this : CBaseObject) :
    ∀ (objects : List ObjPtr) (res : Bool),
      canAddLoop GetPrefab fuel om self this objects = some res →
      (∃ candidate ∈ objects, hierarchyHasSameItem om self this candidate) →
      res = false := by
  intro objects
  induction objects with
  | nil =>
    rintro res _ ⟨c, hc, _⟩
    simp at hc
  | cons cand rest ih =>
    intro res h hex
    simp only [canAddLoop] at h
    cases hroot : hierarchyRoot om fuel cand with
    | none => simp [hroot] at h
    | some root =>
      simp only [hroot] at h
      cases hdesc : GetAllPrefabObjectDescendants om fuel root with
      | none => simp [hdesc] at h
      | some desc =>
        cases hrobj : om.get root with
        | none => simp [hdesc, hrobj] at h
        | some rootObj =>
          simp only [hdesc, hrobj] at h
          cases href : refusesDescendant GetPrefab om self this
              (if rootObj.m_prefab.isSome then desc ++ [root] else desc) with
          | none => simp [href] at h
          | some b =>
            simp only [href] at h
            cases b with
            | true =>
              simp only [Option.some.injEq] at h
              exact h.symm
            | false =>
              simp only [] at h
              apply ih res h
              obtain ⟨c, hc, hbad⟩ := hex
              rcases List.mem_cons.1 hc with rfl | hc
              · exfalso
                obtain ⟨r, p, pobj, hr, hp, hpobj, hpre, hne, hitem⟩ := hbad
                have hrr : r = root := hr.unique (hierarchyRoot_sound om fuel c root hroot)
                subst hrr
                have hin : p ∈ (if rootObj.m_prefab.isSome then desc ++ [r] else desc) := by
                  rcases hp with rfl | hbelow
                  · rw [hrobj] at hpobj
                    cases hpobj
                    simp [hpre]
                  · have := (GetAllPrefabObjectDescendants_mem om fuel r desc hdesc p).2
                      ⟨hbelow, pobj, hpobj, hpre⟩
                    split
                    · exact List.mem_append_left _ this
                    · exact this
                have := (refusesDescendant_spec GetPrefab om self this _).1 false href
                  ⟨p, hin, pobj, hpobj, hne, hitem⟩
                exact Bool.noConfusion this
              · exact ⟨c, hc, hbad⟩

/-- In a closed scene with well-founded hierarchy and parent pointers the outer loop
has a result for live candidates once the bound of the recursion exceeds the rank
bound. -/
theorem canAddLoop_isSome (GetPrefab : ObjPtr → Option ObjPtr) (fuel : Nat)
    (om : ObjectManager) (self : ObjPtr) (this : CBaseObject) (rank : ObjPtr → Nat)
    (bound : Nat) (hwf : hierarchyWellFounded om rank)
    (hpar : parentsWellFounded om rank bound) (hfuel : bound < fuel) :
    ∀ objects : List ObjPtr, (∀ c ∈ objects, (om.get c).isSome = true) →
      (canAddLoop GetPrefab fuel om self this objects).isSome = true := by
  intro objects
  induction objects with
  | nil => intro _; rfl
  | cons cand rest ih =>
    intro hlive
    obtain ⟨root, hroot⟩ := Option.isSome_iff_exists.1
      (hierarchyRoot_isSome om rank bound hpar fuel cand (hlive cand (List.mem_cons_self _ _))
        (by omega))
    have hrl := (hierarchyRoot_sound om fuel cand root hroot).root_live
    obtain ⟨rootObj, hrobj⟩ := Option.isSome_iff_exists.1 hrl
    obtain ⟨desc, hdesc⟩ := Option.isSome_iff_exists.1
      (GetAllPrefabObjectDescendants_isSome om rank hwf fuel root hrl
        (by have := hpar.1 root; omega))
    have hall : ∀ p ∈ (if rootObj.m_prefab.isSome then desc ++ [root] else desc),
        (om.get p).isSome = true := by
      intro p hp
      have hd : ∀ q ∈ desc, (om.get q).isSome = true := by
        intro q hq
        obtain ⟨_, qobj, hqobj, _⟩ :=
          (GetAllPrefabObjectDescendants_mem om fuel root desc hdesc q).1 hq
        simp [hqobj]
      split at hp
      · rcases List.mem_append.1 hp with hp | hp
        · exact hd p hp
        · rw [List.mem_singleton] at hp
          subst hp
          exact hrl
      · exact hd p hp
    obtain ⟨b, hb⟩ := Option.isSome_iff_exists.1
      ((refusesDescendant_spec GetPrefab om self this _).2 hall)
    simp only [canAddLoop, hroot, hdesc, hrobj, hb]
    cases b with
    | true => rfl
    | false => exact ih (fun c hc => hlive c (List.mem_cons_of_mem _ hc))

/-- C17: a recursive prefab reference is refused: when the hierarchy of some candidate
(the top reached by following parents from it, or a prefab object below that top)
contains a prefab instance other than this one that uses the template item of
this one, `CanAddMembers` returns false whenever it returns, and in a closed scene
with well-founded hierarchy and live candidates it does return. -/
theorem CanAddMembers_refuses_same_item (groupCanAddMembers : Bool)
    (GetPrefab : ObjPtr → Option ObjPtr) (om : ObjectManager) (self : ObjPtr)
    (this : CBaseObject) (objects : List ObjPtr) (rank : ObjPtr → Nat) (bound : Nat)
    (hthis : om.get self = some this)
    (hbad : ∃ candidate ∈ objects, hierarchyHasSameItem om self this candidate) :
    (∀ fuel res, CanAddMembers groupCanAddMembers GetPrefab fuel om self objects = some res →
        res = false)
      ∧ (hierarchyWellFounded om rank → parentsWellFounded om rank bound →
          (∀ c ∈ objects, (om.get c).isSome = true) →
          ∀ fuel, bound < fuel →
            CanAddMembers groupCanAddMembers GetPrefab fuel om self objects = some false) := by
  have hfirst : ∀ fuel res,
      CanAddMembers groupCanAddMembers GetPrefab fuel om self objects = some res →
      res = false := by
    intro fuel res h
    unfold CanAddMembers at h
    cases groupCanAddMembers with
    | false =>
      simp only [Bool.not_false, if_true, Option.some.injEq] at h
      exact h.symm
    | true =>
      simp only [Bool.not_true, Bool.false_eq_true, if_false, hthis] at h
      exact canAddLoop_refuses GetPrefab fuel om self this objects res h hbad
  refine ⟨hfirst, ?_⟩
  intro hwf hpar hlive fuel hfuel
  cases hres : CanAddMembers groupCanAddMembers GetPrefab fuel om self objects with
  | some res => rw [hfirst fuel res hres]
  | none =>
    exfalso
    unfold CanAddMembers at hres
    cases groupCanAddMembers with
    | false => simp at hres
    | true =>
      simp only [Bool.not_true, Bool.false_eq_true, if_false, hthis] at hres
      have := canAddLoop_isSome GetPrefab fuel om self this rank bound hwf hpar hfuel
        objects hlive
      rw [hres] at this
      exact Bool.noConfusion this

/-- The hierarchy of the box of the concrete scene holds the other prefab instance,
which uses the template item of this one. -/
theorem sampleNestedScene_box_hasSameItem :
    hierarchyHasSameItem sampleNestedScene 0
      { m_guid := { hipart := 1, lopart := 0 }, m_name := "thisPrefab",
        m_prefab := some { m_pPrefabItem := some 5 } } 2 :=
  ⟨1, 3, _,
    HierarchyRoot.up 2 1 1 _ rfl rfl (HierarchyRoot.top 1 _ rfl rfl),
    Or.inr (Below.child 1 3 _ rfl (by decide)), rfl, rfl, by decide, rfl⟩

/-- The hierarchy of the concrete scene is well-founded: the group has rank 1, every
other object rank 0. -/
theorem sampleNestedScene_wellFounded :
    hierarchyWellFounded sampleNestedScene (fun p => if p = 1 then 1 else 0)
      ∧ parentsWellFounded sampleNestedScene (fun p => if p = 1 then 1 else 0) 1 := by
  refine ⟨?_, ?_, ?_⟩
  · intro p obj hget c hc
    rcases p with _ | _ | _ | _ | p
    all_goals simp [sampleNestedScene, ObjectManager.get] at hget
    all_goals subst hget
    all_goals simp at hc
    rcases hc with rfl | rfl <;> decide
  · intro p
    by_cases h : p = 1 <;> simp [h]
  · intro p obj parent hget hpar
    rcases p with _ | _ | _ | _ | p
    all_goals simp [sampleNestedScene, ObjectManager.get] at hget
    all_goals subst hget
    all_goals simp at hpar
    all_goals subst hpar
    all_goals decide

/-- C17 at the concrete scene: adding the box, whose group also holds another instance
of the same template, is refused. -/
theorem CanAddMembers_refuses_same_item_witness :
    (∃ candidate ∈ [2], hierarchyHasSameItem sampleNestedScene 0
        { m_guid := { hipart := 1, lopart := 0 }, m_name := "thisPrefab",
          m_prefab := some { m_pPrefabItem := some 5 } } candidate)
      ∧ CanAddMembers true (fun _ => none) 2 sampleNestedScene 0 [2] = some false :=
  ⟨⟨2, by decide, sampleNestedScene_box_hasSameItem⟩,
    (CanAddMembers_refuses_same_item true (fun _ => none) sampleNestedScene 0 _ [2]
      (fun p => if p = 1 then 1 else 0) 1 rfl
      ⟨2, by decide, sampleNestedScene_box_hasSameItem⟩).2
      sampleNestedScene_wellFounded.1 sampleNestedScene_wellFounded.2 (by decide) 2
      (by decide)⟩

/-! ## Later properties of the queue and of the expansion -/

/-- C26, as stated, fails: the concrete instance has two pending records and no
template item; after `SetAutoUpdatePrefab(true)` nothing was forwarded and the
queue is empty, so its first record is neither forwarded nor still pending. -/
theorem SetAutoUpdatePrefab_noItem_loses :
    sampleInstance.m_pPrefabItem = none
      ∧ sampleInstance.m_pendingChanges.length = 2
      ∧ (SetAutoUpdatePrefab sampleInstance true).forwarded = []
      ∧ (SetAutoUpdatePrefab sampleInstance true).self.m_pendingChanges = []
      ∧ ∃ change ∈ sampleInstance.m_pendingChanges,
          (∀ call ∈ (SetAutoUpdatePrefab sampleInstance true).forwarded, call.context ≠ change)
            ∧ change ∉ (SetAutoUpdatePrefab sampleInstance true).self.m_pendingChanges := by
  refine ⟨rfl, rfl, by decide, by decide, ?_⟩
  exact ⟨_, List.mem_cons_self _ _, by decide, by decide⟩

/-- C26, amended: after `SetAutoUpdatePrefab(true)` on an instance that holds a
template item every record that was pending has been forwarded to that item, once
and in queue order; on an instance without template item the pending records are
dropped: nothing is forwarded and the queue is empty. -/
theorem SetAutoUpdatePrefab_forwards_or_drops (self : CPrefabObject) :
    (∀ item, self.m_pPrefabItem = some item →
        (SetAutoUpdatePrefab self true).forwarded
            = self.m_pendingChanges.map (fun c => { item := item, context := c })
          ∧ ∀ change ∈ self.m_pendingChanges,
              ({ item := item, context := change } : UpdateFromPrefabObjectCall)
                ∈ (SetAutoUpdatePrefab self true).forwarded)
      ∧ (self.m_pPrefabItem = none →
          (SetAutoUpdatePrefab self true).forwarded = []
            ∧ (SetAutoUpdatePrefab self true).self.m_pendingChanges = []) := by
  obtain ⟨h1, _, _, _⟩ :=
    flushPending_on self.m_pendingChanges
      { self := { self with m_autoUpdatePrefabs := true }, forwarded := [] } rfl
  have hf : (SetAutoUpdatePrefab self true).forwarded
      = (match self.m_pPrefabItem with
         | some item => self.m_pendingChanges.map (fun c => { item := item, context := c })
         | none => []) := by
    simp only [SetAutoUpdatePrefab, if_true]
    rw [h1]
    simp
  constructor
  · intro item hitem
    rw [hf, hitem]
    refine ⟨rfl, ?_⟩
    intro change hc
    exact List.mem_map.2 ⟨change, hc, rfl⟩
  · intro hnone
    rw [hf, hnone]
    exact ⟨rfl, by simp [SetAutoUpdatePrefab]⟩

/-- An update that keeps a projection of an object keeps it in every slot of the
scene. -/
theorem ObjectManager.modify_map {β : Type} (proj : CBaseObject → β) (om : ObjectManager)
    (p q : ObjPtr) (f : CBaseObject → CBaseObject) (hf : ∀ o, proj (f o) = proj o) :
    ((om.modify p f).get q).map proj = (om.get q).map proj := by
  rw [ObjectManager.get_modify]
  by_cases h : p = q
  · simp only [h, if_true]
    cases om.get q with
    | none => rfl
    | some o => simp only [Option.map_some', hf o]
  · simp only [h, if_false]

/-- The attach operation changes neither the prefab flag nor the layer of any
object. -/
theorem AttachObjectToPrefab_flag_layer (om : ObjectManager) (prefab object q : ObjPtr) :
    ((AttachObjectToPrefab om prefab object).get q).map (fun o => (o.m_prefabFlag, o.m_layer))
      = (om.get q).map (fun o => (o.m_prefabFlag, o.m_layer)) := by
  unfold AttachObjectToPrefab
  simp only []
  rw [ObjectManager.modify_map (fun o => (o.m_prefabFlag, o.m_layer)) _ prefab q
      (fun o => { o with m_childs := o.m_childs ++ [object] }) (fun _ => rfl),
    ObjectManager.modify_map (fun o => (o.m_prefabFlag, o.m_layer)) _ object q
      (fun o => { o with m_parent := some prefab }) (fun _ => rfl)]
  split
  · next old _ =>
    exact ObjectManager.modify_map (fun o => (o.m_prefabFlag, o.m_layer)) om old q
      (fun o => { o with m_childs := o.m_childs.erase object }) (fun _ => rfl)
  · rfl

/-- `AttachChildren` changes neither the prefab flag nor the layer of any object. -/
theorem AttachChildren_flag_layer (self q : ObjPtr) :
    ∀ (objects : List ObjPtr) (om : ObjectManager),
      ((AttachChildren om self objects).get q).map (fun o => (o.m_prefabFlag, o.m_layer))
        = (om.get q).map (fun o => (o.m_prefabFlag, o.m_layer)) := by
  intro objects
  induction objects with
  | nil => intro om; rfl
  | cons c rest ih =>
    intro om
    simp only [AttachChildren, List.foldl_cons] at ih ⊢
    rw [ih, AttachObjectToPrefab_flag_layer]

/-- The loop over the loaded objects, for an instance that is not among them: the
layer of the instance stays, objects that have the prefab flag and the layer of
the instance keep them, and every loaded object gets them. -/
theorem attachLoadedLoop_tagged (self : ObjPtr) (pLayer layer : Option LayerPtr) :
    ∀ (loaded : List ObjPtr) (om : ObjectManager) (objects : List ObjPtr)
      (om1 : ObjectManager) (objects1 : List ObjPtr),
      self ∉ loaded →
      (om.get self).map (fun o => o.m_layer) = some layer →
      attachLoadedLoop self pLayer loaded om objects = some (om1, objects1) →
      (om1.get self).map (fun o => o.m_layer) = some layer
        ∧ (∀ q, (om.get q).map (fun o => (o.m_prefabFlag, o.m_layer)) = some (true, layer) →
            (om1.get q).map (fun o => (o.m_prefabFlag, o.m_layer)) = some (true, layer))
        ∧ ∀ p ∈ loaded,
            (om1.get p).map (fun o => (o.m_prefabFlag, o.m_layer)) = some (true, layer) := by
  intro loaded
  induction loaded with
  | nil =>
    intro om objects om1 objects1 _ hl h
    simp only [attachLoadedLoop, Option.some.injEq, Prod.mk.injEq] at h
    rw [← h.1]
    exact ⟨hl, fun _ hq => hq, fun p hp => absurd hp (List.not_mem_nil p)⟩
  | cons p rest ih =>
    intro om objects om1 objects1 hself hl h
    have hne : p ≠ self := fun e => hself (e ▸ List.mem_cons_self _ _)
    simp only [attachLoadedLoop] at h
    cases hobj : (om.modify p (SetLayer pLayer)).get p with
    | none => simp [hobj] at h
    | some obj =>
      simp only [hobj, SetObjectPrefabFlagAndLayer] at h
      have hs1 : (om.modify p (SetLayer pLayer)).get self = om.get self := by
        rw [ObjectManager.get_modify]
        simp [hne]
      rw [hs1] at h
      cases hthis : om.get self with
      | none => rw [hthis] at hl; simp at hl
      | some this =>
        rw [hthis] at hl h
        simp only [Option.map_some', Option.some.injEq] at hl
        simp only [] at h
        have hs2 : (((om.modify p (SetLayer pLayer)).modify p
            (fun o => SetLayer this.m_layer { o with m_prefabFlag := true })).get self).map
            (fun o => o.m_layer) = some layer := by
          rw [ObjectManager.get_modify]
          simp [hne, hs1, hthis, hl]
        have hp2 : (((om.modify p (SetLayer pLayer)).modify p
            (fun o => SetLayer this.m_layer { o with m_prefabFlag := true })).get p).map
            (fun o => (o.m_prefabFlag, o.m_layer)) = some (true, layer) := by
          rw [ObjectManager.get_modify]
          simp [hobj, SetLayer, hl]
        obtain ⟨h1, h2, h3⟩ := ih _ _ om1 objects1
          (fun hm => hself (List.mem_cons_of_mem _ hm)) hs2 h
        refine ⟨h1, ?_, ?_⟩
        · intro q hq
          apply h2
          by_cases hqp : q = p
          · rw [hqp]; exact hp2
          · rw [ObjectManager.get_modify, ObjectManager.get_modify]
            simp [Ne.symm hqp, hq]
        · intro q hq
          rcases List.mem_cons.1 hq with rfl | hq
          · exact h2 q hp2
          · exact h3 q hq

/-- C21: every object loaded by an expansion, whether or not it becomes a direct child,
is tagged prefab-member and gets the layer of the instance: for live loaded
objects that do not include the instance itself, `AttachLoadedChildrenToPrefab`
returns, and afterwards every loaded object has the prefab flag and the layer the
instance has, before and after the call, whatever layer the objects were loaded
in and whatever layer is passed. -/
theorem AttachLoadedChildrenToPrefab_tags_all (om : ObjectManager) (self : ObjPtr)
    (loaded : List ObjPtr) (pLayer : Option LayerPtr) (this : CBaseObject)
    (hthis : om.get self = some this)
    (hlive : ∀ p ∈ loaded, (om.get p).isSome = true)
    (hself : self ∉ loaded) :
    ∃ r, AttachLoadedChildrenToPrefab om self loaded pLayer = some r
      ∧ (r.om.get self).map (fun o => o.m_layer) = some this.m_layer
      ∧ ∀ p ∈ loaded, ∃ obj, r.om.get p = some obj ∧ obj.m_prefabFlag = true
          ∧ obj.m_layer = this.m_layer := by
  obtain ⟨om1, h1, _⟩ := attachLoadedLoop_spec om self pLayer (by simp [hthis]) loaded om []
    (fun _ => rfl) hlive
  obtain ⟨hs, _, hall⟩ := attachLoadedLoop_tagged self pLayer this.m_layer loaded om [] om1 _
    hself (by simp [hthis]) h1
  refine ⟨{ om := AttachChildren om1 self (loaded.filter (isUnattached om)),
            attached := loaded.filter (isUnattached om) }, ?_, ?_, ?_⟩
  · simp only [AttachLoadedChildrenToPrefab, h1, List.nil_append]
  · have := AttachChildren_flag_layer self self (loaded.filter (isUnattached om)) om1
    cases hg : (AttachChildren om1 self (loaded.filter (isUnattached om))).get self with
    | none =>
      rw [hg] at this
      cases hg1 : om1.get self with
      | none => rw [hg1] at hs; simp at hs
      | some o => rw [hg1] at this; simp at this
    | some o =>
      rw [hg] at this
      cases hg1 : om1.get self with
      | none => rw [hg1] at this; simp at this
      | some o1 =>
        rw [hg1] at this hs
        simp only [Option.map_some', Option.some.injEq, Prod.mk.injEq] at this hs ⊢
        rw [this.2, hs]
  · intro p hp
    have := AttachChildren_flag_layer self p (loaded.filter (isUnattached om)) om1
    rw [hall p hp] at this
    cases hg : (AttachChildren om1 self (loaded.filter (isUnattached om))).get p with
    | none => rw [hg] at this; simp at this
    | some obj =>
      rw [hg] at this
      simp only [Option.map_some', Option.some.injEq, Prod.mk.injEq] at this
      exact ⟨obj, rfl, this.1, this.2⟩

/-- C21 at the concrete scene of the template with the nodes A and B: both loaded
objects end tagged and on the layer 3 of the instance, though they were loaded
without layer and only A becomes a direct child. -/
theorem AttachLoadedChildrenToPrefab_tags_all_witness :
    (∀ p ∈ [1, 2], (sampleLoadedScene.get p).isSome = true) ∧ (0 : ObjPtr) ∉ [1, 2]
      ∧ ∃ r, AttachLoadedChildrenToPrefab sampleLoadedScene 0 [1, 2] none = some r
          ∧ ∀ p ∈ [1, 2], ∃ obj, r.om.get p = some obj ∧ obj.m_prefabFlag = true
              ∧ obj.m_layer = some 3 := by
  refine ⟨by decide, by decide, ?_⟩
  obtain ⟨r, hr, _, hall⟩ :=
    AttachLoadedChildrenToPrefab_tags_all sampleLoadedScene 0 [1, 2] none _ rfl
      (by decide) (by decide)
  exact ⟨r, hr, hall⟩

/-! ## Accepting members: the unreachable block -/

/-- The inner loop never enters the block guarded by `this != this`: it is the loop
with the block removed, whatever the owning prefabs are. -/
theorem refusesDescendant_eq_blockRemoved (GetPrefab : ObjPtr → Option ObjPtr)
    (om : ObjectManager) (self : ObjPtr) (this : CBaseObject) :
    ∀ l : List ObjPtr,
      refusesDescendant GetPrefab om self this l
        = refusesDescendant_blockRemoved om self this l := by
  intro l
  induction l with
  | nil => rfl
  | cons p rest ih =>
    simp only [refusesDescendant, refusesDescendant_blockRemoved, bne_self_eq_false,
      Bool.false_eq_true, if_false, ih]

/-- The outer loop is the outer loop with the block removed. -/
theorem canAddLoop_eq_blockRemoved (GetPrefab : ObjPtr → Option ObjPtr) (fuel : Nat)
    (om : ObjectManager) (self : ObjPtr) (this : CBaseObject) :
    ∀ objects : List ObjPtr,
      canAddLoop GetPrefab fuel om self this objects
        = canAddLoop_blockRemoved fuel om self this objects := by
  intro objects
  induction objects with
  | nil => rfl
  | cons c rest ih =>
    simp only [canAddLoop, canAddLoop_blockRemoved, refusesDescendant_eq_blockRemoved, ih]

/-- The source function is the function with the block removed. -/
theorem CanAddMembers_eq_blockRemoved (groupCanAddMembers : Bool)
    (GetPrefab : ObjPtr → Option ObjPtr) (fuel : Nat) (om : ObjectManager) (self : ObjPtr)
    (objects : List ObjPtr) :
    CanAddMembers groupCanAddMembers GetPrefab fuel om self objects
      = CanAddMembers_blockRemoved groupCanAddMembers fuel om self objects := by
  simp only [CanAddMembers, CanAddMembers_blockRemoved, canAddLoop_eq_blockRemoved]

/-- When the inner loop reaches its `return false`, the list holds another prefab
instance with the template item of this one. -/
theorem refusesDescendant_true (GetPrefab : ObjPtr → Option ObjPtr) (om : ObjectManager)
    (self : ObjPtr) (this : CBaseObject) :
    ∀ l : List ObjPtr, refusesDescendant GetPrefab om self this l = some true →
      ∃ p ∈ l, ∃ pobj, om.get p = some pobj ∧ p ≠ self
        ∧ prefabItemOf pobj = prefabItemOf this := by
  intro l
  induction l with
  | nil => intro h; simp [refusesDescendant] at h
  | cons q rest ih =>
    intro h
    simp only [refusesDescendant] at h
    cases hq : om.get q with
    | none => simp [hq] at h
    | some qobj =>
      simp only [hq, bne_self_eq_false, Bool.false_eq_true, if_false] at h
      split at h
      · next hcond =>
        simp only [Bool.and_eq_true, bne_iff_ne, ne_eq, beq_iff_eq] at hcond
        exact ⟨q, List.mem_cons_self _ _, qobj, hq, fun e => hcond.1 e.symm, hcond.2.symm⟩
      · obtain ⟨p, hp, rest1⟩ := ih h
        exact ⟨p, List.mem_cons_of_mem _ hp, rest1⟩

/-- When the outer loop returns false, the hierarchy of some candidate contains
another prefab instance with the template item of this one. -/
theorem canAddLoop_false (GetPrefab : ObjPtr → Option ObjPtr) (fuel : Nat)
    (om : ObjectManager) (self : ObjPtr) (this : CBaseObject) :
    ∀ objects : List ObjPtr,
      canAddLoop GetPrefab fuel om self this objects = some false →
      ∃ candidate ∈ objects, hierarchyHasSameItem om self this candidate := by
  intro objects
  induction objects with
  | nil => intro h; simp [canAddLoop] at h
  | cons cand rest ih =>
    intro h
    simp only [canAddLoop] at h
    cases hroot : hierarchyRoot om fuel cand with
    | none => simp [hroot] at h
    | some root =>
      simp only [hroot] at h
      cases hdesc : GetAllPrefabObjectDescendants om fuel root with
      | none => simp [hdesc] at h
      | some desc =>
        cases hrobj : om.get root with
        | none => simp [hdesc, hrobj] at h
        | some rootObj =>
          simp only [hdesc, hrobj] at h
          cases href : refusesDescendant GetPrefab om self this
              (if rootObj.m_prefab.isSome then desc ++ [root] else desc) with
          | none => simp [href] at h
          | some b =>
            simp only [href] at h
            cases b with
            | false =>
              simp only [] at h
              obtain ⟨c, hc, hbad⟩ := ih h
              exact ⟨c, List.mem_cons_of_mem _ hc, hbad⟩
            | true =>
              obtain ⟨p, hp, pobj, hpobj, hne, hitem⟩ :=
                refusesDescendant_true GetPrefab om self this _ href
              refine ⟨cand, List.mem_cons_self _ _, root, p, pobj,
                hierarchyRoot_sound om fuel cand root hroot, ?_, hpobj, ?_, hne, hitem⟩
              · by_cases hpre : rootObj.m_prefab.isSome = true
                · simp only [hpre, if_true, List.mem_append, List.mem_singleton] at hp
                  rcases hp with hp | hp
                  · exact Or.inr
                      ((GetAllPrefabObjectDescendants_mem om fuel root desc hdesc p).1 hp).1
                  · exact Or.inl hp
                · simp only [hpre, Bool.false_eq_true, if_false] at hp
                  exact Or.inr
                    ((GetAllPrefabObjectDescendants_mem om fuel root desc hdesc p).1 hp).1
              · by_cases hpre : rootObj.m_prefab.isSome = true
                · simp only [hpre, if_true, List.mem_append, List.mem_singleton] at hp
                  rcases hp with hp | hp
                  · obtain ⟨_, pobj1, h1, h2⟩ :=
                      (GetAllPrefabObjectDescendants_mem om fuel root desc hdesc p).1 hp
                    rw [hpobj] at h1
                    cases h1
                    exact h2
                  · subst hp
                    rw [hrobj] at hpobj
                    cases hpobj
                    exact hpre
                · simp only [hpre, Bool.false_eq_true, if_false] at hp
                  obtain ⟨_, pobj1, h1, h2⟩ :=
                    (GetAllPrefabObjectDescendants_mem om fuel root desc hdesc p).1 hp
                  rw [hpobj] at h1
                  cases h1
                  exact h2

/-- C22: the block guarded by `this != this` is unreachable: `CanAddMembers` is the
function with that block removed, its result does not depend on the owning
(parent) prefabs, and whenever it returns it returns true exactly when
`CGroup::CanAddMembers` accepts and the hierarchy of no candidate contains a prefab
instance other than this one with the template item of this one; in a closed scene
with well-founded hierarchy and live candidates it does return. -/
theorem CanAddMembers_dead_block (groupCanAddMembers : Bool)
    (GetPrefab : ObjPtr → Option ObjPtr) (om : ObjectManager) (self : ObjPtr)
    (this : CBaseObject) (objects : List ObjPtr) (rank : ObjPtr → Nat) (bound : Nat)
    (hthis : om.get self = some this) :
    (∀ fuel, CanAddMembers groupCanAddMembers GetPrefab fuel om self objects
        = CanAddMembers_blockRemoved groupCanAddMembers fuel om self objects)
      ∧ (∀ fuel (GetPrefab2 : ObjPtr → Option ObjPtr),
          CanAddMembers groupCanAddMembers GetPrefab2 fuel om self objects
            = CanAddMembers groupCanAddMembers GetPrefab fuel om self objects)
      ∧ (∀ fuel res,
          CanAddMembers groupCanAddMembers GetPrefab fuel om self objects = some res →
          (res = true ↔ groupCanAddMembers = true
            ∧ ¬ ∃ candidate ∈ objects, hierarchyHasSameItem om self this candidate))
      ∧ (hierarchyWellFounded om rank → parentsWellFounded om rank bound →
          (∀ c ∈ objects, (om.get c).isSome = true) →
          ∀ fuel, bound < fuel →
            (CanAddMembers groupCanAddMembers GetPrefab fuel om self objects).isSome = true) := by
  refine ⟨fun fuel => CanAddMembers_eq_blockRemoved _ _ _ _ _ _, ?_, ?_, ?_⟩
  · intro fuel GetPrefab2
    rw [CanAddMembers_eq_blockRemoved, CanAddMembers_eq_blockRemoved]
  · intro fuel res h
    unfold CanAddMembers at h
    cases groupCanAddMembers with
    | false =>
      simp only [Bool.not_false, if_true, Option.some.injEq] at h
      simp [← h]
    | true =>
      simp only [Bool.not_true, Bool.false_eq_true, if_false, hthis] at h
      simp only [true_and]
      constructor
      · intro hres hbad
        have := canAddLoop_refuses GetPrefab fuel om self this objects res h hbad
        rw [hres] at this
        exact Bool.noConfusion this
      · intro hnone
        cases res with
        | true => rfl
        | false => exact absurd (canAddLoop_false GetPrefab fuel om self this objects h) hnone
  · intro hwf hpar hlive fuel hfuel
    unfold CanAddMembers
    cases groupCanAddMembers with
    | false => rfl
    | true =>
      simp only [Bool.not_true, Bool.false_eq_true, if_false, hthis]
      exact canAddLoop_isSome GetPrefab fuel om self this rank bound hwf hpar hfuel objects hlive

/-- C22 at the concrete scene: adding the box to the first instance is refused,
adding it to the other instance, which sits in its hierarchy, is accepted, with
and without the block. -/
theorem CanAddMembers_dead_block_witness :
    sampleNestedScene.get 3
        = some { m_guid := { hipart := 1, lopart := 3 }, m_name := "otherPrefab",
                 m_parent := some 1, m_prefab := some { m_pPrefabItem := some 5 } }
      ∧ CanAddMembers true (fun _ => some 0) 2 sampleNestedScene 3 [2] = some true
      ∧ CanAddMembers_blockRemoved true 2 sampleNestedScene 3 [2] = some true
      ∧ CanAddMembers_blockRemoved true 2 sampleNestedScene 0 [2] = some false := by
  have h := CanAddMembers_dead_block true (fun _ => some 0) sampleNestedScene 3 _ [2]
    (fun _ => 0) 0 rfl
  refine ⟨rfl, ?_, ?_, by decide⟩
  · rw [h.1 2]; decide
  · decide

/-! ## Template reference and stored identifier -/

/-- The library lookup returns a template with the identifier asked for. -/
theorem PrefabLibrary.LoadItem_some (lib : PrefabLibrary) (guid : CryGUID) (item : ItemPtr)
    (h : lib.LoadItem guid = some item) :
    ∃ prefabItem, lib.get item = some prefabItem ∧ prefabItem.m_guid = guid := by
  simp only [PrefabLibrary.LoadItem] at h
  split at h
  · next hlt =>
    simp only [Option.some.injEq] at h
    subst h
    have hp := List.findIdx_getElem (w := hlt)
    refine ⟨_, ?_, by simpa using hp⟩
    simp only [PrefabLibrary.get, List.get?_eq_getElem?, List.getElem?_eq_getElem hlt]
  · simp at h

/-- `SetPrefab(item, force)` keeps reference and identifier consistent. -/
theorem SetPrefab_item_consistent
    (loader : ObjectManager → XmlNodeRef → CryGUID → ObjectManager × List ObjPtr)
    (lib : PrefabLibrary) (selfPtr : ObjPtr) (w : EditorWorld) (self : CPrefabObject)
    (pPrefab : Option ItemPtr) (bForceReload : Bool) (r : SetPrefabResult)
    (hc : templateConsistent lib self)
    (h : SetPrefab_item loader lib selfPtr w self pPrefab bForceReload = some r) :
    templateConsistent lib r.self := by
  rcases SetPrefab_item_paths loader lib selfPtr w self pPrefab bForceReload r h with
    ⟨_, rfl⟩ | ⟨item, prefabItem, _, _, _, hitem, _, _, _, hp, hg, _, _⟩
  · exact hc
  · intro item1 prefabItem1 h1 h2
    rw [hp] at h1
    cases h1
    rw [hitem] at h2
    cases h2
    exact hg

/-- `SetPrefab(guid, force)` keeps reference and identifier consistent when the library
resolves the guid or the instance holds no template item. -/
theorem SetPrefab_guid_consistent
    (loader : ObjectManager → XmlNodeRef → CryGUID → ObjectManager × List ObjPtr)
    (lib : PrefabLibrary) (selfPtr : ObjPtr) (w : EditorWorld) (self : CPrefabObject)
    (guid : CryGUID) (bForceReload : Bool) (r : SetPrefabResult)
    (hc : templateConsistent lib self)
    (hsafe : (lib.LoadItem guid).isSome = true ∨ self.m_pPrefabItem = none)
    (h : SetPrefab_guid loader lib selfPtr w self guid bForceReload = some r) :
    templateConsistent lib r.self := by
  unfold SetPrefab_guid at h
  split at h
  · simp only [Option.some.injEq] at h
    subst h
    exact hc
  · cases hload : lib.LoadItem guid with
    | some item =>
      simp only [hload] at h
      obtain ⟨prefabItem, hget, hguid⟩ := lib.LoadItem_some guid item hload
      rcases SetPrefab_item_paths loader lib selfPtr w { self with m_prefabGUID := guid }
          (some item) bForceReload r h with
        ⟨hearly, rfl⟩ | ⟨item1, prefabItem1, _, _, hi, hitem1, _, _, _, hp, hg, _, _⟩
      · rcases hearly with hnone | ⟨hsame, _⟩
        · exact absurd hnone (by simp)
        · intro item2 prefabItem2 h1 h2
          simp only [] at hsame h1
          rw [hsame] at h1
          cases h1
          rw [hget] at h2
          cases h2
          exact hguid.symm
      · intro item2 prefabItem2 h1 h2
        rw [hp] at h1
        cases h1
        rw [hitem1] at h2
        cases h2
        exact hg
    | none =>
      simp only [hload, Option.some.injEq] at h
      rcases hsafe with hs | hs
      · rw [hload] at hs
        exact Bool.noConfusion hs
      · intro item2 prefabItem2 h1 _
        rw [← h] at h1
        exfalso
        split at h1 <;> simp [hs] at h1

/-- Every sequence of calls whose guids the library resolves keeps reference and
identifier consistent. -/
theorem runSetPrefabCalls_consistent
    (loader : ObjectManager → XmlNodeRef → CryGUID → ObjectManager × List ObjPtr)
    (lib : PrefabLibrary) (selfPtr : ObjPtr) :
    ∀ (calls : List SetPrefabCall) (st st1 : SetPrefabResult),
      (∀ guid force, SetPrefabCall.byGuid guid force ∈ calls →
        (lib.LoadItem guid).isSome = true) →
      templateConsistent lib st.self →
      runSetPrefabCalls loader lib selfPtr calls st = some st1 →
      templateConsistent lib st1.self := by
  intro calls
  induction calls with
  | nil =>
    intro st st1 _ hc h
    simp only [runSetPrefabCalls, Option.some.injEq] at h
    rw [← h]
    exact hc
  | cons call rest ih =>
    intro st st1 hres hc h
    simp only [runSetPrefabCalls] at h
    cases hstep : call.apply loader lib selfPtr st with
    | none => simp [hstep] at h
    | some st2 =>
      simp only [hstep] at h
      refine ih st2 st1 (fun g f hm => hres g f (List.mem_cons_of_mem _ hm)) ?_ h
      cases call with
      | byGuid guid force =>
        exact SetPrefab_guid_consistent loader lib selfPtr st.world st.self guid force st2 hc
          (Or.inl (hres guid force (List.mem_cons_self _ _))) hstep
      | byItem pPrefab force =>
        exact SetPrefab_item_consistent loader lib selfPtr st.world st.self pPrefab force st2
          hc hstep

/-- C25, as stated, fails: a freshly constructed instance is bound to the first
template of the concrete library, whose GUID is (3,3); `SetPrefab` with the guid
(9,9), which the library does not resolve, then stores (9,9) and keeps the
template item. -/
theorem SetPrefab_guid_stale_item :
    (runSetPrefabCalls sampleLoader sampleLibrary 0
        [SetPrefabCall.byItem (some 0) false,
         SetPrefabCall.byGuid { hipart := 9, lopart := 9 } false]
        { world := { om := sampleScene },
          self := CPrefabObject.ctor { hipart := 0, lopart := 1 } }).map
        (fun st => (st.self.m_pPrefabItem, st.self.m_prefabGUID))
        = some (some 0, { hipart := 9, lopart := 9 })
      ∧ (sampleLibrary.get 0).map (fun item => item.m_guid)
          = some { hipart := 3, lopart := 3 } := by
  decide

/-- C25, amended: in every state reached from a freshly constructed instance, or from
any consistent one, through calls of `SetPrefab(item, force)` and calls of
`SetPrefab(guid, force)` with guids the library resolves, the stored template GUID
of an instance that holds a template item is the GUID of that item; a call with
an unresolved guid keeps this too when the instance holds no template item. -/
theorem SetPrefab_template_consistent
    (loader : ObjectManager → XmlNodeRef → CryGUID → ObjectManager × List ObjPtr)
    (lib : PrefabLibrary) (selfPtr : ObjPtr) (calls : List SetPrefabCall)
    (w : EditorWorld) (id : CryGUID) (st : SetPrefabResult)
    (hres : ∀ guid force, SetPrefabCall.byGuid guid force ∈ calls →
      (lib.LoadItem guid).isSome = true)
    (hrun : runSetPrefabCalls loader lib selfPtr calls
      { world := w, self := CPrefabObject.ctor id } = some st) :
    templateConsistent lib st.self
      ∧ (∀ (st0 st1 : SetPrefabResult) calls1,
          (∀ guid force, SetPrefabCall.byGuid guid force ∈ calls1 →
            (lib.LoadItem guid).isSome = true) →
          templateConsistent lib st0.self →
          runSetPrefabCalls loader lib selfPtr calls1 st0 = some st1 →
          templateConsistent lib st1.self)
      ∧ (∀ (st0 st1 : SetPrefabResult) guid force,
          templateConsistent lib st0.self → st0.self.m_pPrefabItem = none →
          SetPrefab_guid loader lib selfPtr st0.world st0.self guid force = some st1 →
          templateConsistent lib st1.self) := by
  refine ⟨?_, ?_, ?_⟩
  · refine runSetPrefabCalls_consistent loader lib selfPtr calls _ st hres ?_ hrun
    intro item prefabItem h1 _
    simp [CPrefabObject.ctor] at h1
  · intro st0 st1 calls1 h1 h2 h3
    exact runSetPrefabCalls_consistent loader lib selfPtr calls1 st0 st1 h1 h2 h3
  · intro st0 st1 guid force h1 h2 h3
    exact SetPrefab_guid_consistent loader lib selfPtr st0.world st0.self guid force st1 h1
      (Or.inr h2) h3

/-- C25, amended, at the concrete library: binding the first template, then the guid
of the second, then forcing the second again ends with the second template and
its GUID. -/
theorem SetPrefab_template_consistent_witness :
    (∀ guid force,
        SetPrefabCall.byGuid guid force
          ∈ [SetPrefabCall.byItem (some 0) false,
             SetPrefabCall.byGuid { hipart := 4, lopart := 4 } false,
             SetPrefabCall.byItem (some 1) true] →
        (sampleLibrary.LoadItem guid).isSome = true)
      ∧ ∃ st, runSetPrefabCalls sampleLoader sampleLibrary 0
            [SetPrefabCall.byItem (some 0) false,
             SetPrefabCall.byGuid { hipart := 4, lopart := 4 } false,
             SetPrefabCall.byItem (some 1) true]
            { world := { om := sampleScene },
              self := CPrefabObject.ctor { hipart := 0, lopart := 1 } } = some st
          ∧ templateConsistent sampleLibrary st.self := by
  have hres : ∀ guid force,
      SetPrefabCall.byGuid guid force
        ∈ [SetPrefabCall.byItem (some 0) false,
           SetPrefabCall.byGuid { hipart := 4, lopart := 4 } false,
           SetPrefabCall.byItem (some 1) true] →
      (sampleLibrary.LoadItem guid).isSome = true := by
    intro guid force hm
    simp at hm
    rw [hm.1]
    decide
  refine ⟨hres, ?_⟩
  obtain ⟨st, hst⟩ := Option.isSome_iff_exists.1
    (by decide : (runSetPrefabCalls sampleLoader sampleLibrary 0
      [SetPrefabCall.byItem (some 0) false,
       SetPrefabCall.byGuid { hipart := 4, lopart := 4 } false,
       SetPrefabCall.byItem (some 1) true]
      { world := { om := sampleScene },
        self := CPrefabObject.ctor { hipart := 0, lopart := 1 } }).isSome = true)
  exact ⟨st, hst,
    (SetPrefab_template_consistent sampleLoader sampleLibrary 0 _ _ _ st hres hst).1⟩

/-! ## The pivot: properties -/

/-- A live pointer is an index of the object table. -/
theorem ObjectManager.lt_length_of_get (om : ObjectManager) (p : ObjPtr) (obj : CBaseObject)
    (h : om.get p = some obj) : p < om.m_objects.length := by
  by_contra hge
  have : om.m_objects[p]? = none := List.getElem?_eq_none (Nat.le_of_not_lt hge)
  simp [ObjectManager.get, this] at h

/-- The prefab objects of the scene are the live objects of the class
`CPrefabObject`, and each is listed once. -/
theorem FindObjectsOfType_CPrefabObject_spec (om : ObjectManager) :
    (FindObjectsOfType_CPrefabObject om).Nodup
      ∧ ∀ p, p ∈ FindObjectsOfType_CPrefabObject om
          ↔ ∃ pobj, om.get p = some pobj ∧ pobj.m_prefab.isSome = true := by
  constructor
  · exact (List.nodup_range _).filter _
  · intro p
    simp only [FindObjectsOfType_CPrefabObject, List.mem_filter, List.mem_range]
    constructor
    · rintro ⟨_, h⟩
      cases hp : om.get p with
      | none => simp [hp] at h
      | some pobj =>
        rw [hp] at h
        exact ⟨pobj, rfl, h⟩
    · rintro ⟨pobj, hp, hpre⟩
      exact ⟨om.lt_length_of_get p pobj hp, by simp [hp, hpre]⟩

/-- The loop over the cached children calls `UpdatePrefab` once on each, in order. -/
theorem updatePivotChildren_spec (om : ObjectManager) :
    ∀ cs : List ObjPtr, (∀ c ∈ cs, (om.get c).isSome = true) →
      updatePivotChildren om cs
        = some (cs.map (fun c =>
            PivotEvent.UpdatePrefab c EObjectChangedOpType.eOCOT_ModifyTransformInLibOnly)) := by
  intro cs
  induction cs with
  | nil => intro _; rfl
  | cons c rest ih =>
    intro hlive
    obtain ⟨obj, hobj⟩ := Option.isSome_iff_exists.1 (hlive c (List.mem_cons_self _ _))
    simp [updatePivotChildren, hobj, ih (fun d hd => hlive d (List.mem_cons_of_mem _ hd))]

/-- The loop over the prefab objects calls `CGroup::UpdatePivot` on the other
instances with the template GUID of this one, in list order, and makes no
`UpdatePrefab` call. -/
theorem updatePivotInstances_spec (om : ObjectManager) (self : ObjPtr) (thisGuid : CryGUID) :
    ∀ l : List ObjPtr,
      (∀ p ∈ l, ∃ pobj, om.get p = some pobj ∧ pobj.m_prefab.isSome = true) →
      ∃ events, updatePivotInstances om self thisGuid l = some events
        ∧ events.filterMap PivotEvent.pivotTarget
            = l.filter (isSiblingInstance om self thisGuid)
        ∧ events.filterMap PivotEvent.updatePrefabCall = [] := by
  intro l
  induction l with
  | nil => intro _; exact ⟨[], rfl, rfl, rfl⟩
  | cons p rest ih =>
    intro hall
    obtain ⟨pobj, hp, hpre⟩ := hall p (List.mem_cons_self _ _)
    obtain ⟨prefab, hprefab⟩ := Option.isSome_iff_exists.1 hpre
    obtain ⟨events, he, h1, h2⟩ := ih (fun q hq => hall q (List.mem_cons_of_mem _ hq))
    by_cases hskip : (prefab.m_prefabGUID != thisGuid || p == self) = true
    · refine ⟨events, ?_, ?_, h2⟩
      · simp only [updatePivotInstances, hp, hprefab, hskip, if_true, he]
      · have hsib : isSiblingInstance om self thisGuid p = false := by
          simp only [isSiblingInstance, hp, prefabGuidOf, hprefab, Option.map_some']
          simp only [Bool.or_eq_true, bne_iff_ne, ne_eq, beq_iff_eq] at hskip
          rcases hskip with h | h
          · simp [h]
          · simp [h]
        simp only [List.filter_cons, hsib, Bool.false_eq_true, if_false, h1]
    · refine ⟨[PivotEvent.SetModifyInProgress p true, PivotEvent.GroupUpdatePivot p,
          PivotEvent.SetModifyInProgress p false] ++ events, ?_, ?_, ?_⟩
      · simp only [updatePivotInstances, hp, hprefab, hskip, Bool.false_eq_true, if_false, he,
          Option.map_some']
      · have hsib : isSiblingInstance om self thisGuid p = true := by
          simp only [isSiblingInstance, hp, prefabGuidOf, hprefab, Option.map_some']
          simp only [Bool.or_eq_true, bne_iff_ne, ne_eq, beq_iff_eq, not_or, not_not] at hskip
          simp [hskip.1, hskip.2]
        simp [List.filter_cons, hsib, PivotEvent.pivotTarget, h1]
      · simp [PivotEvent.updatePrefabCall, h2]

/-- C23: `UpdatePivot` repositions the pivot of exactly the sibling instances: after
the call on this instance itself, `CGroup::UpdatePivot` is called on the prefab
objects of the scene whose template GUID is the one of this instance, this
instance excluded, each once; and each direct child of this instance receives one
`UpdatePrefab(eOCOT_ModifyTransformInLibOnly)`, in child order. -/
theorem UpdatePivot_siblings (om : ObjectManager) (self : ObjPtr) (this : CBaseObject)
    (prefab : CPrefabObject) (hthis : om.get self = some this)
    (hprefab : this.m_prefab = some prefab)
    (hlive : ∀ c ∈ this.m_childs, (om.get c).isSome = true) :
    ∃ events others, UpdatePivot om self = some events
      ∧ events.filterMap PivotEvent.pivotTarget = self :: others
      ∧ others.Nodup
      ∧ (∀ p, p ∈ others ↔ p ≠ self ∧ ∃ pobj other, om.get p = some pobj
          ∧ pobj.m_prefab = some other ∧ other.m_prefabGUID = prefab.m_prefabGUID)
      ∧ events.filterMap PivotEvent.updatePrefabCall
          = this.m_childs.map
              (fun c => (c, EObjectChangedOpType.eOCOT_ModifyTransformInLibOnly)) := by
  obtain ⟨hnd, hmem⟩ := FindObjectsOfType_CPrefabObject_spec om
  obtain ⟨ievents, hi, h1, h2⟩ :=
    updatePivotInstances_spec om self prefab.m_prefabGUID (FindObjectsOfType_CPrefabObject om)
      (fun p hp => (hmem p).1 hp)
  have hc := updatePivotChildren_spec om this.m_childs hlive
  refine ⟨[PivotEvent.SetModifyInProgress self true, PivotEvent.GroupUpdatePivot self,
        PivotEvent.SetModifyInProgress self false]
        ++ this.m_childs.map (fun c =>
            PivotEvent.UpdatePrefab c EObjectChangedOpType.eOCOT_ModifyTransformInLibOnly)
        ++ ievents,
      (FindObjectsOfType_CPrefabObject om).filter
        (isSiblingInstance om self prefab.m_prefabGUID), ?_, ?_, hnd.filter _, ?_, ?_⟩
  · simp only [UpdatePivot, hthis, hprefab, hc, hi]
  · simp [List.filterMap_append, PivotEvent.pivotTarget, h1, List.filterMap_map]
  · intro p
    rw [List.mem_filter, hmem p]
    constructor
    · rintro ⟨⟨pobj, hp, hpre⟩, hsib⟩
      obtain ⟨other, hother⟩ := Option.isSome_iff_exists.1 hpre
      simp only [isSiblingInstance, hp, prefabGuidOf, hother, Option.map_some',
        Bool.and_eq_true, beq_iff_eq, Option.some.injEq, bne_iff_ne, ne_eq] at hsib
      exact ⟨hsib.2, pobj, other, hp, hother, hsib.1⟩
    · rintro ⟨hne, pobj, other, hp, hother, hguid⟩
      refine ⟨⟨pobj, hp, by simp [hother]⟩, ?_⟩
      simp [isSiblingInstance, hp, prefabGuidOf, hother, hguid, hne]
  · simp [List.filterMap_append, PivotEvent.updatePrefabCall, h2, List.filterMap_map]
    induction this.m_childs with
    | nil => rfl
    | cons c rest ih => simp [List.filterMap_cons, ih, PivotEvent.updatePrefabCall]

/-- C23 at the concrete scene: the other instance with the template GUID (4,4) gets
its pivot updated, the instance with another GUID does not, and the two children
get one `UpdatePrefab` each. -/
theorem UpdatePivot_siblings_witness :
    (∀ c ∈ [1, 2], (samplePivotScene.get c).isSome = true)
      ∧ ∃ events, UpdatePivot samplePivotScene 0 = some events
          ∧ events.filterMap PivotEvent.pivotTarget = [0, 3]
          ∧ events.filterMap PivotEvent.updatePrefabCall
              = [(1, EObjectChangedOpType.eOCOT_ModifyTransformInLibOnly),
                 (2, EObjectChangedOpType.eOCOT_ModifyTransformInLibOnly)] := by
  refine ⟨by decide, ?_⟩
  obtain ⟨events, others, he, _, _, _, hu⟩ :=
    UpdatePivot_siblings samplePivotScene 0 _ _ rfl rfl (by decide)
  refine ⟨events, he, ?_, hu⟩
  have hev : UpdatePivot samplePivotScene 0 = some
      [PivotEvent.SetModifyInProgress 0 true, PivotEvent.GroupUpdatePivot 0,
       PivotEvent.SetModifyInProgress 0 false,
       PivotEvent.UpdatePrefab 1 EObjectChangedOpType.eOCOT_ModifyTransformInLibOnly,
       PivotEvent.UpdatePrefab 2 EObjectChangedOpType.eOCOT_ModifyTransformInLibOnly,
       PivotEvent.SetModifyInProgress 3 true, PivotEvent.GroupUpdatePivot 3,
       PivotEvent.SetModifyInProgress 3 false] := by decide
  rw [hev] at he
  cases he
  decide


/-! ## Creating a prefab from objects: properties -/

/-- Assigning a layer to an object changes the template GUID of no prefab object. -/
theorem SetLayer_prefabGuid (om : ObjectManager) (s q : ObjPtr) (l : Option LayerPtr) :
    ((om.modify s (SetLayer l)).get q).bind prefabGuidOf = (om.get q).bind prefabGuidOf := by
  rw [ObjectManager.get_modify]
  by_cases h : s = q
  · simp only [h, if_true]
    cases om.get q <;> rfl
  · simp only [h, if_false]

/-- Assigning a layer to an object leaves live objects live. -/
theorem SetLayer_live (om : ObjectManager) (s q : ObjPtr) (l : Option LayerPtr) :
    ((om.modify s (SetLayer l)).get q).isSome = (om.get q).isSome := by
  rw [ObjectManager.get_modify]
  by_cases h : s = q
  · simp only [h, if_true]
    cases om.get q <;> rfl
  · simp only [h, if_false]

/-- With at most one GUID there are no two different ones. -/
theorem no_two_of_option (o : Option CryGUID) :
    ¬ ∃ g1 ∈ o.toList ++ ([] : List CryGUID), ∃ g2 ∈ o.toList ++ ([] : List CryGUID), g1 ≠ g2 := by
  rintro ⟨g1, h1, g2, h2, hne⟩
  cases o with
  | none => simp at h1
  | some g =>
    simp only [Option.toList_some, List.append_nil, List.mem_singleton] at h1 h2
    exact hne (h1.trans h2.symm)

/-- The first loop of `CreateFrom` over well-formed owners runs to a verdict: it
reaches the `return false` exactly when two of the template GUIDs met (that of the
prefab compared against and those of the owners of the objects) differ. -/
theorem createFromCheck_spec (GetPrefab : ObjectManager → ObjPtr → Option ObjPtr)
    (om : ObjectManager) :
    ∀ (l : List ObjPtr) (cmp : Option ObjPtr),
      ownersWellFormed GetPrefab om l →
      (∀ c, cmp = some c → ((om.get c).bind prefabGuidOf).isSome = true) →
      ∃ b, createFromCheck GetPrefab om l cmp = some b ∧
        (b = true ↔
          ∃ g1 ∈ (cmp.bind (fun c => (om.get c).bind prefabGuidOf)).toList
                  ++ l.filterMap (ownerPrefabGuid GetPrefab om),
            ∃ g2 ∈ (cmp.bind (fun c => (om.get c).bind prefabGuidOf)).toList
                  ++ l.filterMap (ownerPrefabGuid GetPrefab om), g1 ≠ g2) := by
  intro l
  induction l with
  | nil =>
    intro cmp _ _
    refine ⟨false, rfl, ?_⟩
    simp only [List.filterMap_nil, Bool.false_eq_true, false_iff]
    exact no_two_of_option _
  | cons p rest ih =>
    intro cmp hwf hcmp
    have hrest : ownersWellFormed GetPrefab om rest :=
      fun q hq => hwf q (List.mem_cons_of_mem _ hq)
    obtain ⟨hp, hpo⟩ := hwf p (List.mem_cons_self _ _)
    obtain ⟨obj, hobj⟩ := Option.isSome_iff_exists.1 hp
    cases cmp with
    | none =>
      cases hgp : GetPrefab om p with
      | none =>
        obtain ⟨b, hb, hiff⟩ := ih none hrest (fun c hc => by cases hc)
        refine ⟨b, ?_, ?_⟩
        · simp only [createFromCheck, hobj, hgp]
          exact hb
        · have hown : ownerPrefabGuid GetPrefab om p = none := by
            simp only [ownerPrefabGuid, hgp, Option.none_bind]
          rw [hiff]
          simp only [List.filterMap_cons, hown]
      | some o =>
        obtain ⟨go, hgo⟩ := Option.isSome_iff_exists.1 (hpo o hgp)
        obtain ⟨b, hb, hiff⟩ := ih (some o) hrest (fun c hc => by
          cases hc
          exact hpo o hgp)
        refine ⟨b, ?_, ?_⟩
        · simp only [createFromCheck, hobj, hgp]
          exact hb
        · have hown : ownerPrefabGuid GetPrefab om p = some go := by
            simp only [ownerPrefabGuid, hgp, Option.some_bind, hgo]
          rw [hiff]
          simp only [List.filterMap_cons, hown, Option.some_bind, hgo, Option.toList_some,
            Option.none_bind, Option.toList_none, List.nil_append, List.singleton_append]
    | some c =>
      obtain ⟨gc, hgc⟩ := Option.isSome_iff_exists.1 (hcmp c rfl)
      cases hgp : GetPrefab om p with
      | none =>
        obtain ⟨b, hb, hiff⟩ := ih (some c) hrest hcmp
        refine ⟨b, ?_, ?_⟩
        · simp only [createFromCheck, hobj, hgp]
          exact hb
        · have hown : ownerPrefabGuid GetPrefab om p = none := by
            simp only [ownerPrefabGuid, hgp, Option.none_bind]
          rw [hiff]
          simp only [List.filterMap_cons, hown]
      | some o =>
        obtain ⟨go, hgo⟩ := Option.isSome_iff_exists.1 (hpo o hgp)
        have hown : ownerPrefabGuid GetPrefab om p = some go := by
          simp only [ownerPrefabGuid, hgp, Option.some_bind, hgo]
        by_cases hne : gc = go
        · obtain ⟨b, hb, hiff⟩ := ih (some c) hrest hcmp
          refine ⟨b, ?_, ?_⟩
          · simp only [createFromCheck, hobj, hgp, hgc, hgo, hne, bne_self_eq_false,
              Bool.false_eq_true, if_false]
            exact hb
          · rw [hiff]
            simp only [List.filterMap_cons, hown, Option.some_bind, hgc, Option.toList_some,
              List.singleton_append, hne, List.mem_cons]
            constructor
            · rintro ⟨g1, h1, g2, h2, hd⟩
              exact ⟨g1, by tauto, g2, by tauto, hd⟩
            · rintro ⟨g1, h1, g2, h2, hd⟩
              exact ⟨g1, by tauto, g2, by tauto, hd⟩
        · refine ⟨true, ?_, ?_⟩
          · have hb : (gc != go) = true := by
              simp only [bne_iff_ne, ne_eq]
              exact hne
            simp only [createFromCheck, hobj, hgp, hgc, hgo, hb, if_true]
          · simp only [true_iff]
            refine ⟨gc, ?_, go, ?_, hne⟩
            · simp only [Option.some_bind, hgc, Option.toList_some, List.singleton_append,
                List.mem_cons, true_or]
            · simp only [Option.some_bind, hgc, Option.toList_some, List.singleton_append,
                List.filterMap_cons, hown, List.mem_cons, true_or, or_true]

/-- The second loop of `CreateFrom` makes no `AddMember` call. -/
theorem createFromRemove_added (env : CreateFromEnv) :
    ∀ (l : List ObjPtr) (w : InstanceWorld) (events : List CreateFromEvent)
      (w2 : InstanceWorld) (events2 : List CreateFromEvent),
      createFromRemove env l w events = some (w2, events2) →
      events2.filterMap CreateFromEvent.addedMember
        = events.filterMap CreateFromEvent.addedMember := by
  intro l
  induction l with
  | nil =>
    intro w events w2 events2 h
    simp only [createFromRemove, Option.some.injEq, Prod.mk.injEq] at h
    rw [← h.2]
  | cons p rest ih =>
    intro w events w2 events2 h
    simp only [createFromRemove] at h
    cases hobj : w.om.get p with
    | none => simp only [hobj] at h; cases h
    | some obj =>
      simp only [hobj] at h
      by_cases hflag : obj.m_prefabFlag = true
      · simp only [hflag, if_true] at h
        cases hgp : env.GetPrefab w.om p with
        | none => simp only [hgp] at h; cases h
        | some owner =>
          simp only [hgp] at h
          rw [ih _ _ _ _ h]
          simp only [List.filterMap_append, List.filterMap_cons, List.filterMap_nil,
            CreateFromEvent.addedMember, List.append_nil]
      · simp only [hflag, Bool.false_eq_true, if_false] at h
        exact ih _ _ _ _ h

/-- The third loop of `CreateFrom` calls `AddMember` on every object, in list
order. -/
theorem createFromAdd_added (env : CreateFromEnv) (selfPtr : ObjPtr) :
    ∀ (l : List ObjPtr) (w : InstanceWorld) (events : List CreateFromEvent),
      (createFromAdd env selfPtr l w events).2.filterMap CreateFromEvent.addedMember
        = events.filterMap CreateFromEvent.addedMember ++ l := by
  intro l
  induction l with
  | nil =>
    intro w events
    simp only [createFromAdd, List.append_nil]
  | cons p rest ih =>
    intro w events
    simp only [createFromAdd]
    rw [ih]
    simp only [List.filterMap_append, List.filterMap_cons, List.filterMap_nil,
      CreateFromEvent.addedMember, List.append_assoc, List.singleton_append]

/-- The third loop of `CreateFrom` keeps a template item when the collaborators
do. -/
theorem createFromAdd_item (env : CreateFromEnv) (selfPtr : ObjPtr)
    (henv : env.wellBehaved) :
    ∀ (l : List ObjPtr) (w : InstanceWorld) (events : List CreateFromEvent),
      w.self.m_pPrefabItem.isSome = true →
      (createFromAdd env selfPtr l w events).1.self.m_pPrefabItem.isSome = true := by
  intro l
  induction l with
  | nil =>
    intro w events h
    exact h
  | cons p rest ih =>
    intro w events h
    simp only [createFromAdd]
    exact ih _ _ (henv.2.2.2 w selfPtr p h)

/-- The second loop of `CreateFrom` runs to its end over live objects when the
collaborators are well behaved, and keeps the template item. -/
theorem createFromRemove_total (env : CreateFromEnv) (henv : env.wellBehaved) :
    ∀ (l : List ObjPtr) (w : InstanceWorld) (events : List CreateFromEvent),
      (∀ p ∈ l, (w.om.get p).isSome = true) →
      w.self.m_pPrefabItem.isSome = true →
      ∃ w2 events2, createFromRemove env l w events = some (w2, events2)
        ∧ w2.self.m_pPrefabItem.isSome = true := by
  intro l
  induction l with
  | nil =>
    intro w events _ hitem
    exact ⟨w, events, rfl, hitem⟩
  | cons p rest ih =>
    intro w events hlive hitem
    obtain ⟨obj, hobj⟩ := Option.isSome_iff_exists.1 (hlive p (List.mem_cons_self _ _))
    have hrest : ∀ q ∈ rest, (w.om.get q).isSome = true :=
      fun q hq => hlive q (List.mem_cons_of_mem _ hq)
    by_cases hflag : obj.m_prefabFlag = true
    · obtain ⟨owner, howner⟩ := Option.isSome_iff_exists.1 (henv.1 w p obj hobj hflag)
      obtain ⟨w2, events2, h2, hi2⟩ :=
        ih (env.RemoveMember w owner p) (events ++ [CreateFromEvent.RemoveMember owner p])
          (fun q hq => henv.2.1 w owner p q (hrest q hq)) (henv.2.2.1 w owner p hitem)
      refine ⟨w2, events2, ?_, hi2⟩
      simp only [createFromRemove, hobj, hflag, if_true, howner]
      exact h2
    · obtain ⟨w2, events2, h2, hi2⟩ := ih w events hrest hitem
      refine ⟨w2, events2, ?_, hi2⟩
      simp only [createFromRemove, hobj, hflag, Bool.false_eq_true, if_false]
      exact h2


/-- The start of `CreateFrom` over live objects: the scene after it is the scene
before it, up to a layer assignment to the prefab; the members of the prefab are
as before, and the trace holds no membership call. -/
theorem createFromPrologue_spec (selfPtr : ObjPtr) (w : InstanceWorld) (objects : List ObjPtr)
    (hlive : ∀ p ∈ objects, (w.om.get p).isSome = true) :
    ∃ w1 pParent events1, createFromPrologue selfPtr w objects = some (w1, pParent, events1)
      ∧ (w1.om = w.om ∨ ∃ l, w1.om = w.om.modify selfPtr (SetLayer l))
      ∧ w1.self = w.self
      ∧ (∀ e ∈ events1, e.isMembership = false)
      ∧ events1.filterMap CreateFromEvent.addedMember = [] := by
  cases hlast : objects.getLast? with
  | none =>
    refine ⟨w, none, [CreateFromEvent.ClearSelection], ?_, Or.inl rfl, rfl, ?_, rfl⟩
    · simp only [createFromPrologue, hlast]
    · intro e he
      simp only [List.mem_singleton] at he
      rw [he]
      rfl
  | some pLast =>
    have hmem : pLast ∈ objects := List.mem_of_getLast?_eq_some hlast
    obtain ⟨last, hl⟩ := Option.isSome_iff_exists.1 (hlive pLast hmem)
    refine ⟨{ om := w.om.modify selfPtr (SetLayer last.m_layer), self := w.self },
      last.m_parent, [CreateFromEvent.ClearSelection, CreateFromEvent.SetLayer last.m_layer],
      ?_, Or.inr ⟨last.m_layer, rfl⟩, rfl, ?_, rfl⟩
    · simp only [createFromPrologue, hlast, hl]
    · intro e he
      simp only [List.mem_cons, List.mem_singleton, List.not_mem_nil, or_false] at he
      rcases he with he | he <;> rw [he] <;> rfl

/-- C24: `CreateFrom(objects)` refuses objects owned by different prefabs. Over live
objects whose owners are live prefab objects (the owner of an object not depending
on the layer of the new prefab): whenever the call returns, it returns false
exactly when two of the objects are owned by prefab instances with different
template GUIDs; a call that returns false has made no `RemoveMember` and no
`AddMember` call and left the members of the prefab as they were; a call that
returns true has called `AddMember` on every object of the list, in list order.
With two such objects the call does return (false); without, it returns (true)
when the prefab has its template item and the collaborators are well behaved. -/
theorem CreateFrom_refuses_mixed_owners (env : CreateFromEnv) (selfPtr : ObjPtr)
    (w : InstanceWorld) (objects : List ObjPtr)
    (hwf : ownersWellFormed env.GetPrefab w.om objects)
    (hlayer : ∀ l p, env.GetPrefab (w.om.modify selfPtr (SetLayer l)) p = env.GetPrefab w.om p) :
    (∀ r, CreateFrom env selfPtr w objects = some r →
        (r.result = false ↔ ownedByDifferentPrefabs env.GetPrefab w.om objects)
        ∧ (r.result = false →
            (∀ e ∈ r.events, e.isMembership = false) ∧ r.world.self = w.self)
        ∧ (r.result = true →
            r.events.filterMap CreateFromEvent.addedMember = objects))
    ∧ (ownedByDifferentPrefabs env.GetPrefab w.om objects →
        ∃ r, CreateFrom env selfPtr w objects = some r ∧ r.result = false)
    ∧ (¬ ownedByDifferentPrefabs env.GetPrefab w.om objects →
        env.wellBehaved → w.self.m_pPrefabItem.isSome = true →
        ∃ r, CreateFrom env selfPtr w objects = some r ∧ r.result = true) := by
  have hlive : ∀ p ∈ objects, (w.om.get p).isSome = true := fun p hp => (hwf p hp).1
  obtain ⟨w1, pParent, events1, hpro, hom, hself, hev, hadd⟩ :=
    createFromPrologue_spec selfPtr w objects hlive
  have hget : ∀ q, (w1.om.get q).bind prefabGuidOf = (w.om.get q).bind prefabGuidOf := by
    intro q
    rcases hom with h | ⟨l, h⟩
    · rw [h]
    · rw [h]
      exact SetLayer_prefabGuid _ _ _ _
  have hlv : ∀ q, (w1.om.get q).isSome = (w.om.get q).isSome := by
    intro q
    rcases hom with h | ⟨l, h⟩
    · rw [h]
    · rw [h]
      exact SetLayer_live _ _ _ _
  have hgp : ∀ p, env.GetPrefab w1.om p = env.GetPrefab w.om p := by
    intro p
    rcases hom with h | ⟨l, h⟩
    · rw [h]
    · rw [h]
      exact hlayer l p
  have hguid : ∀ p, ownerPrefabGuid env.GetPrefab w1.om p
      = ownerPrefabGuid env.GetPrefab w.om p := by
    intro p
    simp only [ownerPrefabGuid, hgp, hget]
  have hwf1 : ownersWellFormed env.GetPrefab w1.om objects := by
    intro p hp
    refine ⟨by rw [hlv]; exact (hwf p hp).1, ?_⟩
    intro owner ho
    rw [hget]
    exact (hwf p hp).2 owner (by rw [← hgp]; exact ho)
  have hlive1 : ∀ p ∈ objects, (w1.om.get p).isSome = true := fun p hp => (hwf1 p hp).1
  obtain ⟨b, hb, hiff⟩ :=
    createFromCheck_spec env.GetPrefab w1.om objects none hwf1 (fun c hc => by cases hc)
  have hconf : b = true ↔ ownedByDifferentPrefabs env.GetPrefab w.om objects := by
    rw [hiff]
    simp only [Option.none_bind, Option.toList_none, List.nil_append, List.mem_filterMap,
      ownedByDifferentPrefabs, hguid]
    constructor
    · rintro ⟨g1, ⟨a, ha, hga⟩, g2, ⟨c, hc, hgc⟩, hne⟩
      exact ⟨a, ha, c, hc, g1, g2, hga, hgc, hne⟩
    · rintro ⟨a, ha, c, hc, g1, g2, hga, hgc, hne⟩
      exact ⟨g1, ⟨a, ha, hga⟩, g2, ⟨c, hc, hgc⟩, hne⟩
  have hrun : CreateFrom env selfPtr w objects
      = createFromBody env selfPtr objects w1 pParent events1 := by
    simp only [CreateFrom, hpro]
  rw [hrun]
  cases b with
  | true =>
    have hconflict := hconf.1 rfl
    have hbody : createFromBody env selfPtr objects w1 pParent events1
        = some { result := false, world := w1,
                 events := events1 ++ [CreateFromEvent.CryWarning
                   "Cannot Create a new prefab from these objects, they are already owned by different prefabs"] } := by
      simp only [createFromBody, hb]
    rw [hbody]
    refine ⟨?_, fun _ => ⟨_, rfl, rfl⟩, fun hno => absurd hconflict hno⟩
    intro r hr
    simp only [Option.some.injEq] at hr
    subst hr
    refine ⟨⟨fun _ => hconflict, fun _ => rfl⟩, fun _ => ⟨?_, hself⟩,
      fun h => by cases h⟩
    intro e he
    simp only [List.mem_append, List.mem_singleton] at he
    rcases he with he | he
    · exact hev e he
    · rw [he]
      rfl
  | false =>
    have hno : ¬ ownedByDifferentPrefabs env.GetPrefab w.om objects :=
      fun h => by cases hconf.2 h
    refine ⟨?_, fun h => absurd h hno, ?_⟩
    · intro r hr
      simp only [createFromBody, hb] at hr
      cases hrem : createFromRemove env objects w1 events1 with
      | none => simp only [hrem] at hr; cases hr
      | some res =>
        obtain ⟨w2, events2⟩ := res
        simp only [hrem] at hr
        have hadd2 := createFromRemove_added env objects w1 events1 w2 events2 hrem
        have hadd3 := createFromAdd_added env selfPtr objects w2 events2
        rw [hadd2, hadd, List.nil_append] at hadd3
        cases pParent with
        | none =>
          simp only at hr
          cases hitem : (createFromAdd env selfPtr objects w2 events2).1.self.m_pPrefabItem with
          | none => simp only [hitem] at hr; cases hr
          | some item =>
            simp only [hitem, Option.some.injEq] at hr
            subst hr
            refine ⟨⟨fun h => (by cases h), fun h => absurd h hno⟩, fun h => (by cases h), fun _ => ?_⟩
            simp only [List.filterMap_append, hadd3, List.filterMap_cons, List.filterMap_nil,
              CreateFromEvent.addedMember, List.append_nil]
        | some parent =>
          simp only at hr
          cases hitem : (env.AddMember (createFromAdd env selfPtr objects w2 events2).1
              parent selfPtr).self.m_pPrefabItem with
          | none => simp only [hitem] at hr; cases hr
          | some item =>
            simp only [hitem, Option.some.injEq] at hr
            subst hr
            refine ⟨⟨fun h => (by cases h), fun h => absurd h hno⟩, fun h => (by cases h), fun _ => ?_⟩
            simp only [List.filterMap_append, hadd3, List.filterMap_cons, List.filterMap_nil,
              CreateFromEvent.addedMember, List.append_nil]
    · intro _ henv hitem
      have hitem1 : w1.self.m_pPrefabItem.isSome = true := by rw [hself]; exact hitem
      obtain ⟨w2, events2, hrem, hi2⟩ :=
        createFromRemove_total env henv objects w1 events1 hlive1 hitem1
      have hi3 := createFromAdd_item env selfPtr henv objects w2 events2 hi2
      cases pParent with
      | none =>
        obtain ⟨item, hi⟩ := Option.isSome_iff_exists.1 hi3
        refine ⟨{ result := true, world := (createFromAdd env selfPtr objects w2 events2).1,
                  events := (createFromAdd env selfPtr objects w2 events2).2 ++
                    [CreateFromEvent.SelectObject, CreateFromEvent.SetModifiedFlag,
                     CreateFromEvent.ItemSetModified item] }, ?_, rfl⟩
        simp only [createFromBody, hb, hrem, hi]
      | some parent =>
        have hi4 := henv.2.2.2 (createFromAdd env selfPtr objects w2 events2).1 parent selfPtr hi3
        obtain ⟨item, hi⟩ := Option.isSome_iff_exists.1 hi4
        refine ⟨{ result := true,
                  world := env.AddMember (createFromAdd env selfPtr objects w2 events2).1
                    parent selfPtr,
                  events := ((createFromAdd env selfPtr objects w2 events2).2 ++
                    [CreateFromEvent.ParentAddMember parent]) ++
                    [CreateFromEvent.SelectObject, CreateFromEvent.SetModifiedFlag,
                     CreateFromEvent.ItemSetModified item] }, ?_, rfl⟩
        simp only [createFromBody, hb, hrem, hi]


/-- In the concrete scene the owner of an object does not depend on the layer of the
new prefab. -/
theorem sampleCreateEnv_layer (om : ObjectManager) (selfPtr : ObjPtr) (l : Option LayerPtr)
    (p : ObjPtr) :
    sampleCreateEnv.GetPrefab (om.modify selfPtr (SetLayer l)) p
      = sampleCreateEnv.GetPrefab om p := by
  simp only [sampleCreateEnv]
  rw [ObjectManager.get_modify]
  by_cases h : selfPtr = p
  · simp only [h, if_true]
    cases om.get p <;> rfl
  · simp only [h, if_false]

/-- In the concrete scene the objects 1, 5 and 2 are live and the owners of 1 and 2
are live prefab objects. -/
theorem sampleCreateScene_wellFormed :
    ownersWellFormed sampleCreateEnv.GetPrefab sampleCreateWorld.om [1, 5, 2] := by
  intro p hp
  simp only [List.mem_cons, List.mem_singleton, List.not_mem_nil, or_false] at hp
  rcases hp with rfl | rfl | rfl
  · refine ⟨by decide, ?_⟩
    intro owner h
    have h3 : owner = 3 := by
      have e : sampleCreateEnv.GetPrefab sampleCreateWorld.om 1 = some 3 := by decide
      rw [e] at h
      exact (Option.some.inj h).symm
    rw [h3]
    decide
  · refine ⟨by decide, ?_⟩
    intro owner h
    have e : sampleCreateEnv.GetPrefab sampleCreateWorld.om 5 = none := by decide
    rw [e] at h
    cases h
  · refine ⟨by decide, ?_⟩
    intro owner h
    have h4 : owner = 4 := by
      have e : sampleCreateEnv.GetPrefab sampleCreateWorld.om 2 = some 4 := by decide
      rw [e] at h
      exact (Option.some.inj h).symm
    rw [h4]
    decide

/-- Concrete run of C24: the boxes 1 and 2 are owned by instances of the templates
(4,4) and (3,3), so a prefab is not created from the boxes 1, 5 and 2; the call
returns false. -/
theorem CreateFrom_refuses_mixed_owners_witness :
    ownersWellFormed sampleCreateEnv.GetPrefab sampleCreateWorld.om [1, 5, 2]
      ∧ ownedByDifferentPrefabs sampleCreateEnv.GetPrefab sampleCreateWorld.om [1, 5, 2]
      ∧ ∃ r, CreateFrom sampleCreateEnv 0 sampleCreateWorld [1, 5, 2] = some r
          ∧ r.result = false :=
  have hconf : ownedByDifferentPrefabs sampleCreateEnv.GetPrefab sampleCreateWorld.om
      [1, 5, 2] :=
    ⟨1, by decide, 2, by decide, { hipart := 4, lopart := 4 }, { hipart := 3, lopart := 3 },
      by decide, by decide, by decide⟩
  ⟨sampleCreateScene_wellFormed, hconf,
    (CreateFrom_refuses_mixed_owners sampleCreateEnv 0 sampleCreateWorld [1, 5, 2]
      sampleCreateScene_wellFormed
      (fun l p => sampleCreateEnv_layer sampleCreateWorld.om 0 l p)).2.1 hconf⟩

/-- Concrete runs of `CreateFrom`: from the boxes 1, 5 and 2 nothing is removed or
added; from the boxes 1 and 5 the box 1 is removed from its instance and both are
added, in list order. -/
theorem CreateFrom_sample_runs :
    (CreateFrom sampleCreateEnv 0 sampleCreateWorld [1, 5, 2]).map
        (fun r => (r.result, r.events))
      = some (false, [CreateFromEvent.ClearSelection, CreateFromEvent.SetLayer none,
          CreateFromEvent.CryWarning
            "Cannot Create a new prefab from these objects, they are already owned by different prefabs"])
    ∧ (CreateFrom sampleCreateEnv 0 sampleCreateWorld [1, 5]).map
        (fun r => (r.result, r.events))
      = some (true, [CreateFromEvent.ClearSelection, CreateFromEvent.SetLayer none,
          CreateFromEvent.RemoveMember 3 1, CreateFromEvent.AddMember 1,
          CreateFromEvent.AddMember 5, CreateFromEvent.SelectObject,
          CreateFromEvent.SetModifiedFlag, CreateFromEvent.ItemSetModified 1]) :=
  ⟨rfl, rfl⟩


/-- Concrete run of C26, amended: the concrete instance bound to the template item 4
forwards its two pending records to that item, in queue order. -/
theorem SetAutoUpdatePrefab_forwards_or_drops_witness :
    (SetAutoUpdatePrefab { sampleInstance with m_pPrefabItem := some 4 } true).forwarded
      = [{ item := 4,
           context := { m_operation := EObjectChangedOpType.eOCOT_Delete,
                        m_modifiedObjectGlobalId := { hipart := 1, lopart := 2 } } },
         { item := 4,
           context := { m_operation := EObjectChangedOpType.eOCOT_Add,
                        m_modifiedObjectGlobalId := { hipart := 1, lopart := 2 } } }] :=
  ((SetAutoUpdatePrefab_forwards_or_drops
      { sampleInstance with m_pPrefabItem := some 4 }).1 4 rfl).1

end PrefabObject
